import Mathlib

/-!
# go-forecast: the regression core, embedded in Lean

A shallow embedding of `models/linear.go` (OLS, the three Lasso solvers,
`SoftThreshold`) and of `forecast/featureset.go`, `forecast/featurelabels.go`.

Conventions of the embedding.

* `float64` is read as exact arithmetic in a linearly ordered field `K`
  (the definitions run on `ℚ`).  The quotient `x / 0`, which is `±Inf` or `NaN`
  in Go, has no exact counterpart; Lean evaluates it to `0`.
* A Go slice is a `List`; a Go map is an association list whose order stands
  for the iteration order the runtime happens to choose.
* A Go `panic` and a returned `error` are both values of `Failure`, so every
  translated function is total and returns `Except Failure _`.
* The gonum routines (`mat.Dense`, `floats.*`, `mat.QR`) are modelled from
  their documentation, including the panics they document on a shape or
  length mismatch.
-/

namespace GoForecast

/-! ## Definitions -/

deriving instance DecidableEq for Except

/-- Reasons for which the Go runtime or gonum panics in the translated code. -/
inductive PanicKind
  | indexOutOfRange
  | lengthMismatch
  | dimensionMismatch
  | zeroLength
  deriving DecidableEq, Repr

/-- Ways in which a translated function fails: the errors returned by
`models/linear.go`, or a panic. -/
inductive Failure
  | noObservations
  | obsYSizeMismatch
  | warmStartBetaSize
  | panic (kind : PanicKind)
  deriving DecidableEq, Repr

/-- A returned `float64`: an exact value, or the `math.NaN()` that the solvers
return for an empty coefficient vector. -/
inductive F64 (K : Type)
  | NaN
  | val (x : K)
  deriving DecidableEq, Repr

section Numeric

variable {K : Type} [LinearOrderedField K]

/-- `models.SoftThreshold`.  `math.Signbit x` is read as `x < 0` (exact
arithmetic has no negative zero). -/
def SoftThreshold (x gamma : K) : K :=
  let res := max 0 (|x| - gamma)
  if x < 0 then -res else res

/-! ### gonum `floats` -/

/-- `floats.Dot`: panics when the lengths differ. -/
def floatsDot (s1 s2 : List K) : Except Failure K :=
  if s1.length ≠ s2.length then .error (.panic .lengthMismatch)
  else .ok ((List.zipWith (· * ·) s1 s2).sum)

/-- `floats.Add(dst, s)`: `dst[i] += s[i]`; panics when the lengths differ.
Returns the new contents of `dst`. -/
def floatsAdd (dst s : List K) : Except Failure (List K) :=
  if dst.length ≠ s.length then .error (.panic .lengthMismatch)
  else .ok (List.zipWith (· + ·) dst s)

/-- `floats.Sub(dst, s)`: `dst[i] -= s[i]`; panics when the lengths differ. -/
def floatsSub (dst s : List K) : Except Failure (List K) :=
  if dst.length ≠ s.length then .error (.panic .lengthMismatch)
  else .ok (List.zipWith (· - ·) dst s)

/-- `floats.SubTo(dst, s, t)`: `dst[i] = s[i] - t[i]`; panics when the lengths
of `s`, `t` or `dst` differ.  Returns the new contents of `dst`. -/
def floatsSubTo (dst s t : List K) : Except Failure (List K) :=
  if s.length ≠ t.length ∨ dst.length ≠ s.length then .error (.panic .lengthMismatch)
  else .ok (List.zipWith (· - ·) s t)

/-- `floats.ScaleTo(dst, c, s)`: `dst[i] = c * s[i]`; panics when the lengths
differ.  Returns the new contents of `dst`. -/
def floatsScaleTo (dst : List K) (c : K) (s : List K) : Except Failure (List K) :=
  if dst.length ≠ s.length then .error (.panic .lengthMismatch)
  else .ok (s.map (c * ·))

/-- `floats.Scale(c, dst)`: `dst[i] *= c`. -/
def floatsScale (c : K) (dst : List K) : List K := dst.map (c * ·)

/-- `floats.AddConst(c, dst)`: `dst[i] += c`. -/
def floatsAddConst (c : K) (dst : List K) : List K := dst.map (· + c)

/-- A Go slice store `s[i] = v`: panics when `i` is out of range. -/
def sliceSet {α : Type} (s : List α) (i : ℕ) (v : α) : Except Failure (List α) :=
  if i < s.length then .ok (s.set i v) else .error (.panic .indexOutOfRange)

/-! ### gonum `mat.Dense` -/

/-- A `mat.Dense`: `rows × cols`, backed by a row-major slice.  The zero value
(`rows = cols = 0`, no data) is the empty matrix. -/
structure Dense (K : Type) where
  rows : ℕ
  cols : ℕ
  data : List K
  deriving DecidableEq, Repr

/-- `Dense.At(i, j)`, the element `data[i*cols + j]`.  (gonum panics when `i`
or `j` is out of range; every use below is in range, and out of range this
reads `0`.) -/
def Dense.At (a : Dense K) (i j : ℕ) : K := a.data.getD (i * a.cols + j) 0

/-- The `r × c` matrix with entries `f i j`. -/
def Dense.ofFn (r c : ℕ) (f : ℕ → ℕ → K) : Dense K :=
  ⟨r, c, (List.range (r * c)).map fun k => f (k / c) (k % c)⟩

/-- `mat.NewDense(r, c, data)`.  With `data == nil` (`none`) a zero slice is
allocated; otherwise `data` is the backing slice and must have length `r*c`.
gonum documents: "NewDense will panic if either r or c is zero". -/
def NewDense (r c : ℕ) (data : Option (List K)) : Except Failure (Dense K) :=
  if r = 0 ∨ c = 0 then .error (.panic .zeroLength)
  else match data with
    | none => .ok ⟨r, c, List.replicate (r * c) 0⟩
    | some d => if d.length = r * c then .ok ⟨r, c, d⟩ else .error (.panic .dimensionMismatch)

/-- `Dense.T()`, the transpose. -/
def Dense.T (a : Dense K) : Dense K := Dense.ofFn a.cols a.rows fun i j => a.At j i

/-- `Dense.ColView(j)`, column `j` as a vector. -/
def Dense.ColView (a : Dense K) (j : ℕ) : List K := (List.range a.rows).map fun i => a.At i j

/-- `Dense.RowView(i)` / `RawRowView(i)`, row `i` as a vector. -/
def Dense.RowView (a : Dense K) (i : ℕ) : List K := (List.range a.cols).map fun j => a.At i j

/-- `mat.Dot(a, b)` on vectors: panics when the lengths differ. -/
def matDot (a b : List K) : Except Failure K := floatsDot a b

/-- `receiver.Mul(a, b)`: the matrix product; panics when `a.cols ≠ b.rows`. -/
def Dense.Mul (a b : Dense K) : Except Failure (Dense K) :=
  if a.cols ≠ b.rows then .error (.panic .dimensionMismatch)
  else .ok (Dense.ofFn a.rows b.cols fun i j => ∑ k in Finset.range a.cols, a.At i k * b.At k j)

/-- `receiver.Add(a, b)`: the entrywise sum; panics when the shapes differ. -/
def Dense.Add (a b : Dense K) : Except Failure (Dense K) :=
  if a.rows ≠ b.rows ∨ a.cols ≠ b.cols then .error (.panic .dimensionMismatch)
  else .ok (Dense.ofFn a.rows a.cols fun i j => a.At i j + b.At i j)

/-- `receiver.Sub(a, b)`: the entrywise difference; panics when the shapes differ. -/
def Dense.Sub (a b : Dense K) : Except Failure (Dense K) :=
  if a.rows ≠ b.rows ∨ a.cols ≠ b.cols then .error (.panic .dimensionMismatch)
  else .ok (Dense.ofFn a.rows a.cols fun i j => a.At i j - b.At i j)

/-- `receiver.Scale(f, a)`: the entrywise multiple. -/
def Dense.Scale (f : K) (a : Dense K) : Dense K :=
  Dense.ofFn a.rows a.cols fun i j => f * a.At i j

/-- `Dense.Set(i, j, v)`. -/
def Dense.Set (a : Dense K) (i j : ℕ) (v : K) : Dense K :=
  { a with data := a.data.set (i * a.cols + j) v }

/-! ### `models.OLS` -/

/-- The inner loop of the back-substitution in `OLS`:
`for j := i + 1; j < n; j++ { c[i] -= c[j] * r.At(i, j) }`. -/
def olsInner (r : Dense K) (n i : ℕ) (c : List K) : List K :=
  (List.range' (i + 1) (n - (i + 1))).foldl
    (fun c j => c.set i (c.getD i 0 - c.getD j 0 * r.At i j)) c

/-- One pass of the outer loop of the back-substitution in `OLS`, for row `i`. -/
def olsRow (yq r : Dense K) (n : ℕ) (c : List K) (i : ℕ) : List K :=
  let c := c.set i (yq.At 0 i)
  let c := olsInner r n i c
  c.set i (c.getD i 0 / r.At i i)

/-- The back-substitution of `OLS`: `for i := n - 1; i >= 0; i--`. -/
def olsBackSubstitute (yq r : Dense K) (n : ℕ) : List K :=
  (List.range n).reverse.foldl (olsRow yq r n) (List.replicate n 0)

/-- The output split shared by `OLS` and the Lasso solvers:
`(NaN, nil)`, `(c[0], nil)` or `(c[0], c[1:])`. -/
def splitCoef (c : List K) : F64 K × List K :=
  match c with
  | [] => (.NaN, [])
  | [c0] => (.val c0, [])
  | c0 :: rest => (.val c0, rest)

/-- `models.OLS`.  The QR factorisation is gonum's; it is taken as a parameter
`factorize`, giving the `m × m` factor `Q` (`qr.QTo`) and the `m × n` factor
`R` (`qr.RTo`).  `qr.Factorize` panics when the matrix has fewer rows than
columns. -/
def OLS (factorize : Dense K → Dense K × Dense K) (obs y : Dense K) :
    Except Failure (F64 K × List K) :=
  let n := obs.cols
  if obs.rows < obs.cols then .error (.panic .dimensionMismatch)
  else
    let q := (factorize obs).1
    let r := (factorize obs).2
    match Dense.Mul y q with
    | .error e => .error e
    | .ok yq => .ok (splitCoef (olsBackSubstitute yq r n))

/-! ### `models.LassoRegression3` -/

/-- `models.LassoOptions`.  `WarmStartBeta` is `none` for a nil slice. -/
structure LassoOptions (K : Type) where
  WarmStartBeta : Option (List K)
  Lambda : K
  Iterations : ℤ
  Tolerance : K

/-- `models.NewDefaultLassoOptions`. -/
def NewDefaultLassoOptions : LassoOptions K :=
  { Lambda := 1, Iterations := 1000, Tolerance := 1 / 10000, WarmStartBeta := none }

/-- The Go builtin `copy(dst, src)`: overwrites the first `min (len dst) (len src)`
elements of `dst`.  Returns the new contents of `dst`. -/
def goCopy {α : Type} (dst src : List α) : List α :=
  src.take dst.length ++ dst.drop src.length

/-- The initial coefficients of `LassoRegression2` and `LassoRegression3`:
`beta := make([]float64, n); if opt.WarmStartBeta != nil { copy(beta, opt.WarmStartBeta) }`. -/
def lassoInitBeta (n : ℕ) (warm : Option (List K)) : List K :=
  match warm with
  | some w => goCopy (List.replicate n 0) w
  | none => List.replicate n 0

/-- The variables of `LassoRegression3` that live across loop iterations. -/
structure LassoState (K : Type) where
  beta : List K
  residual : List K
  betaX : List K
  betaXDelta : List K
  maxCoef : K
  maxUpdate : K
  betaDiff : K
  deriving DecidableEq, Repr

/-- The body of the inner loop of `LassoRegression3` for column `j` in sweep `i`, in exact
arithmetic: every float64 operation is the operation of the ordered field `K`, without
rounding, and a division by zero gives `0`.  The embedding with every operation rounded
to float64 is `lasso3CoordF64`. -/
def lasso3Coord (obs : List (List K)) (y xdot : List K) (lambda : K) (i : ℕ)
    (s : LassoState K) (j : ℕ) : Except Failure (LassoState K) :=
  let betaCurr := s.beta.getD j 0
  if i ≠ 0 ∧ betaCurr = 0 then .ok s
  else do
    let betaX ← floatsAdd s.betaX s.betaXDelta
    let residual ← floatsSubTo s.residual y betaX
    let obsCol := obs.getD j []
    let num ← floatsDot obsCol residual
    let betaNext := num / xdot.getD j 0 + betaCurr
    let gamma := lambda / xdot.getD j 0
    let betaNext := SoftThreshold betaNext gamma
    let maxCoef := max s.maxCoef betaNext
    let maxUpdate := max s.maxUpdate |betaNext - betaCurr|
    let betaDiff := betaNext - betaCurr
    let betaXDelta ← floatsScaleTo s.betaXDelta betaDiff obsCol
    .ok { beta := s.beta.set j betaNext, residual := residual, betaX := betaX,
          betaXDelta := betaXDelta, maxCoef := maxCoef, maxUpdate := maxUpdate,
          betaDiff := betaDiff }

/-- One sweep `i` of `LassoRegression3`: resets `maxCoef`, `maxUpdate`, `betaDiff`
and runs the inner loop `for j := 0; j < n; j++`. -/
def lasso3Sweep (obs : List (List K)) (y xdot : List K) (lambda : K) (i : ℕ)
    (s : LassoState K) : Except Failure (LassoState K) :=
  (List.range obs.length).foldlM (lasso3Coord obs y xdot lambda i)
    { s with maxCoef := 0, maxUpdate := 0, betaDiff := 0 }

/-- The outer loop `for i := 0; i < opt.Iterations; i++` of `LassoRegression3`, entered
at sweep `i` with `fuel` sweeps left.  Returns the final state together with the
number of sweeps that were executed. -/
def lasso3Loop (obs : List (List K)) (y xdot : List K) (lambda tol : K) :
    ℕ → ℕ → LassoState K → Except Failure (LassoState K × ℕ)
  | 0, i, s => .ok (s, i)
  | fuel + 1, i, s =>
    match lasso3Sweep obs y xdot lambda i s with
    | .error e => .error e
    | .ok s' =>
      if s'.maxUpdate < tol * s'.maxCoef then .ok (s', i + 1)
      else lasso3Loop obs y xdot lambda tol fuel (i + 1) s'

/-- The state of `LassoRegression3` on entry to its outer loop. -/
def lasso3Init (obs : List (List K)) (opt : LassoOptions K) : LassoState K :=
  let n := obs.length
  let m := (obs.getD 0 []).length
  let beta := lassoInitBeta n opt.WarmStartBeta
  { beta := beta, residual := List.replicate m 0, betaX := List.replicate m 0,
    betaXDelta := List.replicate m 0, maxCoef := 0, maxUpdate := 0, betaDiff := 0 }

/-- The per-column squared norms `xdot[i] = floats.Dot(obs[i], obs[i])`. -/
def lassoXdot (obs : List (List K)) : List K :=
  obs.map fun xi => (List.zipWith (· * ·) xi xi).sum

/-- `LassoRegression3` after its argument checks: the final loop state and the number
of sweeps executed. -/
def lasso3Solve (obs : List (List K)) (y : List K) (opt : LassoOptions K) :
    Except Failure (LassoState K × ℕ) :=
  lasso3Loop obs y (lassoXdot obs) opt.Lambda opt.Tolerance opt.Iterations.toNat 0
    (lasso3Init obs opt)

/-- `models.LassoRegression3`.  `opt = none` is the nil options pointer. -/
def LassoRegression3 (obs : List (List K)) (y : List K) (opt : Option (LassoOptions K)) :
    Except Failure (F64 K × List K) :=
  let opt := opt.getD NewDefaultLassoOptions
  let n := obs.length
  if n = 0 then .error .noObservations
  else
    let m := (obs.getD 0 []).length
    let ym := y.length
    if m ≠ ym then .error .obsYSizeMismatch
    else if opt.WarmStartBeta.isSome ∧ (opt.WarmStartBeta.getD []).length ≠ n then
      .error .warmStartBetaSize
    else
      match lasso3Solve obs y opt with
      | .error e => .error e
      | .ok (s, _) => .ok (splitCoef s.beta)

/-! ### `models.LassoRegression` -/

/-- The variables of `LassoRegression` that live across loop iterations. -/
structure LassoDenseState (K : Type) where
  beta : Dense K
  residual : Dense K
  maxCoef : K
  maxUpdate : K
  deriving DecidableEq, Repr

/-- The body of the inner loop of `LassoRegression` for column `j` in sweep `i`: the
fitted values `beta · obsᵀ` are recomputed in full. -/
def lassoCoord (obs y : Dense K) (xdot : List K) (lambda : K) (i : ℕ)
    (s : LassoDenseState K) (j : ℕ) : Except Failure (LassoDenseState K) :=
  let betaCurr := s.beta.At 0 j
  if i ≠ 0 ∧ betaCurr = 0 then .ok s
  else do
    let residual ← Dense.Mul s.beta obs.T
    let residual ← Dense.Sub y residual
    let num ← matDot (obs.ColView j) (residual.RowView 0)
    let betaNext := num / xdot.getD j 0 + betaCurr
    let gamma := lambda / xdot.getD j 0
    let betaNext := SoftThreshold betaNext gamma
    let maxCoef := max s.maxCoef betaNext
    let maxUpdate := max s.maxUpdate |betaNext - betaCurr|
    .ok { beta := s.beta.Set 0 j betaNext, residual := residual, maxCoef := maxCoef,
          maxUpdate := maxUpdate }

/-- One sweep `i` of `LassoRegression`. -/
def lassoSweep (obs y : Dense K) (xdot : List K) (lambda : K) (i : ℕ)
    (s : LassoDenseState K) : Except Failure (LassoDenseState K) :=
  (List.range obs.cols).foldlM (lassoCoord obs y xdot lambda i)
    { s with maxCoef := 0, maxUpdate := 0 }

/-- The outer loop of `LassoRegression`, entered at sweep `i` with `fuel` sweeps left.
Returns the final state and the number of sweeps executed. -/
def lassoLoop (obs y : Dense K) (xdot : List K) (lambda tol : K) :
    ℕ → ℕ → LassoDenseState K → Except Failure (LassoDenseState K × ℕ)
  | 0, i, s => .ok (s, i)
  | fuel + 1, i, s =>
    match lassoSweep obs y xdot lambda i s with
    | .error e => .error e
    | .ok s' =>
      if s'.maxUpdate < tol * s'.maxCoef then .ok (s', i + 1)
      else lassoLoop obs y xdot lambda tol fuel (i + 1) s'

/-- The per-column squared norms `xdot[i] = mat.Dot(obs.ColView(i), obs.ColView(i))`. -/
def lassoDenseXdot (obs : Dense K) : List K :=
  (List.range obs.cols).map fun i =>
    (List.zipWith (· * ·) (obs.ColView i) (obs.ColView i)).sum

/-- `models.LassoRegression`.  `opt = none` is the nil options pointer. -/
def LassoRegression (obs y : Dense K) (opt : Option (LassoOptions K)) :
    Except Failure (F64 K × List K) :=
  let opt := opt.getD NewDefaultLassoOptions
  let m := obs.rows
  let n := obs.cols
  let ym := y.cols
  if m ≠ ym then .error .obsYSizeMismatch
  else if opt.WarmStartBeta.isSome ∧ (opt.WarmStartBeta.getD []).length ≠ n then
    .error .warmStartBetaSize
  else do
    let beta ← NewDense 1 n opt.WarmStartBeta
    let xdot := lassoDenseXdot obs
    let residual ← NewDense 1 m none
    let r ← lassoLoop obs y xdot opt.Lambda opt.Tolerance opt.Iterations.toNat 0
      { beta := beta, residual := residual, maxCoef := 0, maxUpdate := 0 }
    .ok (splitCoef (r.1.beta.RowView 0))

/-! ### `models.LassoRegression2` -/

/-- The variables of `LassoRegression2` that live across loop iterations. -/
structure LassoState2 (K : Type) where
  beta : List K
  residual : Dense K
  betaX : Dense K
  betaXDelta : Dense K
  maxCoef : K
  maxUpdate : K
  betaDiff : K
  deriving DecidableEq, Repr

/-- A vector as a `1 × len` matrix, as `obsCol.T()` is for a column view. -/
def denseOfRow (v : List K) : Dense K := ⟨1, v.length, v⟩

/-- The body of the inner loop of `LassoRegression2` for column `j` in sweep `i`. -/
def lasso2Coord (obs y : Dense K) (xdot : List K) (lambda : K) (i : ℕ)
    (s : LassoState2 K) (j : ℕ) : Except Failure (LassoState2 K) :=
  let betaCurr := s.beta.getD j 0
  if i ≠ 0 ∧ betaCurr = 0 then .ok s
  else do
    let betaX ← Dense.Add s.betaX s.betaXDelta
    let residual ← Dense.Sub y betaX
    let obsCol := obs.ColView j
    let num ← matDot obsCol (residual.RowView 0)
    let betaNext := num / xdot.getD j 0 + betaCurr
    let gamma := lambda / xdot.getD j 0
    let betaNext := SoftThreshold betaNext gamma
    let maxCoef := max s.maxCoef betaNext
    let maxUpdate := max s.maxUpdate |betaNext - betaCurr|
    let betaDiff := betaNext - betaCurr
    let betaXDelta := Dense.Scale betaDiff (denseOfRow obsCol)
    .ok { beta := s.beta.set j betaNext, residual := residual, betaX := betaX,
          betaXDelta := betaXDelta, maxCoef := maxCoef, maxUpdate := maxUpdate,
          betaDiff := betaDiff }

/-- One sweep `i` of `LassoRegression2`. -/
def lasso2Sweep (obs y : Dense K) (xdot : List K) (lambda : K) (i : ℕ)
    (s : LassoState2 K) : Except Failure (LassoState2 K) :=
  (List.range obs.cols).foldlM (lasso2Coord obs y xdot lambda i)
    { s with maxCoef := 0, maxUpdate := 0, betaDiff := 0 }

/-- The outer loop of `LassoRegression2`, entered at sweep `i` with `fuel` sweeps left.
Returns the final state and the number of sweeps executed. -/
def lasso2Loop (obs y : Dense K) (xdot : List K) (lambda tol : K) :
    ℕ → ℕ → LassoState2 K → Except Failure (LassoState2 K × ℕ)
  | 0, i, s => .ok (s, i)
  | fuel + 1, i, s =>
    match lasso2Sweep obs y xdot lambda i s with
    | .error e => .error e
    | .ok s' =>
      if s'.maxUpdate < tol * s'.maxCoef then .ok (s', i + 1)
      else lasso2Loop obs y xdot lambda tol fuel (i + 1) s'

/-- `models.LassoRegression2`.  `opt = none` is the nil options pointer. -/
def LassoRegression2 (obs y : Dense K) (opt : Option (LassoOptions K)) :
    Except Failure (F64 K × List K) :=
  let opt := opt.getD NewDefaultLassoOptions
  let m := obs.rows
  let n := obs.cols
  let ym := y.cols
  if m ≠ ym then .error .obsYSizeMismatch
  else if opt.WarmStartBeta.isSome ∧ (opt.WarmStartBeta.getD []).length ≠ n then
    .error .warmStartBetaSize
  else do
    let beta := lassoInitBeta n opt.WarmStartBeta
    let xdot := lassoDenseXdot obs
    let residual ← NewDense 1 m none
    let betaX ← NewDense 1 m none
    let betaXDelta ← NewDense 1 m none
    let r ← lasso2Loop obs y xdot opt.Lambda opt.Tolerance opt.Iterations.toNat 0
      { beta := beta, residual := residual, betaX := betaX, betaXDelta := betaXDelta,
        maxCoef := 0, maxUpdate := 0, betaDiff := 0 }
    .ok (splitCoef r.1.beta)

/-- The `m × n` `mat.Dense` whose columns are the slices of `obs`, the form in which
`LassoRegression` and `LassoRegression2` receive the design matrix. -/
def denseOfColumns (m n : ℕ) (obs : List (List K)) : Dense K :=
  Dense.ofFn m n fun i j => (obs.getD j []).getD i 0

/-! ### Auxiliary notions for the Lasso proofs -/

/-- The shape conditions under which the inner loop of `LassoRegression3` runs: an
`n`-column design with columns of length `m`, and working vectors of length `m`. -/
structure LassoShape (obs : List (List K)) (y : List K) (m n : ℕ) (s : LassoState K) : Prop where
  obs_len : obs.length = n
  col_len : ∀ j, j < n → (obs.getD j []).length = m
  y_len : y.length = m
  beta_len : s.beta.length = n
  res_len : s.residual.length = m
  betaX_len : s.betaX.length = m
  delta_len : s.betaXDelta.length = m

/-- The candidate coefficient computed for column `j` from state `s`. -/
def lassoCandidate (obs : List (List K)) (y xdot : List K) (lambda : K) (m : ℕ)
    (s : LassoState K) (j : ℕ) : K :=
  SoftThreshold
    ((∑ i in Finset.range m, (obs.getD j []).getD i 0 *
        (y.getD i 0 - (s.betaX.getD i 0 + s.betaXDelta.getD i 0))) / xdot.getD j 0
      + s.beta.getD j 0)
    (lambda / xdot.getD j 0)

/-- The shape of the working matrices of `LassoRegression2`. -/
def Lasso2Shape (m : ℕ) (s : LassoState2 K) : Prop :=
  s.betaX.rows = 1 ∧ s.betaX.cols = m ∧ s.betaXDelta.rows = 1 ∧ s.betaXDelta.cols = m

/-- Row `t` of the product `X·coef`, for the design `obs` given by its `n` columns. -/
def fittedAt (obs : List (List K)) (n : ℕ) (coef : ℕ → K) (t : ℕ) : K :=
  ∑ k in Finset.range n, coef k * (obs.getD k []).getD t 0

/-- The incremental fitted-value relation of `LassoRegression3`: the running vector
`betaX` plus the pending `betaXDelta` is `X·(beta − w)`, `w` being the initial
coefficients. -/
def LassoFitted (obs : List (List K)) (w : List K) (m n : ℕ) (s : LassoState K) : Prop :=
  ∀ t, t < m → s.betaX.getD t 0 + s.betaXDelta.getD t 0
    = fittedAt obs n (fun k => s.beta.getD k 0 - w.getD k 0) t

/-- The state of `LassoRegression3` on entry to sweep `k` of its outer loop, when that
sweep is reached (`none` when the loop has ended before it). -/
def lasso3SweepStart (obs : List (List K)) (y : List K) (opt : LassoOptions K) :
    ℕ → Option (LassoState K)
  | 0 => if 0 < opt.Iterations.toNat then some (lasso3Init obs opt) else none
  | k + 1 =>
    match lasso3SweepStart obs y opt k with
    | none => none
    | some s =>
      match lasso3Sweep obs y (lassoXdot obs) opt.Lambda k s with
      | .error _ => none
      | .ok s' =>
        if s'.maxUpdate < opt.Tolerance * s'.maxCoef then none
        else if k + 1 < opt.Iterations.toNat then some s' else none

/-- The state of `LassoRegression3` when sweep `k` of the outer loop reaches column `j`
of its inner loop `for j := 0; j < n; j++`: the state on entry to the sweep, with the
per-sweep maxima reset, after the steps for the columns before `j` (`none` when the
sweep or the column is not reached). -/
def lasso3CoordStart (obs : List (List K)) (y : List K) (opt : LassoOptions K)
    (k j : ℕ) : Option (LassoState K) :=
  match lasso3SweepStart obs y opt k with
  | none => none
  | some s =>
    if j < obs.length then
      match (List.range j).foldlM (lasso3Coord obs y (lassoXdot obs) opt.Lambda k)
          { s with maxCoef := 0, maxUpdate := 0, betaDiff := 0 } with
      | .error _ => none
      | .ok t => some t
    else none

/-- The number of non-zero entries of a coefficient slice. -/
def countNonZero (l : List K) : ℕ := l.countP fun x => decide (x ≠ 0)

/-- The dot product `X[:,j]·v` of column `j` with a slice, as a finite sum. -/
def colDot (obs : List (List K)) (m j : ℕ) (v : List K) : K :=
  ∑ t in Finset.range m, (obs.getD j []).getD t 0 * v.getD t 0

end Numeric

/-! ### `forecast.FeatureLabels` and `forecast.FeatureSet` -/

section Features

/-- A Go `map[κ]ν` store `m[k] = v`: overwrites the entry of an existing key, adds an
entry otherwise. -/
def goMapSet {κ ν : Type} [DecidableEq κ] (m : List (κ × ν)) (k : κ) (v : ν) : List (κ × ν) :=
  match m with
  | [] => [(k, v)]
  | (k', v') :: rest => if k' = k then (k, v) :: rest else (k', v') :: goMapSet rest k v

/-- A Go `map[κ]ν` read `v, ok := m[k]`. -/
def goMapGet {κ ν : Type} [DecidableEq κ] (m : List (κ × ν)) (k : κ) : Option ν :=
  match m with
  | [] => none
  | (k', v') :: rest => if k' = k then some v' else goMapGet rest k

/-- `sort.Slice(s, less)`.  The Go routine is not stable and does not fix an algorithm;
it is modelled by insertion sort, which returns what every correct sort returns when no
two elements compare equal. -/
def sortSlice {α : Type} (less : α → α → Bool) (s : List α) : List α :=
  s.insertionSort fun a b => ¬ less b a = true

variable {Feature : Type} [DecidableEq Feature] {K : Type}

/-- `forecast.FeatureLabels`: the lookup `idx` from a feature to its position, and the
list of labels. -/
structure FeatureLabels (Feature : Type) where
  idx : List (Feature × ℕ)
  labels : List Feature
  deriving DecidableEq, Repr

/-- `forecast.NewFeatureLabels`: `for i := 0; i < len(labels); i++ { idx[labels[i]] = i }`. -/
def NewFeatureLabels (labels : List Feature) : FeatureLabels Feature :=
  { labels := labels,
    idx := (List.range labels.length).foldl
      (fun idx i => match labels[i]? with
        | some l => goMapSet idx l i
        | none => idx) [] }

/-- `FeatureLabels.Len`. -/
def FeatureLabels.Len (f : FeatureLabels Feature) : ℕ := f.labels.length

/-- `FeatureLabels.Labels`: a copy of the label list. -/
def FeatureLabels.Labels (f : FeatureLabels Feature) : List Feature := f.labels

/-- `FeatureLabels.Index`. -/
def FeatureLabels.Index (f : FeatureLabels Feature) (label : Feature) : ℤ × Bool :=
  match goMapGet f.idx label with
  | some idx => (idx, true)
  | none => (-1, false)

/-- `forecast.FeatureData`, as `featureset.go` uses it: the feature `F` and its `Data`. -/
structure FeatureData (Feature K : Type) where
  F : Feature
  Data : List K
  deriving DecidableEq, Repr

/-- `forecast.FeatureSet`, a `map[string]FeatureData`: `none` is the nil map, and the
order of the entries is the order in which the runtime iterates over the map. -/
abbrev FeatureSet (Feature K : Type) := Option (List (String × FeatureData Feature K))

/-- The `Data` of `f[key]`: the nil slice when the key is absent. -/
def featureDataAt (entries : List (String × FeatureData Feature K)) (key : String) : List K :=
  match goMapGet entries key with
  | some d => d.Data
  | none => []

variable (canon : Feature → String)

/-- `FeatureSet.Labels`.  `canon` is `feature.Feature.String`, the canonical string of a
feature (package `feature` is a parameter of the development). -/
def FeatureSet.Labels (f : FeatureSet Feature K) : Option (FeatureLabels Feature) :=
  match f with
  | none => none
  | some entries =>
    let labels := entries.map fun e => e.2.F
    let labels := sortSlice (fun a b => decide (canon a < canon b)) labels
    some (NewFeatureLabels labels)

/-- The loop `for i := 0; i < count; i++ { obs[n*i + featNum] = value i }` that
`FeatureSet.Matrix` runs for the intercept column and for each feature column. -/
def matrixFillColumn (n featNum count : ℕ) (value : ℕ → K) (obs : List K) :
    Except Failure (List K) :=
  (List.range count).foldlM (fun obs i => sliceSet obs (n * i + featNum) (value i)) obs

/-- The row count used by `FeatureSet.Matrix` and `FeatureSet.MatrixSlice`:
`var m int; for _, flabel := range labels { m = len(f[flabel.String()].Data); break }`. -/
def firstFeatureLen (entries : List (String × FeatureData Feature K)) (labels : List Feature) :
    ℕ :=
  match labels with
  | flabel :: _ => (featureDataAt entries (canon flabel)).length
  | [] => 0

/-- `FeatureSet.Matrix`. -/
def FeatureSet.Matrix [LinearOrderedField K] (f : FeatureSet Feature K) (intercept : Bool) :
    Except Failure (Option (Dense K)) :=
  match f, FeatureSet.Labels canon f with
  | some entries, some featureLabels =>
    if featureLabels.Len = 0 then .ok none
    else do
      let m := firstFeatureLen canon entries featureLabels.Labels
      let n := featureLabels.Len + (if intercept then 1 else 0)
      let obs : List K := List.replicate (m * n) 0
      let (obs, featNum) ←
        if intercept then do
          let obs ← matrixFillColumn n 0 m (fun _ => 1) obs
          pure (obs, 1)
        else pure (obs, 0)
      let (obs, _) ← featureLabels.Labels.foldlM
        (fun (st : List K × ℕ) label => do
          let feature := featureDataAt entries (canon label)
          let obs ← matrixFillColumn n st.2 feature.length (fun i => feature.getD i 0) st.1
          pure (obs, st.2 + 1))
        (obs, featNum)
      let d ← NewDense m n (some obs)
      pure (some d)
  | _, _ => .ok none

/-- `FeatureSet.MatrixSlice`. -/
def FeatureSet.MatrixSlice [LinearOrderedField K] (f : FeatureSet Feature K)
    (intercept : Bool) : Except Failure (Option (List (List K))) :=
  match f, FeatureSet.Labels canon f with
  | some entries, some featureLabels =>
    if featureLabels.Len = 0 then .ok none
    else do
      let m := firstFeatureLen canon entries featureLabels.Labels
      let n := featureLabels.Len + (if intercept then 1 else 0)
      let obs : List (List K) := List.replicate n []
      let (obs, featNum) ←
        if intercept then do
          let ones := floatsAddConst 1 (List.replicate m 0)
          let obs ← sliceSet obs 0 ones
          pure (obs, 1)
        else pure (obs, 0)
      let (obs, _) ← featureLabels.Labels.foldlM
        (fun (st : List (List K) × ℕ) label => do
          let feature := featureDataAt entries (canon label)
          let obs ← sliceSet st.1 st.2 feature
          pure (obs, st.2 + 1))
        (obs, featNum)
      pure (some obs)
  | _, _ => .ok none

end Features

/-- The 3-4-5 rotation with the diagonal factor `5·1`: a QR factorisation of
`[[3, -4], [4, 3]]` over `ℚ`. -/
def rotationFactorize (_ : Dense ℚ) : Dense ℚ × Dense ℚ :=
  (⟨2, 2, [3/5, -4/5, 4/5, 3/5]⟩, ⟨2, 2, [5, 0, 0, 5]⟩)

/-- The power `2^e` as a rational, for an integer exponent `e`. -/
def pow2 (e : ℤ) : ℚ :=
  if 0 ≤ e then ((2 ^ e.toNat : ℕ) : ℚ) else 1 / ((2 ^ (-e).toNat : ℕ) : ℚ)

/-- The number of halvings that take `n` below `2`, at most `fuel` of them. -/
def natLog2Fuel : ℕ → ℕ → ℕ
  | 0, _ => 0
  | fuel + 1, n => if n < 2 then 0 else natLog2Fuel fuel (n / 2) + 1

/-- The exponent `k` with `2^k ≤ n < 2^(k+1)`, for a positive natural number `n`. -/
def natLog2 (n : ℕ) : ℕ := natLog2Fuel n n

/-- The exponent `e` with `2^e ≤ a < 2^(e+1)`, for a positive rational `a`. -/
def log2Floor (a : ℚ) : ℤ :=
  let e0 : ℤ := (natLog2 a.num.natAbs : ℤ) - (natLog2 a.den : ℤ)
  if a < pow2 e0 then e0 - 1 else e0

/-- The integer nearest to `x`, the even one of the two when `x` is half-way. -/
def roundHalfEven (x : ℚ) : ℤ :=
  let f := Rat.floor x
  let r := x - f
  if r < 1 / 2 then f else if 1 / 2 < r then f + 1 else if f % 2 = 0 then f else f + 1

/-- Rounding to float64 (IEEE 754 binary64, round to nearest, ties to even): the finite
float64 value nearest to the real number `q`, with 53 significant bits and subnormals
below `2^-1022`; `none` when the result overflows to an infinity.  A finite float64 is
represented by the rational it denotes, so the sign of a zero is not represented. -/
def roundF64 (q : ℚ) : Option ℚ :=
  if q = 0 then some 0
  else
    let t : ℤ := max (log2Floor |q| - 52) (-1074)
    let r : ℚ := (roundHalfEven (q / pow2 t) : ℚ) * pow2 t
    if |r| < pow2 1024 then some r else none

/-- The float64 value nearest to the real number `q`, as Go reads a decimal constant
(`0` where that value would be an infinity). -/
def nearestF64 (q : ℚ) : ℚ := (roundF64 q).getD 0

/-- The float64 sum `a + b`. -/
def f64Add (a b : ℚ) : Option ℚ := roundF64 (a + b)

/-- The float64 difference `a - b`. -/
def f64Sub (a b : ℚ) : Option ℚ := roundF64 (a - b)

/-- The float64 product `a * b`. -/
def f64Mul (a b : ℚ) : Option ℚ := roundF64 (a * b)

/-- The float64 quotient `a / b`; `none` for a zero divisor, where Go gives an infinity or
NaN. -/
def f64Div (a b : ℚ) : Option ℚ := if b = 0 then none else roundF64 (a / b)

/-- An entrywise float64 operation on two slices of the same length; `none` when the
lengths differ (gonum panics) or a result is not finite. -/
def zipWithF64 (f : ℚ → ℚ → Option ℚ) : List ℚ → List ℚ → Option (List ℚ)
  | [], [] => some []
  | a :: as, b :: bs =>
    match f a b, zipWithF64 f as bs with
    | some c, some cs => some (c :: cs)
    | _, _ => none
  | _, _ => none

/-- `floats.Dot` in float64: `sum += s1[i] * s2[i]` from left to right, each product and
each sum rounded (no fused multiply-add), which is what gonum's kernel computes on
fewer than four entries; `none` on longer slices, whose summation order depends on the
build, and when the lengths differ. -/
def floatsDotF64 (s1 s2 : List ℚ) : Option ℚ :=
  if s1.length ≠ s2.length ∨ 4 ≤ s1.length then none
  else (List.zip s1 s2).foldlM
    (fun sum p =>
      match f64Mul p.1 p.2 with
      | none => none
      | some prod => f64Add sum prod)
    0

/-- `floats.Add(dst, s)` in float64. -/
def floatsAddF64 (dst s : List ℚ) : Option (List ℚ) := zipWithF64 f64Add dst s

/-- `floats.SubTo(dst, s, t)` in float64. -/
def floatsSubToF64 (dst s t : List ℚ) : Option (List ℚ) :=
  if dst.length ≠ s.length then none else zipWithF64 f64Sub s t

/-- `floats.ScaleTo(dst, c, s)` in float64. -/
def floatsScaleToF64 (dst : List ℚ) (c : ℚ) (s : List ℚ) : Option (List ℚ) :=
  if dst.length ≠ s.length then none else s.mapM (f64Mul c)

/-- `models.SoftThreshold` in float64 (`math.Signbit x` read as `x < 0`). -/
def SoftThresholdF64 (x gamma : ℚ) : Option ℚ :=
  match f64Sub |x| gamma with
  | none => none
  | some d =>
    let res := max 0 d
    some (if x < 0 then -res else res)

/-- The body of the inner loop of `LassoRegression3` for column `j` in sweep `i`, every
float64 operation rounded. -/
def lasso3CoordF64 (obs : List (List ℚ)) (y xdot : List ℚ) (lambda : ℚ) (i : ℕ)
    (s : LassoState ℚ) (j : ℕ) : Option (LassoState ℚ) :=
  let betaCurr := s.beta.getD j 0
  if i ≠ 0 ∧ betaCurr = 0 then some s
  else do
    let betaX ← floatsAddF64 s.betaX s.betaXDelta
    let residual ← floatsSubToF64 s.residual y betaX
    let obsCol := obs.getD j []
    let num ← floatsDotF64 obsCol residual
    let quot ← f64Div num (xdot.getD j 0)
    let betaNext ← f64Add quot betaCurr
    let gamma ← f64Div lambda (xdot.getD j 0)
    let betaNext ← SoftThresholdF64 betaNext gamma
    let maxCoef := max s.maxCoef betaNext
    let betaDiff ← f64Sub betaNext betaCurr
    let maxUpdate := max s.maxUpdate |betaDiff|
    let betaXDelta ← floatsScaleToF64 s.betaXDelta betaDiff obsCol
    some { beta := s.beta.set j betaNext, residual := residual, betaX := betaX,
           betaXDelta := betaXDelta, maxCoef := maxCoef, maxUpdate := maxUpdate,
           betaDiff := betaDiff }

/-- One sweep `i` of `LassoRegression3` in float64. -/
def lasso3SweepF64 (obs : List (List ℚ)) (y xdot : List ℚ) (lambda : ℚ) (i : ℕ)
    (s : LassoState ℚ) : Option (LassoState ℚ) :=
  (List.range obs.length).foldlM (lasso3CoordF64 obs y xdot lambda i)
    { s with maxCoef := 0, maxUpdate := 0, betaDiff := 0 }

/-- The outer loop of `LassoRegression3` in float64, entered at sweep `i` with `fuel`
sweeps left.  Returns the final state together with the number of sweeps executed. -/
def lasso3LoopF64 (obs : List (List ℚ)) (y xdot : List ℚ) (lambda tol : ℚ) :
    ℕ → ℕ → LassoState ℚ → Option (LassoState ℚ × ℕ)
  | 0, i, s => some (s, i)
  | fuel + 1, i, s =>
    match lasso3SweepF64 obs y xdot lambda i s with
    | none => none
    | some s' =>
      match f64Mul tol s'.maxCoef with
      | none => none
      | some bound =>
        if s'.maxUpdate < bound then some (s', i + 1)
        else lasso3LoopF64 obs y xdot lambda tol fuel (i + 1) s'

/-- The per-column squared norms `xdot[i] = floats.Dot(obs[i], obs[i])` in float64. -/
def lassoXdotF64 (obs : List (List ℚ)) : Option (List ℚ) :=
  obs.mapM fun xi => floatsDotF64 xi xi

/-- `LassoRegression3` in float64 after its argument checks: the final loop state and the
number of sweeps executed; `none` when the run panics or leaves the finite values. -/
def lasso3SolveF64 (obs : List (List ℚ)) (y : List ℚ) (opt : LassoOptions ℚ) :
    Option (LassoState ℚ × ℕ) :=
  match lassoXdotF64 obs with
  | none => none
  | some xdot =>
    lasso3LoopF64 obs y xdot opt.Lambda opt.Tolerance opt.Iterations.toNat 0
      (lasso3Init obs opt)

/-- `models.LassoRegression3` in float64, for non-nil options: the argument checks, the
loop with every operation rounded, and the output split.  `none` when the call returns
an error, panics or leaves the finite values. -/
def LassoRegression3F64 (obs : List (List ℚ)) (y : List ℚ) (opt : LassoOptions ℚ) :
    Option (F64 ℚ × List ℚ) :=
  if obs.length = 0 then none
  else if (obs.getD 0 []).length ≠ y.length then none
  else if opt.WarmStartBeta.isSome ∧ (opt.WarmStartBeta.getD []).length ≠ obs.length then none
  else
    match lasso3SolveF64 obs y opt with
    | none => none
    | some (s, _) => some (splitCoef s.beta)

/-- The rational `q` is a float64 value. -/
def isF64 (q : ℚ) : Prop := roundF64 q = some q

instance (q : ℚ) : Decidable (isF64 q) :=
  inferInstanceAs (Decidable (roundF64 q = some q))

/-! ### The forecast orchestrator (`forecast.go`) -/

/-- Ways in which the functions of `forecast.go` fail: the errors the file declares, and a
panic of the Go runtime or of gonum.  The helpers of the package return values of this
type as well. -/
inductive ForecastError
  | noTrainingData
  | labelExists
  | mismatchedDataLen
  | featureLabelsInitialized
  | unknownTimeFeature
  | noModelCoefficients
  | failure (e : Failure)
  deriving DecidableEq, Repr

section Orchestrator

variable {Time Options TFeat FeatMap Scores : Type} {K : Type} [LinearOrderedField K]

/-- The training data `*TimeDataset`, with the two fields that `forecast.go` reads. -/
structure TimeDataset (Time K : Type) where
  t : List Time
  y : List K
  deriving DecidableEq, Repr

/-- The functions that `forecast.go` calls and that its package defines in other files.
They are parameters of the translation; each of them may fail (an error where the Go
signature has one, a panic otherwise).  `TFeat` is the result type of
`generateTimeFeatures` and `FeatMap` is the feature map `map[string][]float64`. -/
structure ForecastEnv (Time Options TFeat FeatMap Scores K : Type) where
  NewDefaultOptions : Options
  generateTimeFeatures : List Time → Options → Except ForecastError TFeat
  generateFourierFeatures : TFeat → Options → Except ForecastError FeatMap
  featureLabels : FeatMap → Except ForecastError (List String)
  featureMatrix : List Time → List String → FeatMap → Except ForecastError (Dense K)
  observationMatrix : List K → Except ForecastError (Dense K)
  OLS : Dense K → Dense K → Except ForecastError (K × List K)
  NewScores : List K → List K → Except ForecastError Scores

/-- The struct `Forecast`.  `scores` is `none` for the nil pointer; nil slices are empty
lists. -/
structure Forecast (Options Scores K : Type) where
  opt : Options
  scores : Option Scores
  fLabels : List String
  residual : List K
  coef : List K
  intercept : K
  deriving DecidableEq, Repr

/-- `NewForecast`.  `opt = none` is the nil options pointer; the returned error is always
nil. -/
def NewForecast (env : ForecastEnv Time Options TFeat FeatMap Scores K)
    (opt : Option Options) : Forecast Options Scores K :=
  { opt := opt.getD env.NewDefaultOptions, scores := none, fLabels := [], residual := [],
    coef := [], intercept := 0 }

/-- `Forecast.generateFeatures`. -/
def Forecast.generateFeatures (env : ForecastEnv Time Options TFeat FeatMap Scores K)
    (f : Forecast Options Scores K) (t : List Time) : Except ForecastError FeatMap :=
  match env.generateTimeFeatures t f.opt with
  | .error e => .error e
  | .ok tFeat => env.generateFourierFeatures tFeat f.opt

/-- The part of `Forecast.Predict` after the assignment to `f.fLabels`: the design matrix,
the weight row `[intercept] ++ coef` and their product. -/
def Forecast.predictRow (env : ForecastEnv Time Options TFeat FeatMap Scores K)
    (f : Forecast Options Scores K) (t : List Time) (x : FeatMap) :
    Except ForecastError (List K) :=
  match env.featureMatrix t f.fLabels x with
  | .error e => .error e
  | .ok fm =>
    let features := fm.T
    let weights := [f.intercept] ++ f.coef
    match NewDense 1 (f.fLabels.length + 1) (some weights) with
    | .error e => .error (.failure e)
    | .ok w =>
      match Dense.Mul w features with
      | .error e => .error (.failure e)
      | .ok resMx => .ok (resMx.RowView 0)

/-- `Forecast.Predict`.  The receiver is a pointer: the function returns the state it
leaves behind together with its result. -/
def Forecast.Predict (env : ForecastEnv Time Options TFeat FeatMap Scores K)
    (f : Forecast Options Scores K) (t : List Time) :
    Forecast Options Scores K × Except ForecastError (List K) :=
  match f.generateFeatures env t with
  | .error e => (f, .error e)
  | .ok x =>
    match env.featureLabels x with
    | .error e => (f, .error e)
    | .ok labels =>
      let f := { f with fLabels := labels }
      (f, f.predictRow env t x)

/-- The residual computation at the end of `Forecast.Fit`:
`residual := make([]float64, len(t)); floats.Add(residual, y);
floats.Sub(residual, predicted); floats.Scale(-1.0, residual)`. -/
def fitResidual (len : ℕ) (y predicted : List K) : Except ForecastError (List K) :=
  match floatsAdd (List.replicate len 0) y with
  | .error e => .error (.failure e)
  | .ok residual =>
    match floatsSub residual predicted with
    | .error e => .error (.failure e)
    | .ok residual => .ok (floatsScale (-1) residual)

/-- The part of `Forecast.Fit` after `f.intercept, f.coef = OLS(features, observations)`. -/
def Forecast.fitScore (env : ForecastEnv Time Options TFeat FeatMap Scores K)
    (f : Forecast Options Scores K) (trainingData : TimeDataset Time K) :
    Forecast Options Scores K × Except ForecastError Unit :=
  match f.Predict env trainingData.t with
  | (f, .error e) => (f, .error e)
  | (f, .ok predicted) =>
    match env.NewScores predicted trainingData.y with
    | .error e => (f, .error e)
    | .ok scores =>
      let f := { f with scores := some scores }
      match fitResidual trainingData.t.length trainingData.y predicted with
      | .error e => (f, .error e)
      | .ok residual => ({ f with residual := residual }, .ok ())

/-- `Forecast.Fit`.  `trainingData = none` is the nil pointer.  The receiver is a pointer:
the function returns the state it leaves behind together with its result. -/
def Forecast.Fit (env : ForecastEnv Time Options TFeat FeatMap Scores K)
    (f : Forecast Options Scores K) (trainingData : Option (TimeDataset Time K)) :
    Forecast Options Scores K × Except ForecastError Unit :=
  match trainingData with
  | none => (f, .error .noTrainingData)
  | some trainingData =>
    match f.generateFeatures env trainingData.t with
    | .error e => (f, .error e)
    | .ok x =>
      match env.featureLabels x with
      | .error e => (f, .error e)
      | .ok labels =>
        let f := { f with fLabels := labels }
        match env.featureMatrix trainingData.t f.fLabels x with
        | .error e => (f, .error e)
        | .ok features =>
          match env.observationMatrix trainingData.y with
          | .error e => (f, .error e)
          | .ok observations =>
            match env.OLS features observations with
            | .error e => (f, .error e)
            | .ok (intercept, coef) =>
              Forecast.fitScore env { f with intercept := intercept, coef := coef }
                trainingData

/-- `Forecast.FeatureLabels`: a copy of the stored labels. -/
def Forecast.FeatureLabels (f : Forecast Options Scores K) : List String :=
  goCopy (List.replicate f.fLabels.length ("" : String)) f.fLabels

/-- The loop of `Forecast.Coefficients`:
`for i := 0; i < len(f.coef); i++ { coef[labels[i]] = f.coef[i] }`. -/
def coefficientsLoop (labels : List String) (coef : List K) :
    Except ForecastError (List (String × K)) :=
  (List.range coef.length).foldlM
    (fun m i =>
      match labels[i]? with
      | none => .error (.failure (.panic .indexOutOfRange))
      | some l => .ok (goMapSet m l (coef.getD i 0)))
    []

/-- `Forecast.Coefficients`.  The returned map is an association list. -/
def Forecast.Coefficients (f : Forecast Options Scores K) :
    Except ForecastError (List (String × K)) :=
  let labels := f.fLabels
  if labels.length = 0 ∨ f.coef.length = 0 then .error .noModelCoefficients
  else coefficientsLoop labels f.coef

/-- `Forecast.Intercept`. -/
def Forecast.Intercept (f : Forecast Options Scores K) : K := f.intercept

/-- `Forecast.Residuals`: a copy of the stored residuals. -/
def Forecast.Residuals (f : Forecast Options Scores K) : List K :=
  goCopy (List.replicate f.residual.length 0) f.residual

end Orchestrator

/-- A set of helpers for the examples: time stamps are numbers, the feature map is an
association list produced by `feats`, the labels are its keys, the design matrix has an
intercept column of ones followed by one column per label, and `OLS` returns the fixed
coefficients `model`. -/
def exampleEnv (feats : List ℕ → List (String × List ℚ)) (model : ℚ × List ℚ) :
    ForecastEnv ℕ Unit (List ℕ) (List (String × List ℚ)) Unit ℚ where
  NewDefaultOptions := ()
  generateTimeFeatures := fun t _ => .ok t
  generateFourierFeatures := fun tFeat _ => .ok (feats tFeat)
  featureLabels := fun x => .ok (x.map fun e => e.1)
  featureMatrix := fun t labels x =>
    .ok (Dense.ofFn t.length (labels.length + 1) fun i j =>
      if j = 0 then 1 else ((goMapGet x (labels.getD (j - 1) "")).getD []).getD i 0)
  observationMatrix := fun y => .ok ⟨y.length, 1, y⟩
  OLS := fun _ _ => .ok model
  NewScores := fun _ _ => .ok ()

/-! ## Theorems -/

section NumericTheorems

variable {K : Type} [LinearOrderedField K]

/-! ### Lists and matrices -/

theorem getD_set_self {α : Type} (l : List α) (i : ℕ) (v d : α) (h : i < l.length) :
    (l.set i v).getD i d = v := by
  rw [List.getD_eq_getElem _ _ (by simpa using h)]
  simp

theorem getD_set_ne {α : Type} (l : List α) (i k : ℕ) (v d : α) (h : i ≠ k) :
    (l.set i v).getD k d = l.getD k d := by
  simp [List.getD_eq_getElem?_getD, List.getElem?_set_ne h]

theorem getD_zipWith (f : K → K → K) (a b : List K) (i : ℕ) (ha : i < a.length)
    (hb : i < b.length) :
    (List.zipWith f a b).getD i 0 = f (a.getD i 0) (b.getD i 0) := by
  rw [List.getD_eq_getElem _ _ (by simp; omega), List.getD_eq_getElem _ _ ha,
    List.getD_eq_getElem _ _ hb, List.getElem_zipWith]

theorem getD_map_mul (c : K) (a : List K) (i : ℕ) :
    (a.map (c * ·)).getD i 0 = c * a.getD i 0 := by
  simp [List.getD_eq_getElem?_getD, List.getElem?_map]
  cases a[i]? <;> simp

theorem sum_eq_sum_getD (a : List K) :
    a.sum = ∑ i in Finset.range a.length, a.getD i 0 := by
  induction a with
  | nil => simp
  | cons x a ih =>
    rw [List.sum_cons, List.length_cons, Finset.sum_range_succ', ih, add_comm]
    simp

/-- The dot product of two slices of length `m` as a finite sum. -/
theorem dot_eq_sum (a b : List K) (m : ℕ) (ha : a.length = m) (hb : b.length = m) :
    (List.zipWith (· * ·) a b).sum = ∑ i in Finset.range m, a.getD i 0 * b.getD i 0 := by
  rw [sum_eq_sum_getD]
  have hl : (List.zipWith (· * ·) a b).length = m := by simp [ha, hb]
  rw [hl]
  apply Finset.sum_congr rfl
  intro i hi
  have := Finset.mem_range.mp hi
  exact getD_zipWith _ a b i (by omega) (by omega)

theorem lasso3Coord_skip (obs : List (List K)) (y xdot : List K) (lambda : K) (i : ℕ)
    (s : LassoState K) (j : ℕ) (h : i ≠ 0 ∧ s.beta.getD j 0 = 0) :
    lasso3Coord obs y xdot lambda i s j = .ok s := by
  simp only [lasso3Coord, if_pos h]

theorem lasso3Coord_update (obs : List (List K)) (y xdot : List K) (lambda : K) (i : ℕ)
    (s : LassoState K) (j m n : ℕ) (hs : LassoShape obs y m n s) (hj : j < n)
    (h : ¬ (i ≠ 0 ∧ s.beta.getD j 0 = 0)) :
    ∃ s', lasso3Coord obs y xdot lambda i s j = .ok s' ∧ LassoShape obs y m n s' ∧
      s'.beta = s.beta.set j (lassoCandidate obs y xdot lambda m s j) ∧
      (∀ t, t < m → s'.betaX.getD t 0 = s.betaX.getD t 0 + s.betaXDelta.getD t 0) ∧
      (∀ t, t < m → s'.betaXDelta.getD t 0
        = (lassoCandidate obs y xdot lambda m s j - s.beta.getD j 0) * (obs.getD j []).getD t 0) ∧
      s'.maxCoef = max s.maxCoef (lassoCandidate obs y xdot lambda m s j) ∧
      s'.maxUpdate
        = max s.maxUpdate |lassoCandidate obs y xdot lambda m s j - s.beta.getD j 0| := by
  have hcol := hs.col_len j hj
  have hbx : (List.zipWith (· + ·) s.betaX s.betaXDelta).length = m := by
    simp [hs.betaX_len, hs.delta_len]
  have hres : (List.zipWith (· - ·) y (List.zipWith (· + ·) s.betaX s.betaXDelta)).length = m := by
    simp [hs.betaX_len, hs.delta_len, hs.y_len]
  have hnum : (List.zipWith (· * ·) (obs.getD j [])
        (List.zipWith (· - ·) y (List.zipWith (· + ·) s.betaX s.betaXDelta))).sum
      = ∑ i in Finset.range m, (obs.getD j []).getD i 0 *
        (y.getD i 0 - (s.betaX.getD i 0 + s.betaXDelta.getD i 0)) := by
    rw [dot_eq_sum _ _ m hcol hres]
    apply Finset.sum_congr rfl
    intro t ht
    have htm := Finset.mem_range.mp ht
    rw [getD_zipWith _ _ _ _ (by rw [hs.y_len]; exact htm) (by rw [hbx]; exact htm),
      getD_zipWith _ _ _ _ (by rw [hs.betaX_len]; exact htm) (by rw [hs.delta_len]; exact htm)]
  refine ⟨{ beta := s.beta.set j (lassoCandidate obs y xdot lambda m s j),
             residual := List.zipWith (· - ·) y (List.zipWith (· + ·) s.betaX s.betaXDelta),
             betaX := List.zipWith (· + ·) s.betaX s.betaXDelta,
             betaXDelta := (obs.getD j []).map
               ((lassoCandidate obs y xdot lambda m s j - s.beta.getD j 0) * ·),
             maxCoef := max s.maxCoef (lassoCandidate obs y xdot lambda m s j),
             maxUpdate := max s.maxUpdate
               |lassoCandidate obs y xdot lambda m s j - s.beta.getD j 0|,
             betaDiff := lassoCandidate obs y xdot lambda m s j - s.beta.getD j 0 },
    ?_, ?_, rfl, ?_, ?_, rfl, rfl⟩
  · simp only [lasso3Coord, if_neg h, floatsAdd, floatsSubTo, floatsDot, floatsScaleTo,
      hs.betaX_len, hs.delta_len, hs.y_len, hs.res_len, hcol, hbx, hres, ne_eq,
      not_true_eq_false, or_self, if_false, bind, Except.bind, hnum, lassoCandidate]
  · exact ⟨hs.obs_len, hs.col_len, hs.y_len, by simp [hs.beta_len], hres, hbx, by rw [List.length_map]; exact hcol⟩
  · intro t ht
    exact getD_zipWith _ _ _ _ (by rw [hs.betaX_len]; exact ht) (by rw [hs.delta_len]; exact ht)
  · intro t _
    exact getD_map_mul _ _ _

/-! ### Lasso: sweeps and the outer loop -/

/-- An invariant of a bounded `for` loop that never fails is established by its steps. -/
theorem foldlM_range_inv {σ : Type} (f : σ → ℕ → Except Failure σ) (P : ℕ → σ → Prop)
    (n : ℕ) (s0 : σ) (h0 : P 0 s0)
    (hstep : ∀ k s, k < n → P k s → ∃ s', f s k = .ok s' ∧ P (k + 1) s') :
    ∃ s', (List.range n).foldlM f s0 = .ok s' ∧ P n s' := by
  induction n with
  | zero => exact ⟨s0, rfl, h0⟩
  | succ n ih =>
    obtain ⟨s1, h1, hP1⟩ := ih (fun k s hk hP => hstep k s (by omega) hP)
    obtain ⟨s2, h2, hP2⟩ := hstep n s1 (by omega) hP1
    refine ⟨s2, ?_, hP2⟩
    rw [List.range_succ, List.foldlM_append, h1]
    simp only [List.foldlM_cons, List.foldlM_nil, bind, Except.bind, h2]
    rfl

/-- Resetting the per-sweep maxima does not change the shape. -/
theorem LassoShape.reset {obs : List (List K)} {y : List K} {m n : ℕ} {s : LassoState K}
    (hs : LassoShape obs y m n s) :
    LassoShape obs y m n { s with maxCoef := 0, maxUpdate := 0, betaDiff := 0 } :=
  ⟨hs.obs_len, hs.col_len, hs.y_len, hs.beta_len, hs.res_len, hs.betaX_len, hs.delta_len⟩

/-- A coordinate step on a well-shaped state succeeds and keeps the shape. -/
theorem lasso3Coord_shape (obs : List (List K)) (y xdot : List K) (lambda : K) (i : ℕ)
    (s : LassoState K) (j m n : ℕ) (hs : LassoShape obs y m n s) (hj : j < n) :
    ∃ s', lasso3Coord obs y xdot lambda i s j = .ok s' ∧ LassoShape obs y m n s' := by
  by_cases h : i ≠ 0 ∧ s.beta.getD j 0 = 0
  · exact ⟨s, lasso3Coord_skip obs y xdot lambda i s j h, hs⟩
  · obtain ⟨s', h1, h2, _⟩ := lasso3Coord_update obs y xdot lambda i s j m n hs hj h
    exact ⟨s', h1, h2⟩

/-- A sweep on a well-shaped state succeeds, and an invariant that every coordinate
step preserves holds at its end. -/
theorem lasso3Sweep_inv (obs : List (List K)) (y xdot : List K) (lambda : K) (i : ℕ)
    (s : LassoState K) (m n : ℕ) (hs : LassoShape obs y m n s) (P : ℕ → LassoState K → Prop)
    (h0 : P 0 { s with maxCoef := 0, maxUpdate := 0, betaDiff := 0 })
    (hstep : ∀ k t t', k < n → LassoShape obs y m n t → P k t →
      lasso3Coord obs y xdot lambda i t k = .ok t' → P (k + 1) t') :
    ∃ s', lasso3Sweep obs y xdot lambda i s = .ok s' ∧ LassoShape obs y m n s' ∧ P n s' := by
  have := foldlM_range_inv (lasso3Coord obs y xdot lambda i)
    (fun k t => LassoShape obs y m n t ∧ P k t) n
    { s with maxCoef := 0, maxUpdate := 0, betaDiff := 0 } ⟨hs.reset, h0⟩
    (by
      intro k t hk ⟨hsh, hP⟩
      obtain ⟨t', h1, h2⟩ := lasso3Coord_shape obs y xdot lambda i t k m n hsh hk
      exact ⟨t', h1, h2, hstep k t t' hk hsh hP h1⟩)
  obtain ⟨s', h1, h2, h3⟩ := this
  refine ⟨s', ?_, h2, h3⟩
  simp only [lasso3Sweep, hs.obs_len]
  exact h1

/-- The outer loop on a well-shaped state succeeds, and an invariant of the sweeps holds
for its final state. -/
theorem lasso3Loop_inv (obs : List (List K)) (y xdot : List K) (lambda tol : K) (m n : ℕ)
    (P : LassoState K → Prop)
    (hsweep : ∀ i s s', LassoShape obs y m n s → P s →
      lasso3Sweep obs y xdot lambda i s = .ok s' → P s') :
    ∀ fuel i s, LassoShape obs y m n s → P s →
      ∃ r, lasso3Loop obs y xdot lambda tol fuel i s = .ok r ∧
        LassoShape obs y m n r.1 ∧ P r.1 := by
  intro fuel
  induction fuel with
  | zero => intro i s hs hP; exact ⟨(s, i), rfl, hs, hP⟩
  | succ fuel ih =>
    intro i s hs hP
    obtain ⟨s', h1, h2, _⟩ := lasso3Sweep_inv obs y xdot lambda i s m n hs (fun _ _ => True)
      trivial (fun _ _ _ _ _ _ _ => trivial)
    have hP' := hsweep i s s' hs hP h1
    simp only [lasso3Loop, h1]
    by_cases hstop : s'.maxUpdate < tol * s'.maxCoef
    · exact ⟨(s', i + 1), by simp [hstop], h2, hP'⟩
    · simp only [if_neg hstop]
      exact ih (i + 1) s' h2 hP'

/-- The initial state of `LassoRegression3` is well shaped once the argument checks pass. -/
theorem lasso3Init_shape (obs : List (List K)) (y : List K) (opt : LassoOptions K) (m n : ℕ)
    (hobs : obs.length = n) (hcol : ∀ j, j < n → (obs.getD j []).length = m)
    (hy : y.length = m) (hn : 0 < n)
    (hw : ∀ w, opt.WarmStartBeta = some w → w.length = n) :
    LassoShape obs y m n (lasso3Init obs opt) := by
  have hm : (obs.getD 0 []).length = m := hcol 0 hn
  refine ⟨hobs, hcol, hy, ?_, ?_, ?_, ?_⟩
  · simp only [lasso3Init, lassoInitBeta]
    cases hopt : opt.WarmStartBeta with
    | none => simp [hobs]
    | some w =>
      have := hw w hopt
      simp [goCopy, hobs, this]
  · simp only [lasso3Init, List.length_replicate]; exact hm
  · simp only [lasso3Init, List.length_replicate]; exact hm
  · simp only [lasso3Init, List.length_replicate]; exact hm

/-! ### The dense solvers never panic on well-shaped arguments -/

theorem lassoCoord_shape (obs y : Dense K) (xdot : List K) (lambda : K) (i : ℕ)
    (s : LassoDenseState K) (j : ℕ) (hy : y.rows = 1 ∧ y.cols = obs.rows)
    (hs : s.beta.rows = 1 ∧ s.beta.cols = obs.cols) :
    ∃ s', lassoCoord obs y xdot lambda i s j = .ok s' ∧
      s'.beta.rows = 1 ∧ s'.beta.cols = obs.cols := by
  by_cases h : i ≠ 0 ∧ s.beta.At 0 j = 0
  · exact ⟨s, by simp only [lassoCoord, if_pos h], hs⟩
  · simp only [lassoCoord, if_neg h, Dense.Mul, Dense.T, Dense.ofFn, hs.1, hs.2, hy.1, hy.2,
      Dense.Sub, matDot, floatsDot, Dense.ColView, Dense.RowView, List.length_map,
      List.length_range, ne_eq, not_true_eq_false, or_self, if_false, bind, Except.bind]
    exact ⟨_, rfl, hs.1, hs.2⟩

theorem lassoLoop_ok (obs y : Dense K) (xdot : List K) (lambda tol : K)
    (hy : y.rows = 1 ∧ y.cols = obs.rows) :
    ∀ fuel i (s : LassoDenseState K), s.beta.rows = 1 ∧ s.beta.cols = obs.cols →
      ∃ r, lassoLoop obs y xdot lambda tol fuel i s = .ok r := by
  intro fuel
  induction fuel with
  | zero => intro i s _; exact ⟨(s, i), rfl⟩
  | succ fuel ih =>
    intro i s hs
    obtain ⟨s', h1, h2⟩ := foldlM_range_inv (lassoCoord obs y xdot lambda i)
      (fun _ t => t.beta.rows = 1 ∧ t.beta.cols = obs.cols) obs.cols
      { s with maxCoef := 0, maxUpdate := 0 } hs
      (fun k t _ ht => lassoCoord_shape obs y xdot lambda i t k hy ht)
    have h1' : lassoSweep obs y xdot lambda i s = .ok s' := h1
    simp only [lassoLoop, h1']
    by_cases hstop : s'.maxUpdate < tol * s'.maxCoef
    · exact ⟨(s', i + 1), by simp [hstop]⟩
    · simp only [if_neg hstop]
      exact ih (i + 1) s' h2

theorem lasso2Coord_shape (obs y : Dense K) (xdot : List K) (lambda : K) (i : ℕ)
    (s : LassoState2 K) (j : ℕ) (hy : y.rows = 1 ∧ y.cols = obs.rows)
    (hs : Lasso2Shape obs.rows s) :
    ∃ s', lasso2Coord obs y xdot lambda i s j = .ok s' ∧ Lasso2Shape obs.rows s' := by
  obtain ⟨h1, h2, h3, h4⟩ := hs
  by_cases h : i ≠ 0 ∧ s.beta.getD j 0 = 0
  · exact ⟨s, by simp only [lasso2Coord, if_pos h], h1, h2, h3, h4⟩
  · simp only [lasso2Coord, if_neg h, Dense.Add, Dense.ofFn, h1, h2, h3, h4, hy.1, hy.2,
      Dense.Sub, matDot, floatsDot, Dense.ColView, Dense.RowView, List.length_map,
      List.length_range, ne_eq, not_true_eq_false, or_self, if_false, bind, Except.bind]
    refine ⟨_, rfl, ?_⟩
    simp [Lasso2Shape, Dense.Scale, Dense.ofFn, denseOfRow]

theorem lasso2Loop_ok (obs y : Dense K) (xdot : List K) (lambda tol : K)
    (hy : y.rows = 1 ∧ y.cols = obs.rows) :
    ∀ fuel i (s : LassoState2 K), Lasso2Shape obs.rows s →
      ∃ r, lasso2Loop obs y xdot lambda tol fuel i s = .ok r := by
  intro fuel
  induction fuel with
  | zero => intro i s _; exact ⟨(s, i), rfl⟩
  | succ fuel ih =>
    intro i s hs
    obtain ⟨s', h1, h2⟩ := foldlM_range_inv (lasso2Coord obs y xdot lambda i)
      (fun _ t => Lasso2Shape obs.rows t) obs.cols
      { s with maxCoef := 0, maxUpdate := 0, betaDiff := 0 } hs
      (fun k t _ ht => lasso2Coord_shape obs y xdot lambda i t k hy ht)
    have h1' : lasso2Sweep obs y xdot lambda i s = .ok s' := h1
    simp only [lasso2Loop, h1']
    by_cases hstop : s'.maxUpdate < tol * s'.maxCoef
    · exact ⟨(s', i + 1), by simp [hstop]⟩
    · simp only [if_neg hstop]
      exact ih (i + 1) s' h2

/-! ### Lasso: argument checks -/

/-- The solver proper of `LassoRegression3` succeeds on well-shaped arguments, with a
final coefficient vector of length `n`. -/
theorem lasso3Solve_ok (obs : List (List K)) (y : List K) (opt : LassoOptions K) (m n : ℕ)
    (hobs : obs.length = n) (hcol : ∀ j, j < n → (obs.getD j []).length = m)
    (hy : y.length = m) (hn : 0 < n)
    (hw : ∀ w, opt.WarmStartBeta = some w → w.length = n) :
    ∃ r, lasso3Solve obs y opt = .ok r ∧ r.1.beta.length = n := by
  obtain ⟨r, h1, h2, _⟩ := lasso3Loop_inv obs y (lassoXdot obs) opt.Lambda opt.Tolerance m n
    (fun _ => True) (fun _ _ _ _ _ _ => trivial) opt.Iterations.toNat 0 (lasso3Init obs opt)
    (lasso3Init_shape obs y opt m n hobs hcol hy hn hw) trivial
  exact ⟨r, h1, h2.beta_len⟩

/-- The warm-start check, in terms of the option value. -/
theorem warm_check (o : LassoOptions K) (n : ℕ) :
    (o.WarmStartBeta.isSome ∧ (o.WarmStartBeta.getD []).length ≠ n) ↔
      ∃ w, o.WarmStartBeta = some w ∧ w.length ≠ n := by
  cases o.WarmStartBeta <;> simp

theorem LassoRegression3_checks (obs : List (List K)) (y : List K)
    (opt : Option (LassoOptions K)) (m n : ℕ) (hn : 1 ≤ n) (hobs : obs.length = n)
    (hcol : ∀ j, j < n → (obs.getD j []).length = m) :
    if y.length ≠ m then LassoRegression3 obs y opt = .error .obsYSizeMismatch
    else if ∃ w, (opt.getD NewDefaultLassoOptions).WarmStartBeta = some w ∧ w.length ≠ n then
      LassoRegression3 obs y opt = .error .warmStartBetaSize
    else ∃ v, LassoRegression3 obs y opt = .ok v := by
  have hn0 : ¬ obs.length = 0 := by omega
  have hm : (obs.getD 0 []).length = m := hcol 0 (by omega)
  split
  · next hy =>
    have : ¬ m = y.length := fun h => hy h.symm
    simp only [LassoRegression3, if_neg hn0, hm, ne_eq, this, not_false_eq_true, if_true]
  · next hy =>
    have hy' : y.length = m := not_not.mp hy
    split
    · next hw =>
      have hw' := (warm_check _ obs.length).mpr (by rw [hobs]; exact hw)
      simp only [LassoRegression3, if_neg hn0, hm, hy', ne_eq, not_true_eq_false, if_false]
      rw [if_pos hw']
    · next hw =>
      have hw' : ¬ ((opt.getD NewDefaultLassoOptions).WarmStartBeta.isSome ∧
          ((opt.getD NewDefaultLassoOptions).WarmStartBeta.getD []).length ≠ obs.length) := by
        rw [warm_check, hobs]; exact hw
      have hw'' : ∀ w, (opt.getD NewDefaultLassoOptions).WarmStartBeta = some w →
          w.length = n := by
        intro w h1
        by_contra h2
        exact hw ⟨w, h1, h2⟩
      obtain ⟨r, hr, _⟩ := lasso3Solve_ok obs y (opt.getD NewDefaultLassoOptions) m n hobs hcol
        hy' (by omega) hw''
      simp only [LassoRegression3, if_neg hn0, hm, hy', ne_eq, not_true_eq_false, if_false]
      rw [if_neg hw', hr]
      exact ⟨_, rfl⟩

theorem LassoRegression_checks (obs y : Dense K) (opt : Option (LassoOptions K)) (m n : ℕ)
    (hn : 1 ≤ n) (hm : 1 ≤ m) (hrows : obs.rows = m) (hcols : obs.cols = n)
    (hyrow : y.rows = 1) :
    if y.cols ≠ m then LassoRegression obs y opt = .error .obsYSizeMismatch
    else if ∃ w, (opt.getD NewDefaultLassoOptions).WarmStartBeta = some w ∧ w.length ≠ n then
      LassoRegression obs y opt = .error .warmStartBetaSize
    else ∃ v, LassoRegression obs y opt = .ok v := by
  split
  · next hy =>
    have : ¬ m = y.cols := fun h => hy h.symm
    simp only [LassoRegression, hrows, ne_eq, this, not_false_eq_true, if_true]
  · next hy =>
    have hy' : y.cols = m := not_not.mp hy
    split
    · next hw =>
      have hw' := (warm_check _ obs.cols).mpr (by rw [hcols]; exact hw)
      simp only [LassoRegression, hrows, hy', ne_eq, not_true_eq_false, if_false]
      rw [if_pos hw']
    · next hw =>
      have hw' : ¬ ((opt.getD NewDefaultLassoOptions).WarmStartBeta.isSome ∧
          ((opt.getD NewDefaultLassoOptions).WarmStartBeta.getD []).length ≠ obs.cols) := by
        rw [warm_check, hcols]; exact hw
      have hbeta : ∃ b, NewDense 1 obs.cols (opt.getD NewDefaultLassoOptions).WarmStartBeta
          = .ok b ∧ b.rows = 1 ∧ b.cols = obs.cols := by
        have h0 : ¬ ((1 : ℕ) = 0 ∨ obs.cols = 0) := by omega
        cases hopt : (opt.getD NewDefaultLassoOptions).WarmStartBeta with
        | none =>
          exact ⟨⟨1, obs.cols, List.replicate (1 * obs.cols) 0⟩,
            by simp only [NewDense, if_neg h0], rfl, rfl⟩
        | some w =>
          have hwl : w.length = 1 * obs.cols := by
            rw [one_mul, hcols]
            by_contra h2
            exact hw ⟨w, hopt, h2⟩
          exact ⟨⟨1, obs.cols, w⟩, by simp only [NewDense, if_neg h0, if_pos hwl], rfl, rfl⟩
      obtain ⟨b, hb, hb1, hb2⟩ := hbeta
      have h0 : ¬ ((1 : ℕ) = 0 ∨ m = 0) := by omega
      obtain ⟨r, hr⟩ := lassoLoop_ok obs y (lassoDenseXdot obs)
        (opt.getD NewDefaultLassoOptions).Lambda (opt.getD NewDefaultLassoOptions).Tolerance
        ⟨hyrow, by rw [hy', hrows]⟩ (opt.getD NewDefaultLassoOptions).Iterations.toNat 0
        { beta := b, residual := ⟨1, m, List.replicate (1 * m) 0⟩, maxCoef := 0, maxUpdate := 0 }
        ⟨hb1, hb2⟩
      simp only [LassoRegression, hrows, hy', ne_eq, not_true_eq_false, if_false]
      rw [if_neg hw', hb]
      simp only [NewDense, if_neg h0, bind, Except.bind, hr]
      exact ⟨_, rfl⟩

theorem LassoRegression2_checks (obs y : Dense K) (opt : Option (LassoOptions K)) (m n : ℕ)
    (hm : 1 ≤ m) (hrows : obs.rows = m) (hcols : obs.cols = n)
    (hyrow : y.rows = 1) :
    if y.cols ≠ m then LassoRegression2 obs y opt = .error .obsYSizeMismatch
    else if ∃ w, (opt.getD NewDefaultLassoOptions).WarmStartBeta = some w ∧ w.length ≠ n then
      LassoRegression2 obs y opt = .error .warmStartBetaSize
    else ∃ v, LassoRegression2 obs y opt = .ok v := by
  split
  · next hy =>
    have : ¬ m = y.cols := fun h => hy h.symm
    simp only [LassoRegression2, hrows, ne_eq, this, not_false_eq_true, if_true]
  · next hy =>
    have hy' : y.cols = m := not_not.mp hy
    split
    · next hw =>
      have hw' := (warm_check _ obs.cols).mpr (by rw [hcols]; exact hw)
      simp only [LassoRegression2, hrows, hy', ne_eq, not_true_eq_false, if_false]
      rw [if_pos hw']
    · next hw =>
      have hw' : ¬ ((opt.getD NewDefaultLassoOptions).WarmStartBeta.isSome ∧
          ((opt.getD NewDefaultLassoOptions).WarmStartBeta.getD []).length ≠ obs.cols) := by
        rw [warm_check, hcols]; exact hw
      have h0 : ¬ ((1 : ℕ) = 0 ∨ m = 0) := by omega
      obtain ⟨r, hr⟩ := lasso2Loop_ok obs y (lassoDenseXdot obs)
        (opt.getD NewDefaultLassoOptions).Lambda (opt.getD NewDefaultLassoOptions).Tolerance
        ⟨hyrow, by rw [hy', hrows]⟩ (opt.getD NewDefaultLassoOptions).Iterations.toNat 0
        { beta := lassoInitBeta obs.cols (opt.getD NewDefaultLassoOptions).WarmStartBeta,
          residual := ⟨1, m, List.replicate (1 * m) 0⟩,
          betaX := ⟨1, m, List.replicate (1 * m) 0⟩,
          betaXDelta := ⟨1, m, List.replicate (1 * m) 0⟩,
          maxCoef := 0, maxUpdate := 0, betaDiff := 0 }
        (by rw [hrows]; exact ⟨rfl, rfl, rfl, rfl⟩)
      simp only [LassoRegression2, hrows, hy', ne_eq, not_true_eq_false, if_false]
      rw [if_neg hw']
      simp only [NewDense, if_neg h0, bind, Except.bind, hr]
      exact ⟨_, rfl⟩

/-- C3: for a design matrix with `n ≥ 1` columns that all have length `m`, every `y`
and every options value (`none` being the nil pointer, replaced by the defaults),
`LassoRegression3` fails with `ErrObsYSizeMismatch` if `len(y) ≠ m`, otherwise with
`ErrWarmStartBetaSize` if a warm start is provided whose length is not `n`, and
otherwise returns a result without error or panic; and, for `m ≥ 1`, the same holds for
`LassoRegression` and `LassoRegression2` on the corresponding `m × n` matrix and the
row vector `y`. -/
theorem lasso_argument_checks (obs : List (List K)) (y : List K)
    (opt : Option (LassoOptions K)) (m n : ℕ) (hn : 1 ≤ n) (hobs : obs.length = n)
    (hcol : ∀ j, j < n → (obs.getD j []).length = m) :
    (if y.length ≠ m then LassoRegression3 obs y opt = .error .obsYSizeMismatch
      else if ∃ w, (opt.getD NewDefaultLassoOptions).WarmStartBeta = some w ∧ w.length ≠ n then
        LassoRegression3 obs y opt = .error .warmStartBetaSize
      else ∃ v, LassoRegression3 obs y opt = .ok v) ∧
    (1 ≤ m →
      (if y.length ≠ m then
          LassoRegression (denseOfColumns m n obs) (denseOfRow y) opt = .error .obsYSizeMismatch
        else if ∃ w, (opt.getD NewDefaultLassoOptions).WarmStartBeta = some w ∧ w.length ≠ n then
          LassoRegression (denseOfColumns m n obs) (denseOfRow y) opt
            = .error .warmStartBetaSize
        else ∃ v, LassoRegression (denseOfColumns m n obs) (denseOfRow y) opt = .ok v) ∧
      (if y.length ≠ m then
          LassoRegression2 (denseOfColumns m n obs) (denseOfRow y) opt = .error .obsYSizeMismatch
        else if ∃ w, (opt.getD NewDefaultLassoOptions).WarmStartBeta = some w ∧ w.length ≠ n then
          LassoRegression2 (denseOfColumns m n obs) (denseOfRow y) opt
            = .error .warmStartBetaSize
        else ∃ v, LassoRegression2 (denseOfColumns m n obs) (denseOfRow y) opt = .ok v)) :=
  ⟨LassoRegression3_checks obs y opt m n hn hobs hcol, fun hm =>
    ⟨LassoRegression_checks (denseOfColumns m n obs) (denseOfRow y) opt m n hn hm rfl rfl rfl,
     LassoRegression2_checks (denseOfColumns m n obs) (denseOfRow y) opt m n hm rfl rfl rfl⟩⟩

/-- Witness for C3: the two-column design `[[1, 0], [2, 1]]` with `y = [3, 0]` and nil
options passes the checks in all three solvers. -/
theorem lasso_argument_checks_witness :
    (1 ≤ 2 ∧ ([[1, 0], [2, 1]] : List (List ℚ)).length = 2 ∧
      ∀ j, j < 2 → (([[1, 0], [2, 1]] : List (List ℚ)).getD j []).length = 2) ∧
    (∃ v, LassoRegression3 ([[1, 0], [2, 1]] : List (List ℚ)) [3, 0] none = .ok v) ∧
    (∃ v, LassoRegression (denseOfColumns 2 2 ([[1, 0], [2, 1]] : List (List ℚ)))
      (denseOfRow [3, 0]) none = .ok v) ∧
    (∃ v, LassoRegression2 (denseOfColumns 2 2 ([[1, 0], [2, 1]] : List (List ℚ)))
      (denseOfRow [3, 0]) none = .ok v) := by
  have hcol : ∀ j, j < 2 → (([[1, 0], [2, 1]] : List (List ℚ)).getD j []).length = 2 := by
    decide
  have h := lasso_argument_checks ([[1, 0], [2, 1]] : List (List ℚ)) [3, 0] none 2 2
    (by decide) rfl hcol
  have hw : ¬ ∃ w, ((none : Option (LassoOptions ℚ)).getD NewDefaultLassoOptions).WarmStartBeta
      = some w ∧ w.length ≠ 2 := by
    rintro ⟨w, h1, _⟩
    exact absurd h1 (by simp [NewDefaultLassoOptions])
  have hy : ¬ ([3, 0] : List ℚ).length ≠ 2 := by decide
  obtain ⟨h3, h12⟩ := h
  obtain ⟨h1, h2⟩ := h12 (by decide)
  rw [if_neg hy, if_neg hw] at h3 h1 h2
  exact ⟨⟨by decide, rfl, hcol⟩, h3, h1, h2⟩

/-! ### Lasso: the stop check -/

/-- The two ways a coordinate step can go on a well-shaped state: the column is skipped
and the state is unchanged, or the column is updated with its candidate. -/
theorem lasso3Coord_cases (obs : List (List K)) (y xdot : List K) (lambda : K) (i : ℕ)
    (s s' : LassoState K) (j m n : ℕ) (hs : LassoShape obs y m n s) (hj : j < n)
    (h : lasso3Coord obs y xdot lambda i s j = .ok s') :
    ((i ≠ 0 ∧ s.beta.getD j 0 = 0) ∧ s' = s) ∨
    (¬ (i ≠ 0 ∧ s.beta.getD j 0 = 0) ∧
      s'.beta = s.beta.set j (lassoCandidate obs y xdot lambda m s j) ∧
      (∀ t, t < m → s'.betaX.getD t 0 = s.betaX.getD t 0 + s.betaXDelta.getD t 0) ∧
      (∀ t, t < m → s'.betaXDelta.getD t 0
        = (lassoCandidate obs y xdot lambda m s j - s.beta.getD j 0) * (obs.getD j []).getD t 0) ∧
      s'.maxCoef = max s.maxCoef (lassoCandidate obs y xdot lambda m s j) ∧
      s'.maxUpdate
        = max s.maxUpdate |lassoCandidate obs y xdot lambda m s j - s.beta.getD j 0|) := by
  by_cases hskip : i ≠ 0 ∧ s.beta.getD j 0 = 0
  · left
    rw [lasso3Coord_skip obs y xdot lambda i s j hskip] at h
    exact ⟨hskip, (Except.ok.inj h).symm⟩
  · right
    obtain ⟨t, h1, _, h3⟩ := lasso3Coord_update obs y xdot lambda i s j m n hs hj hskip
    rw [h1] at h
    rw [← Except.ok.inj h]
    exact ⟨hskip, h3⟩

/-- Within any sweep the running maxima are non-negative and `maxCoef` is either `0` or
one of the coefficients already visited. -/
theorem lasso3Sweep_max (obs : List (List K)) (y xdot : List K) (lambda : K) (i : ℕ)
    (s : LassoState K) (m n : ℕ) (hs : LassoShape obs y m n s) :
    ∃ s', lasso3Sweep obs y xdot lambda i s = .ok s' ∧ LassoShape obs y m n s' ∧
      0 ≤ s'.maxUpdate ∧ (s'.maxCoef = 0 ∨ ∃ j, j < n ∧ s'.maxCoef = s'.beta.getD j 0) := by
  obtain ⟨s', h1, h2, h3⟩ := lasso3Sweep_inv obs y xdot lambda i s m n hs
    (fun k t => 0 ≤ t.maxUpdate ∧ (t.maxCoef = 0 ∨ ∃ j, j < k ∧ t.maxCoef = t.beta.getD j 0))
    ⟨le_refl _, Or.inl rfl⟩
    (by
      intro k t t' hk hsh ⟨hu, hc⟩ hstep
      rcases lasso3Coord_cases obs y xdot lambda i t t' k m n hsh hk hstep with
        ⟨_, rfl⟩ | ⟨_, hb, _, _, hmc, hmu⟩
      · refine ⟨hu, ?_⟩
        rcases hc with h0 | ⟨j, hj, hjc⟩
        · exact Or.inl h0
        · exact Or.inr ⟨j, by omega, hjc⟩
      · refine ⟨by rw [hmu]; exact le_max_of_le_left hu, ?_⟩
        rw [hmc, hb]
        rcases max_cases t.maxCoef (lassoCandidate obs y xdot lambda m t k) with
          ⟨he, _⟩ | ⟨he, _⟩
        · rw [he]
          rcases hc with h0 | ⟨j, hj, hjc⟩
          · exact Or.inl h0
          · exact Or.inr ⟨j, by omega, by rw [getD_set_ne _ _ _ _ _ (by omega)]; exact hjc⟩
        · rw [he]
          exact Or.inr ⟨k, by omega,
            by rw [getD_set_self _ _ _ _ (by rw [hsh.beta_len]; exact hk)]⟩)
  exact ⟨s', h1, h2, h3.1, by
    rcases h3.2 with h0 | ⟨j, hj, hjc⟩
    · exact Or.inl h0
    · exact Or.inr ⟨j, hj, hjc⟩⟩

/-- A sweep after the first on an all-zero coefficient vector skips every column. -/
theorem lasso3Sweep_all_zero (obs : List (List K)) (y xdot : List K) (lambda : K) (i : ℕ)
    (s : LassoState K) (hi : i ≠ 0) (hz : ∀ j, j < obs.length → s.beta.getD j 0 = 0) :
    lasso3Sweep obs y xdot lambda i s
      = .ok { s with maxCoef := 0, maxUpdate := 0, betaDiff := 0 } := by
  obtain ⟨s', h1, h2⟩ := foldlM_range_inv (lasso3Coord obs y xdot lambda i)
    (fun _ t => t = { s with maxCoef := 0, maxUpdate := 0, betaDiff := 0 }) obs.length
    { s with maxCoef := 0, maxUpdate := 0, betaDiff := 0 } rfl
    (by
      intro k t hk ht
      subst ht
      exact ⟨_, lasso3Coord_skip obs y xdot lambda i _ k ⟨hi, hz k hk⟩, rfl⟩)
  rw [← h2]
  exact h1

/-- From an all-zero coefficient vector the outer loop, past its first sweep, runs out
its whole budget without changing the coefficients. -/
theorem lasso3Loop_all_zero (obs : List (List K)) (y xdot : List K) (lambda tol : K) :
    ∀ fuel i (s : LassoState K), i ≠ 0 → (∀ j, j < obs.length → s.beta.getD j 0 = 0) →
      ∃ r, lasso3Loop obs y xdot lambda tol fuel i s = .ok (r, i + fuel) ∧ r.beta = s.beta := by
  intro fuel
  induction fuel with
  | zero => intro i s _ _; exact ⟨s, rfl, rfl⟩
  | succ fuel ih =>
    intro i s hi hz
    have hstop : ¬ ((0 : K) < tol * 0) := by simp
    obtain ⟨r, hr, hb⟩ := ih (i + 1) { s with maxCoef := 0, maxUpdate := 0, betaDiff := 0 }
      (by omega) hz
    refine ⟨r, ?_, hb⟩
    simp only [lasso3Loop, lasso3Sweep_all_zero obs y xdot lambda i s hi hz, if_neg hstop, hr]
    congr 2
    omega

/-- C6 (amended): on every valid input on which the first sweep of `LassoRegression3`
leaves every coefficient equal to zero, the stop check `maxUpdate < tolerance·maxCoef`
is not satisfied at the end of that sweep (`maxCoef` is `0` and `maxUpdate ≥ 0`), and the
solver executes all `maxIterations ≥ 1` sweeps of the outer loop, returning the all-zero
coefficients. -/
theorem lasso3_zero_sweep_runs_budget (obs : List (List K)) (y : List K)
    (opt : LassoOptions K) (m n : ℕ) (s1 : LassoState K)
    (hobs : obs.length = n) (hcol : ∀ j, j < n → (obs.getD j []).length = m)
    (hy : y.length = m) (hn : 0 < n)
    (hw : ∀ w, opt.WarmStartBeta = some w → w.length = n)
    (hiter : 1 ≤ opt.Iterations)
    (hfirst : lasso3Sweep obs y (lassoXdot obs) opt.Lambda 0 (lasso3Init obs opt) = .ok s1)
    (hzero : ∀ j, j < n → s1.beta.getD j 0 = 0) :
    ¬ (s1.maxUpdate < opt.Tolerance * s1.maxCoef) ∧
    ∃ r, lasso3Solve obs y opt = .ok (r, opt.Iterations.toNat) ∧
      ∀ j, j < n → r.beta.getD j 0 = 0 := by
  obtain ⟨s', h1, _, hu, hc⟩ := lasso3Sweep_max obs y (lassoXdot obs) opt.Lambda 0
    (lasso3Init obs opt) m n (lasso3Init_shape obs y opt m n hobs hcol hy hn hw)
  rw [hfirst] at h1
  have hs : s' = s1 := (Except.ok.inj h1).symm
  subst hs
  have hmc : s'.maxCoef = 0 := by
    rcases hc with h0 | ⟨j, hj, hjc⟩
    · exact h0
    · rw [hjc]; exact hzero j hj
  have hstop : ¬ (s'.maxUpdate < opt.Tolerance * s'.maxCoef) := by
    rw [hmc, mul_zero]
    exact not_lt.mpr hu
  refine ⟨hstop, ?_⟩
  obtain ⟨k, hk⟩ : ∃ k, opt.Iterations.toNat = k + 1 :=
    ⟨opt.Iterations.toNat - 1, by omega⟩
  obtain ⟨r, hr, hb⟩ := lasso3Loop_all_zero obs y (lassoXdot obs) opt.Lambda opt.Tolerance
    k 1 s' (by omega) (by rw [hobs]; exact hzero)
  refine ⟨r, ?_, fun j hj => by rw [hb]; exact hzero j hj⟩
  simp only [lasso3Solve, hk, lasso3Loop, hfirst, if_neg hstop, hr]
  congr 2
  omega

/-- Witness for C6 (amended): the single column `[1]` with `y = [0]`, `lambda = 1` and a
budget of three sweeps. -/
theorem lasso3_zero_sweep_runs_budget_witness :
    ∃ r, lasso3Solve ([[1]] : List (List ℚ)) [0] ⟨none, 1, 3, 1 / 10000⟩ = .ok (r, 3) ∧
      ∀ j, j < 1 → r.beta.getD j 0 = 0 :=
  (lasso3_zero_sweep_runs_budget ([[1]] : List (List ℚ)) [0] ⟨none, 1, 3, 1 / 10000⟩ 1 1
    ⟨[0], [0], [0], [0], 0, 0, 0⟩ rfl (by decide) rfl (by decide)
    (by intro w h; exact absurd h (by simp)) (by decide) (by decide!) (by decide!)).2

/-- C6, counterexample: with the single column `[1]`, `y = [0]`, `lambda = 1`,
tolerance `1e-4` and `maxIterations = 3`, the first sweep leaves the only coefficient
at zero, yet the stop check fails after it and three sweeps are executed, not one. -/
theorem lasso3_zero_sweep_counterexample :
    ∃ s1 r,
      lasso3Sweep ([[1]] : List (List ℚ)) [0] (lassoXdot [[1]]) 1 0
        (lasso3Init [[1]] ⟨none, 1, 3, 1 / 10000⟩) = .ok s1 ∧
      s1.beta = [0] ∧ ¬ (s1.maxUpdate < 1 / 10000 * s1.maxCoef) ∧
      lasso3Solve ([[1]] : List (List ℚ)) [0] ⟨none, 1, 3, 1 / 10000⟩ = .ok (r, 3) ∧
      (3 : ℕ) ≠ 1 :=
  ⟨⟨[0], [0], [0], [0], 0, 0, 0⟩, ⟨[0], [0], [0], [0], 0, 0, 0⟩,
    by decide!, rfl, by decide!, by decide!, by decide⟩

/-! ### Lasso: the output split -/

/-- C7 (amended): `LassoRegression3` fails with "observation matrix has no observations"
when the design matrix has `n = 0` columns, whatever `y` and the options are; on every
valid input with `n ≥ 1` columns it returns, without error, `(beta[0], empty)` when
`n = 1` and `(beta[0], beta[1:])` when `n ≥ 2`, where `beta` is the final coefficient
vector, of length `n`. -/
theorem lasso3_output_split (obs : List (List K)) (y : List K)
    (opt : Option (LassoOptions K)) (m n : ℕ)
    (hobs : obs.length = n) (hcol : ∀ j, j < n → (obs.getD j []).length = m)
    (hy : y.length = m)
    (hw : ∀ w, (opt.getD NewDefaultLassoOptions).WarmStartBeta = some w → w.length = n) :
    (n = 0 → ∀ (y' : List K) (opt' : Option (LassoOptions K)),
      LassoRegression3 obs y' opt' = .error .noObservations) ∧
    (1 ≤ n → ∃ r, lasso3Solve obs y (opt.getD NewDefaultLassoOptions) = .ok r ∧
      r.1.beta.length = n ∧
      (n = 1 → LassoRegression3 obs y opt = .ok (.val (r.1.beta.getD 0 0), [])) ∧
      (2 ≤ n → LassoRegression3 obs y opt = .ok (.val (r.1.beta.getD 0 0), r.1.beta.drop 1))) := by
  constructor
  · intro hn y' opt'
    have : obs.length = 0 := by omega
    simp only [LassoRegression3, if_pos this]
  · intro hn
    obtain ⟨r, hr, hlen⟩ := lasso3Solve_ok obs y (opt.getD NewDefaultLassoOptions) m n hobs
      hcol hy (by omega) hw
    have hn0 : ¬ obs.length = 0 := by omega
    have hm : (obs.getD 0 []).length = m := hcol 0 (by omega)
    have hw' : ¬ ((opt.getD NewDefaultLassoOptions).WarmStartBeta.isSome ∧
        ((opt.getD NewDefaultLassoOptions).WarmStartBeta.getD []).length ≠ obs.length) := by
      rw [warm_check, hobs]
      rintro ⟨w, h1, h2⟩
      exact h2 (hw w h1)
    have hres : LassoRegression3 obs y opt = .ok (splitCoef r.1.beta) := by
      simp only [LassoRegression3, if_neg hn0, hm, hy, ne_eq, not_true_eq_false, if_false]
      rw [if_neg hw', hr]
    refine ⟨r, hr, hlen, ?_, ?_⟩
    · intro h1
      rw [hres]
      match hb : r.1.beta, hlen with
      | [b0], _ => rfl
      | [], h => simp at h; omega
      | _ :: _ :: _, h => simp at h; omega
    · intro h2
      rw [hres]
      match hb : r.1.beta, hlen with
      | b0 :: b1 :: rest, _ => rfl
      | [], h => simp at h; omega
      | [_], h => simp at h; omega

/-- Witness for C7 (amended): two columns `[1, 0]`, `[2, 1]`, `y = [3, 0]`, `lambda = 1`
and one sweep give `(2, [1/5])`. -/
theorem lasso3_output_split_witness :
    LassoRegression3 ([[1, 0], [2, 1]] : List (List ℚ)) [3, 0] (some ⟨none, 1, 1, 1 / 10000⟩)
      = .ok (.val 2, [1 / 5]) := by
  obtain ⟨r, hr, _, _, h2⟩ := (lasso3_output_split ([[1, 0], [2, 1]] : List (List ℚ)) [3, 0]
    (some ⟨none, 1, 1, 1 / 10000⟩) 2 2 rfl (by decide) rfl
    (by intro w h; exact absurd h (by simp))).2 (by decide)
  have hv : lasso3Solve ([[1, 0], [2, 1]] : List (List ℚ)) [3, 0] ⟨none, 1, 1, 1 / 10000⟩
      = .ok (⟨[2, 1 / 5], [1, 0], [2, 0], [2 / 5, 1 / 5], 2, 2, 1 / 5⟩, 1) := by decide!
  rw [Option.getD_some, hv] at hr
  rw [h2 (by decide), ← Except.ok.inj hr]
  rfl

/-- C7, counterexample: on the design matrix with no columns `LassoRegression3` returns
an error, not `(NaN, empty)`. -/
theorem lasso3_output_split_counterexample :
    LassoRegression3 ([] : List (List ℚ)) [] none = .error .noObservations ∧
    LassoRegression3 ([] : List (List ℚ)) [] none ≠ .ok (.NaN, []) :=
  ⟨by decide!, by decide!⟩

/-! ### Lasso: the incremental fitted values -/

/-- Changing one term of a finite sum changes the sum by the difference of the terms. -/
theorem sum_range_update (n j : ℕ) (hj : j < n) (g g' : ℕ → K)
    (h : ∀ k, k < n → k ≠ j → g' k = g k) :
    ∑ k in Finset.range n, g' k = ∑ k in Finset.range n, g k + (g' j - g j) := by
  have h1 : ∑ k in Finset.range n, (g' k - g k) = g' j - g j := by
    rw [Finset.sum_eq_single j]
    · intro k hk hkj
      rw [h k (Finset.mem_range.mp hk) hkj, sub_self]
    · intro hj'
      exact absurd (Finset.mem_range.mpr hj) hj'
  rw [← h1, Finset.sum_sub_distrib]
  ring

/-- A coordinate step preserves the fitted-value relation. -/
theorem lasso3Coord_fitted (obs : List (List K)) (y xdot w : List K) (lambda : K) (i : ℕ)
    (s s' : LassoState K) (j m n : ℕ) (hs : LassoShape obs y m n s) (hj : j < n)
    (hI : LassoFitted obs w m n s)
    (h : lasso3Coord obs y xdot lambda i s j = .ok s') : LassoFitted obs w m n s' := by
  rcases lasso3Coord_cases obs y xdot lambda i s s' j m n hs hj h with
    ⟨_, rfl⟩ | ⟨_, hb, hbx, hd, _, _⟩
  · exact hI
  · intro t ht
    rw [hbx t ht, hd t ht, hI t ht, hb]
    simp only [fittedAt]
    rw [sum_range_update n j hj
      (fun k => (s.beta.getD k 0 - w.getD k 0) * (obs.getD k []).getD t 0)
      (fun k => ((s.beta.set j (lassoCandidate obs y xdot lambda m s j)).getD k 0
        - w.getD k 0) * (obs.getD k []).getD t 0)
      (fun k _ hkj => by simp only [getD_set_ne _ _ _ _ _ (Ne.symm hkj)])]
    rw [getD_set_self _ _ _ _ (by rw [hs.beta_len]; exact hj)]
    ring

/-- A sweep preserves the shape and the fitted-value relation. -/
theorem lasso3Sweep_fitted (obs : List (List K)) (y xdot w : List K) (lambda : K) (i : ℕ)
    (s s' : LassoState K) (m n : ℕ) (hs : LassoShape obs y m n s)
    (hI : LassoFitted obs w m n s)
    (h : lasso3Sweep obs y xdot lambda i s = .ok s') :
    LassoShape obs y m n s' ∧ LassoFitted obs w m n s' := by
  obtain ⟨t, h1, h2, h3⟩ := lasso3Sweep_inv obs y xdot lambda i s m n hs
    (fun _ t => LassoFitted obs w m n t) hI
    (fun k t t' hk hsh hP hstep => lasso3Coord_fitted obs y xdot w lambda i t t' k m n hsh hk
      hP hstep)
  rw [h1] at h
  rw [← Except.ok.inj h]
  exact ⟨h2, h3⟩

/-- The initial state satisfies the fitted-value relation for its own coefficients. -/
theorem lasso3Init_fitted (obs : List (List K)) (opt : LassoOptions K) (m n : ℕ)
    (hm : (obs.getD 0 []).length = m) :
    LassoFitted obs (lasso3Init obs opt).beta m n (lasso3Init obs opt) := by
  intro t ht
  simp only [fittedAt, sub_self, zero_mul, Finset.sum_const_zero]
  simp only [lasso3Init, hm]
  rw [List.getD_eq_getElem _ _ (by simpa using ht)]
  simp

/-- Every state in which a sweep starts is well shaped and satisfies the fitted-value
relation. -/
theorem lasso3SweepStart_inv (obs : List (List K)) (y : List K) (opt : LassoOptions K)
    (m n : ℕ) (hobs : obs.length = n) (hcol : ∀ j, j < n → (obs.getD j []).length = m)
    (hy : y.length = m) (hn : 0 < n)
    (hw : ∀ w, opt.WarmStartBeta = some w → w.length = n) :
    ∀ k s, lasso3SweepStart obs y opt k = some s →
      LassoShape obs y m n s ∧ LassoFitted obs (lasso3Init obs opt).beta m n s := by
  intro k
  induction k with
  | zero =>
    intro s h
    simp only [lasso3SweepStart] at h
    split at h
    · rw [← Option.some.inj h]
      exact ⟨lasso3Init_shape obs y opt m n hobs hcol hy hn hw,
        lasso3Init_fitted obs opt m n (hcol 0 hn)⟩
    · exact absurd h (by simp)
  | succ k ih =>
    intro s h
    simp only [lasso3SweepStart] at h
    cases hk : lasso3SweepStart obs y opt k with
    | none => rw [hk] at h; exact absurd h (by simp)
    | some s0 =>
      rw [hk] at h
      simp only at h
      obtain ⟨hs0, hI0⟩ := ih s0 hk
      cases hsw : lasso3Sweep obs y (lassoXdot obs) opt.Lambda k s0 with
      | error e => rw [hsw] at h; exact absurd h (by simp)
      | ok s1 =>
        rw [hsw] at h
        simp only at h
        split at h
        · exact absurd h (by simp)
        · split at h
          · rw [← Option.some.inj h]
            exact lasso3Sweep_fitted obs y _ _ _ k s0 s1 m n hs0 hI0 hsw
          · exact absurd h (by simp)

/-- A sweep that is reached is the head of what remains of the outer loop. -/
theorem lasso3SweepStart_loop (obs : List (List K)) (y : List K) (opt : LassoOptions K) :
    ∀ k s, lasso3SweepStart obs y opt k = some s →
      k < opt.Iterations.toNat ∧
      lasso3Solve obs y opt = lasso3Loop obs y (lassoXdot obs) opt.Lambda opt.Tolerance
        (opt.Iterations.toNat - k) k s := by
  intro k
  induction k with
  | zero =>
    intro s h
    simp only [lasso3SweepStart] at h
    split at h
    · next hpos =>
      rw [← Option.some.inj h]
      exact ⟨hpos, rfl⟩
    · exact absurd h (by simp)
  | succ k ih =>
    intro s h
    simp only [lasso3SweepStart] at h
    cases hk : lasso3SweepStart obs y opt k with
    | none => rw [hk] at h; exact absurd h (by simp)
    | some s0 =>
      rw [hk] at h
      simp only at h
      obtain ⟨hlt, hsolve⟩ := ih s0 hk
      cases hsw : lasso3Sweep obs y (lassoXdot obs) opt.Lambda k s0 with
      | error e => rw [hsw] at h; exact absurd h (by simp)
      | ok s1 =>
        rw [hsw] at h
        simp only at h
        split at h
        · exact absurd h (by simp)
        · next hstop =>
          split at h
          · next hlt' =>
            have hs : s1 = s := Option.some.inj h
            subst hs
            refine ⟨hlt', ?_⟩
            rw [hsolve]
            obtain ⟨f, hf⟩ : ∃ f, opt.Iterations.toNat - k = f + 1 :=
              ⟨opt.Iterations.toNat - k - 1, by omega⟩
            have hf' : opt.Iterations.toNat - (k + 1) = f := by omega
            rw [hf, hf']
            simp only [lasso3Loop, hsw, if_neg hstop]
          · exact absurd h (by simp)

/-! ### Lasso with lambda = 0 -/

/-- The running maximum coefficient of a sweep is never negative. -/
theorem lasso3Sweep_maxCoef_nonneg (obs : List (List K)) (y xdot : List K) (lambda : K)
    (i : ℕ) (s s' : LassoState K) (m n : ℕ) (hs : LassoShape obs y m n s)
    (h : lasso3Sweep obs y xdot lambda i s = .ok s') : 0 ≤ s'.maxCoef := by
  obtain ⟨t, h1, _, h3⟩ := lasso3Sweep_inv obs y xdot lambda i s m n hs
    (fun _ t => 0 ≤ t.maxCoef) (le_refl _)
    (by
      intro k t t' hk hsh hP hstep
      rcases lasso3Coord_cases obs y xdot lambda i t t' k m n hsh hk hstep with
        ⟨_, rfl⟩ | ⟨_, _, _, _, hmc, _⟩
      · exact hP
      · rw [hmc]; exact le_max_of_le_left hP)
  rw [h1] at h
  rw [← Except.ok.inj h]
  exact h3

/-- A sweep that leaves no coefficient strictly positive does not pass the stop check. -/
theorem lasso3Sweep_nonpositive_no_stop (obs : List (List K)) (y xdot : List K)
    (lambda tol : K) (i : ℕ) (s s' : LassoState K) (m n : ℕ) (hs : LassoShape obs y m n s)
    (h : lasso3Sweep obs y xdot lambda i s = .ok s')
    (hneg : ∀ j, j < n → s'.beta.getD j 0 ≤ 0) :
    ¬ (s'.maxUpdate < tol * s'.maxCoef) := by
  obtain ⟨t, h1, _, hu, hc⟩ := lasso3Sweep_max obs y xdot lambda i s m n hs
  rw [h] at h1
  have ht : s' = t := Except.ok.inj h1
  subst ht
  have hnn := lasso3Sweep_maxCoef_nonneg obs y xdot lambda i s s' m n hs h
  have hmc : s'.maxCoef = 0 := by
    rcases hc with h0 | ⟨j, hj, hjc⟩
    · exact h0
    · exact le_antisymm (by rw [hjc]; exact hneg j hj) hnn
  rw [hmc, mul_zero]
  exact not_lt.mpr hu

/-- C20: the stop criterion compares against the signed maximum coefficient.  On every
valid input to `LassoRegression3` (for every tolerance, in particular every tolerance
`≥ 0`), a sweep of the run after which no coefficient is strictly positive (the updated
ones are negative or zero, the skipped ones are zero) does not satisfy
`maxUpdate < tolerance·maxCoef`; and if this holds in every sweep of the run, the solver
executes all `maxIterations` sweeps. -/
theorem lasso3_nonpositive_runs_budget (obs : List (List K)) (y : List K)
    (opt : LassoOptions K) (m n : ℕ)
    (hobs : obs.length = n) (hcol : ∀ j, j < n → (obs.getD j []).length = m)
    (hy : y.length = m) (hn : 0 < n)
    (hw : ∀ w, opt.WarmStartBeta = some w → w.length = n) :
    (∀ k s s', lasso3SweepStart obs y opt k = some s →
      lasso3Sweep obs y (lassoXdot obs) opt.Lambda k s = .ok s' →
      (∀ j, j < n → s'.beta.getD j 0 ≤ 0) →
      ¬ (s'.maxUpdate < opt.Tolerance * s'.maxCoef)) ∧
    ((∀ k s s', lasso3SweepStart obs y opt k = some s →
        lasso3Sweep obs y (lassoXdot obs) opt.Lambda k s = .ok s' →
        ∀ j, j < n → s'.beta.getD j 0 ≤ 0) →
      ∃ r, lasso3Solve obs y opt = .ok (r, opt.Iterations.toNat)) := by
  have hstopfree : ∀ k s s', lasso3SweepStart obs y opt k = some s →
      lasso3Sweep obs y (lassoXdot obs) opt.Lambda k s = .ok s' →
      (∀ j, j < n → s'.beta.getD j 0 ≤ 0) →
      ¬ (s'.maxUpdate < opt.Tolerance * s'.maxCoef) := by
    intro k s s' hstart hsweep hneg
    obtain ⟨hs, _⟩ := lasso3SweepStart_inv obs y opt m n hobs hcol hy hn hw k s hstart
    exact lasso3Sweep_nonpositive_no_stop obs y _ _ _ k s s' m n hs hsweep hneg
  refine ⟨hstopfree, ?_⟩
  intro hall
  -- every sweep below the budget is reached
  have hreach : ∀ k, k < opt.Iterations.toNat → ∃ s, lasso3SweepStart obs y opt k = some s := by
    intro k
    induction k with
    | zero =>
      intro h0
      exact ⟨lasso3Init obs opt, by simp only [lasso3SweepStart, if_pos h0]⟩
    | succ k ih =>
      intro hk
      obtain ⟨s, hs⟩ := ih (by omega)
      obtain ⟨hsh, _⟩ := lasso3SweepStart_inv obs y opt m n hobs hcol hy hn hw k s hs
      obtain ⟨s', hs', _⟩ := lasso3Sweep_max obs y (lassoXdot obs) opt.Lambda k s m n hsh
      have hns := hstopfree k s s' hs hs' (hall k s s' hs hs')
      exact ⟨s', by simp only [lasso3SweepStart, hs, hs', if_neg hns, if_pos hk]⟩
  cases hit : opt.Iterations.toNat with
  | zero => exact ⟨lasso3Init obs opt, by simp only [lasso3Solve, hit, lasso3Loop]⟩
  | succ f =>
    obtain ⟨s, hs⟩ := hreach f (by omega)
    obtain ⟨hsh, _⟩ := lasso3SweepStart_inv obs y opt m n hobs hcol hy hn hw f s hs
    obtain ⟨s', hs', _⟩ := lasso3Sweep_max obs y (lassoXdot obs) opt.Lambda f s m n hsh
    have hns := hstopfree f s s' hs hs' (hall f s s' hs hs')
    obtain ⟨_, hsolve⟩ := lasso3SweepStart_loop obs y opt f s hs
    refine ⟨s', ?_⟩
    rw [hsolve, hit, show f + 1 - f = 0 + 1 by omega]
    simp only [lasso3Loop, hs', if_neg hns]

/-- Witness for C20: the single column `[1]` with `y = [-3]`, `lambda = 1`, tolerance
`1e-4` and a budget of three sweeps.  The only coefficient is `-2` after every sweep, so
all three sweeps are executed. -/
theorem lasso3_nonpositive_runs_budget_witness :
    ∃ r, lasso3Solve ([[1]] : List (List ℚ)) [-3] ⟨none, 1, 3, 1 / 10000⟩ = .ok (r, 3) :=
  (lasso3_nonpositive_runs_budget ([[1]] : List (List ℚ)) [-3] ⟨none, 1, 3, 1 / 10000⟩ 1 1
    rfl (by decide) rfl (by decide) (by intro w h; exact absurd h (by simp))).2 (by
      intro k s s' hstart hsweep
      have hk : k < 3 :=
        (lasso3SweepStart_loop ([[1]] : List (List ℚ)) [-3] ⟨none, 1, 3, 1 / 10000⟩ k s
          hstart).1
      have h0 : lasso3SweepStart ([[1]] : List (List ℚ)) [-3] ⟨none, 1, 3, 1 / 10000⟩ 0
          = some ⟨[0], [0], [0], [0], 0, 0, 0⟩ := by decide!
      have h1 : lasso3SweepStart ([[1]] : List (List ℚ)) [-3] ⟨none, 1, 3, 1 / 10000⟩ 1
          = some ⟨[-2], [-3], [0], [-2], 0, 2, -2⟩ := by decide!
      have h2 : lasso3SweepStart ([[1]] : List (List ℚ)) [-3] ⟨none, 1, 3, 1 / 10000⟩ 2
          = some ⟨[-2], [-1], [-2], [0], 0, 0, 0⟩ := by decide!
      have e0 : lasso3Sweep ([[1]] : List (List ℚ)) [-3] (lassoXdot [[1]]) 1 0
          ⟨[0], [0], [0], [0], 0, 0, 0⟩ = .ok ⟨[-2], [-3], [0], [-2], 0, 2, -2⟩ := by decide!
      have e1 : lasso3Sweep ([[1]] : List (List ℚ)) [-3] (lassoXdot [[1]]) 1 1
          ⟨[-2], [-3], [0], [-2], 0, 2, -2⟩ = .ok ⟨[-2], [-1], [-2], [0], 0, 0, 0⟩ := by
        decide!
      have e2 : lasso3Sweep ([[1]] : List (List ℚ)) [-3] (lassoXdot [[1]]) 1 2
          ⟨[-2], [-1], [-2], [0], 0, 0, 0⟩ = .ok ⟨[-2], [-1], [-2], [0], 0, 0, 0⟩ := by
        decide!
      interval_cases k
      · rw [h0] at hstart
        rw [← Option.some.inj hstart, e0] at hsweep
        rw [← Except.ok.inj hsweep]
        decide!
      · rw [h1] at hstart
        rw [← Option.some.inj hstart, e1] at hsweep
        rw [← Except.ok.inj hsweep]
        decide!
      · rw [h2] at hstart
        rw [← Option.some.inj hstart, e2] at hsweep
        rw [← Except.ok.inj hsweep]
        decide!)

/-! ### Lasso: the zero-skip shortcut -/

/-- The steps of a sweep for the columns before `j` succeed on a well-shaped state, and
an invariant that every coordinate step preserves holds when column `j` is reached. -/
theorem lasso3Prefix_inv (obs : List (List K)) (y xdot : List K) (lambda : K) (i : ℕ)
    (s : LassoState K) (m n j : ℕ) (hj : j ≤ n) (hs : LassoShape obs y m n s)
    (P : LassoState K → Prop)
    (h0 : P { s with maxCoef := 0, maxUpdate := 0, betaDiff := 0 })
    (hstep : ∀ k t t', k < j → LassoShape obs y m n t → P t →
      lasso3Coord obs y xdot lambda i t k = .ok t' → P t') :
    ∃ t, (List.range j).foldlM (lasso3Coord obs y xdot lambda i)
        { s with maxCoef := 0, maxUpdate := 0, betaDiff := 0 } = .ok t ∧
      LassoShape obs y m n t ∧ P t :=
  foldlM_range_inv (lasso3Coord obs y xdot lambda i)
    (fun _ t => LassoShape obs y m n t ∧ P t) j
    { s with maxCoef := 0, maxUpdate := 0, betaDiff := 0 } ⟨hs.reset, h0⟩
    (by
      intro k t hk ⟨hsh, hP⟩
      obtain ⟨t', h1, h2⟩ := lasso3Coord_shape obs y xdot lambda i t k m n hsh (by omega)
      exact ⟨t', h1, h2, hstep k t t' hk hsh hP h1⟩)

/-- A sweep after the first one is entered from the result of the sweep before it. -/
theorem lasso3SweepStart_succ (obs : List (List K)) (y : List K) (opt : LassoOptions K)
    (k : ℕ) (s : LassoState K) (h : lasso3SweepStart obs y opt (k + 1) = some s) :
    ∃ s0, lasso3SweepStart obs y opt k = some s0 ∧
      lasso3Sweep obs y (lassoXdot obs) opt.Lambda k s0 = .ok s ∧
      ¬ (s.maxUpdate < opt.Tolerance * s.maxCoef) := by
  simp only [lasso3SweepStart] at h
  cases hk : lasso3SweepStart obs y opt k with
  | none => rw [hk] at h; exact absurd h (by simp)
  | some s0 =>
    rw [hk] at h
    simp only at h
    cases hsw : lasso3Sweep obs y (lassoXdot obs) opt.Lambda k s0 with
    | error e => rw [hsw] at h; exact absurd h (by simp)
    | ok s1 =>
      rw [hsw] at h
      simp only at h
      split at h
      · exact absurd h (by simp)
      · next hstop =>
        split at h
        · have hs : s1 = s := Option.some.inj h
          subst hs
          exact ⟨s0, rfl, hsw, hstop⟩
        · exact absurd h (by simp)

/-- The state in which a sweep reaches a column comes from the state on entry to the
sweep, and is well shaped. -/
theorem lasso3CoordStart_inv (obs : List (List K)) (y : List K) (opt : LassoOptions K)
    (m n : ℕ) (hobs : obs.length = n) (hcol : ∀ j, j < n → (obs.getD j []).length = m)
    (hy : y.length = m) (hw : ∀ w, opt.WarmStartBeta = some w → w.length = n)
    (k j : ℕ) (t : LassoState K) (h : lasso3CoordStart obs y opt k j = some t)
    (P : LassoState K → Prop)
    (hstep : ∀ c t t', c < j → LassoShape obs y m n t → P t →
      lasso3Coord obs y (lassoXdot obs) opt.Lambda k t c = .ok t' → P t') :
    ∃ s, lasso3SweepStart obs y opt k = some s ∧ j < n ∧ LassoShape obs y m n t ∧
      (P { s with maxCoef := 0, maxUpdate := 0, betaDiff := 0 } → P t) := by
  simp only [lasso3CoordStart] at h
  cases hk : lasso3SweepStart obs y opt k with
  | none => rw [hk] at h; exact absurd h (by simp)
  | some s =>
    rw [hk] at h
    simp only at h
    split at h
    · next hj =>
      rw [hobs] at hj
      obtain ⟨hsh, _⟩ := lasso3SweepStart_inv obs y opt m n hobs hcol hy (by omega) hw k s hk
      obtain ⟨t1, h1, h2, h3⟩ := lasso3Prefix_inv obs y (lassoXdot obs) opt.Lambda k s m n j
        (by omega) hsh (fun t => P { s with maxCoef := 0, maxUpdate := 0, betaDiff := 0 } → P t)
        id (fun c t t' hc hsht hP hstp h0 => hstep c t t' hc hsht (hP h0) hstp)
      rw [h1] at h
      have ht : t1 = t := Option.some.inj h
      subst ht
      exact ⟨s, rfl, hj, h2, h3⟩
    · exact absurd h (by simp)

/-- A coordinate step of a sweep after the first one keeps a zero coefficient at zero. -/
theorem lasso3Coord_zero_stays (obs : List (List K)) (y xdot : List K) (lambda : K) (i : ℕ)
    (hi : i ≠ 0) (t t' : LassoState K) (c j m n : ℕ) (hs : LassoShape obs y m n t)
    (hc : c < n) (hz : t.beta.getD j 0 = 0)
    (h : lasso3Coord obs y xdot lambda i t c = .ok t') : t'.beta.getD j 0 = 0 := by
  rcases lasso3Coord_cases obs y xdot lambda i t t' c m n hs hc h with
    ⟨_, rfl⟩ | ⟨hns, hb, _⟩
  · exact hz
  · have hcj : c ≠ j := by
      intro hcj
      subst hcj
      exact hns ⟨hi, hz⟩
    rw [hb, getD_set_ne _ _ _ _ _ hcj]
    exact hz

/-- A sweep after the first one keeps a zero coefficient at zero. -/
theorem lasso3Sweep_zero_stays (obs : List (List K)) (y xdot : List K) (lambda : K) (i : ℕ)
    (hi : i ≠ 0) (s s' : LassoState K) (j m n : ℕ) (hs : LassoShape obs y m n s)
    (hz : s.beta.getD j 0 = 0)
    (h : lasso3Sweep obs y xdot lambda i s = .ok s') : s'.beta.getD j 0 = 0 := by
  obtain ⟨t, h1, _, h3⟩ := lasso3Sweep_inv obs y xdot lambda i s m n hs
    (fun _ t => t.beta.getD j 0 = 0) hz
    (fun c t t' hc hsh hP hstep =>
      lasso3Coord_zero_stays obs y xdot lambda i hi t t' c j m n hsh hc hP hstep)
  rw [h1] at h
  rw [← Except.ok.inj h]
  exact h3

/-- The outer loop entered at a sweep `i ≥ i0` on a well-shaped state succeeds, and an
invariant of the sweeps from `i0` on holds for its final state. -/
theorem lasso3Loop_inv_from (obs : List (List K)) (y xdot : List K) (lambda tol : K)
    (m n i0 : ℕ) (P : LassoState K → Prop)
    (hsweep : ∀ i s s', i0 ≤ i → LassoShape obs y m n s → P s →
      lasso3Sweep obs y xdot lambda i s = .ok s' → P s') :
    ∀ fuel i s, i0 ≤ i → LassoShape obs y m n s → P s →
      ∃ r, lasso3Loop obs y xdot lambda tol fuel i s = .ok r ∧
        LassoShape obs y m n r.1 ∧ P r.1 := by
  intro fuel
  induction fuel with
  | zero => intro i s _ hs hP; exact ⟨(s, i), rfl, hs, hP⟩
  | succ fuel ih =>
    intro i s hi hs hP
    obtain ⟨s', h1, h2, _⟩ := lasso3Sweep_inv obs y xdot lambda i s m n hs (fun _ _ => True)
      trivial (fun _ _ _ _ _ _ _ => trivial)
    have hP' := hsweep i s s' hi hs hP h1
    simp only [lasso3Loop, h1]
    by_cases hstop : s'.maxUpdate < tol * s'.maxCoef
    · exact ⟨(s', i + 1), by simp [hstop], h2, hP'⟩
    · simp only [if_neg hstop]
      exact ih (i + 1) s' (by omega) h2 hP'

/-- C17: the zero-skip shortcut of `LassoRegression3`.  On every valid input, if
coefficient `j` is zero at the end of sweep `k` of the run, then whenever a later sweep
`k2 > k` reaches column `j` the coefficient is still zero and the step for it leaves the
whole state unchanged (it is never updated again), and the run ends without error with
coefficient `j` equal to zero.  In the first sweep (`i = 0`) the step for column `j`
does update the coefficient, to its soft-thresholded candidate, whatever its value,
zero included. -/
theorem lasso3_zero_stays_zero (obs : List (List K)) (y : List K)
    (opt : LassoOptions K) (m n j : ℕ)
    (hobs : obs.length = n) (hcol : ∀ c, c < n → (obs.getD c []).length = m)
    (hy : y.length = m) (hj : j < n)
    (hw : ∀ w, opt.WarmStartBeta = some w → w.length = n) :
    (∀ k s0 s1, lasso3SweepStart obs y opt k = some s0 →
      lasso3Sweep obs y (lassoXdot obs) opt.Lambda k s0 = .ok s1 →
      s1.beta.getD j 0 = 0 →
      (∀ k2 t, k < k2 → lasso3CoordStart obs y opt k2 j = some t →
        t.beta.getD j 0 = 0 ∧
        lasso3Coord obs y (lassoXdot obs) opt.Lambda k2 t j = .ok t) ∧
      ∃ r, lasso3Solve obs y opt = .ok r ∧ r.1.beta.getD j 0 = 0) ∧
    (∀ t, lasso3CoordStart obs y opt 0 j = some t →
      ∃ t', lasso3Coord obs y (lassoXdot obs) opt.Lambda 0 t j = .ok t' ∧
        t'.beta = t.beta.set j (lassoCandidate obs y (lassoXdot obs) opt.Lambda m t j)) := by
  have hn : 0 < n := by omega
  constructor
  · intro k s0 s1 hstart hsweep hz
    obtain ⟨hsh0, _⟩ := lasso3SweepStart_inv obs y opt m n hobs hcol hy hn hw k s0 hstart
    -- the coefficient is zero on entry to every later sweep
    have hentry : ∀ d s, lasso3SweepStart obs y opt (k + 1 + d) = some s →
        s.beta.getD j 0 = 0 := by
      intro d
      induction d with
      | zero =>
        intro s h
        obtain ⟨s0', h1, h2, _⟩ := lasso3SweepStart_succ obs y opt k s h
        rw [hstart] at h1
        rw [← Option.some.inj h1, hsweep] at h2
        rw [← Except.ok.inj h2]
        exact hz
      | succ d ih =>
        intro s h
        obtain ⟨sp, h1, h2, _⟩ := lasso3SweepStart_succ obs y opt (k + 1 + d) s h
        obtain ⟨hshp, _⟩ := lasso3SweepStart_inv obs y opt m n hobs hcol hy hn hw _ sp h1
        exact lasso3Sweep_zero_stays obs y _ _ (k + 1 + d) (by omega) sp s j m n hshp
          (ih sp h1) h2
    constructor
    · intro k2 t hk2 hcs
      obtain ⟨s, hs, _, _, hP⟩ := lasso3CoordStart_inv obs y opt m n hobs hcol hy hw k2 j t hcs
        (fun t => t.beta.getD j 0 = 0)
        (fun c t t' hc hsh hP hstep =>
          lasso3Coord_zero_stays obs y _ _ k2 (by omega) t t' c j m n hsh (by omega) hP hstep)
      obtain ⟨d, rfl⟩ : ∃ d, k2 = k + 1 + d := ⟨k2 - (k + 1), by omega⟩
      have hzt : t.beta.getD j 0 = 0 := hP (hentry d s hs)
      exact ⟨hzt, lasso3Coord_skip obs y _ _ _ t j ⟨by omega, hzt⟩⟩
    · obtain ⟨hlt, hsolve⟩ := lasso3SweepStart_loop obs y opt k s0 hstart
      obtain ⟨hsh1, _⟩ := lasso3Sweep_fitted obs y (lassoXdot obs) (lasso3Init obs opt).beta
        opt.Lambda k s0 s1 m n hsh0
        (lasso3SweepStart_inv obs y opt m n hobs hcol hy hn hw k s0 hstart).2 hsweep
      obtain ⟨f, hf⟩ : ∃ f, opt.Iterations.toNat - k = f + 1 :=
        ⟨opt.Iterations.toNat - k - 1, by omega⟩
      rw [hsolve, hf]
      simp only [lasso3Loop, hsweep]
      by_cases hstop : s1.maxUpdate < opt.Tolerance * s1.maxCoef
      · exact ⟨(s1, k + 1), by simp only [if_pos hstop], hz⟩
      · simp only [if_neg hstop]
        obtain ⟨r, hr, _, hrz⟩ := lasso3Loop_inv_from obs y (lassoXdot obs) opt.Lambda
          opt.Tolerance m n 1 (fun s => s.beta.getD j 0 = 0)
          (fun i s s' hi hsh hP hsw =>
            lasso3Sweep_zero_stays obs y _ _ i (by omega) s s' j m n hsh hP hsw)
          f (k + 1) s1 (by omega) hsh1 hz
        exact ⟨r, hr, hrz⟩
  · intro t hcs
    obtain ⟨s, _, _, hsh, _⟩ := lasso3CoordStart_inv obs y opt m n hobs hcol hy hw 0 j t hcs
      (fun _ => True) (fun _ _ _ _ _ _ _ => trivial)
    obtain ⟨t', h1, _, h3, _⟩ := lasso3Coord_update obs y (lassoXdot obs) opt.Lambda 0 t j m n
      hsh hj (by simp)
    exact ⟨t', h1, h3⟩

/-- Witness for C17: the columns `[1, 0]` and `[0, 1]` with `y = [3, 1/2]`, `lambda = 1`
and a budget of three sweeps.  The second coefficient is zero after the first sweep and
is zero in the result. -/
theorem lasso3_zero_stays_zero_witness :
    ∃ r, lasso3Solve ([[1, 0], [0, 1]] : List (List ℚ)) [3, 1 / 2] ⟨none, 1, 3, 1 / 10000⟩
        = .ok r ∧ r.1.beta.getD 1 0 = 0 :=
  ((lasso3_zero_stays_zero ([[1, 0], [0, 1]] : List (List ℚ)) [3, 1 / 2]
    ⟨none, 1, 3, 1 / 10000⟩ 2 2 1 rfl (by decide) rfl (by decide)
    (by intro w h; exact absurd h (by simp))).1 0
    ⟨[0, 0], [0, 0], [0, 0], [0, 0], 0, 0, 0⟩
    ⟨[2, 0], [1, 1 / 2], [2, 0], [0, 0], 2, 2, 0⟩ (by decide!) (by decide!) (by decide!)).2

/-! ### Lasso: the incremental fitted vector -/

/-- C16, the code at the failing input: the `1 × 1` design `[[1]]` with `y = [1]`,
`lambda = 0`, ten sweeps, tolerance `1e-4` and the warm start `[1]`.  `LassoRegression`
returns the least-squares coefficient `1`, while `LassoRegression2` and
`LassoRegression3`, whose fitted vector `betaX` starts at zero instead of at
`X·WarmStartBeta`, both return `2`. -/
theorem lasso_warm_start_divergence :
    LassoRegression (denseOfColumns 1 1 ([[1]] : List (List ℚ))) (denseOfRow [1])
        (some ⟨some [1], 0, 10, 1 / 10000⟩) = .ok (.val 1, []) ∧
    LassoRegression2 (denseOfColumns 1 1 ([[1]] : List (List ℚ))) (denseOfRow [1])
        (some ⟨some [1], 0, 10, 1 / 10000⟩) = .ok (.val 2, []) ∧
    LassoRegression3 ([[1]] : List (List ℚ)) [1]
        (some ⟨some [1], 0, 10, 1 / 10000⟩) = .ok (.val 2, []) := by
  refine ⟨by decide!, by decide!, by decide!⟩

/-- The same input without the warm start: all three solvers return `1`. -/
theorem lasso_cold_start_agreement :
    LassoRegression (denseOfColumns 1 1 ([[1]] : List (List ℚ))) (denseOfRow [1])
        (some ⟨none, 0, 10, 1 / 10000⟩) = .ok (.val 1, []) ∧
    LassoRegression2 (denseOfColumns 1 1 ([[1]] : List (List ℚ))) (denseOfRow [1])
        (some ⟨none, 0, 10, 1 / 10000⟩) = .ok (.val 1, []) ∧
    LassoRegression3 ([[1]] : List (List ℚ)) [1]
        (some ⟨none, 0, 10, 1 / 10000⟩) = .ok (.val 1, []) := by
  refine ⟨by decide!, by decide!, by decide!⟩

/-! ### Lasso in float64 arithmetic -/

/-- C5 in float64: under rounding, sparsity is not monotone even on orthogonal columns.  For
the orthogonal columns `[3, 4]`, `[-4, 3]` with `y = [0.7879999999999997,
1.2839999999999996]`, tolerance `1e-4` and zero initialisation, raising `lambda` from
`0.7` to the next float64 value `0.7000000000000001` raises the number of non-zero
coefficients from one to two, with a budget of one sweep and with a budget of a
thousand: the second coefficient, exactly zero for the smaller `lambda`, is about
`3.5e-18` (one sweep) or `6.9e-18` (a thousand) for the larger one. -/
theorem lasso3_sparsity_f64_counterexample :
    colDot ([[3, 4], [-4, 3]] : List (List ℚ)) 2 0 [-4, 3] = 0 ∧
    lassoXdotF64 ([[3, 4], [-4, 3]] : List (List ℚ)) = some [25, 25] ∧
    (0 : ℚ) ≤ nearestF64 (7 / 10) ∧
    nearestF64 (7 / 10) < nearestF64 (7000000000000001 / 10000000000000000) ∧
    LassoRegression3F64 ([[3, 4], [-4, 3]] : List (List ℚ))
      [nearestF64 (7879999999999997 / 10000000000000000),
      nearestF64 (12839999999999996 / 10000000000000000)] ⟨none, nearestF64 (7 / 10), 1,
      nearestF64 (1 / 10000)⟩
      = some (.val (nearestF64 (2719999999999999 / 10000000000000000)), [0]) ∧
    LassoRegression3F64 ([[3, 4], [-4, 3]] : List (List ℚ))
      [nearestF64 (7879999999999997 / 10000000000000000),
      nearestF64 (12839999999999996 / 10000000000000000)] ⟨none,
      nearestF64 (7000000000000001 / 10000000000000000), 1, nearestF64 (1 / 10000)⟩
      = some (.val (nearestF64 (27199999999999985 / 100000000000000000)),
        [nearestF64 (3469446951953614 / 1000000000000000000000000000000000)]) ∧
    LassoRegression3F64 ([[3, 4], [-4, 3]] : List (List ℚ))
      [nearestF64 (7879999999999997 / 10000000000000000),
      nearestF64 (12839999999999996 / 10000000000000000)] ⟨none, nearestF64 (7 / 10), 1000,
      nearestF64 (1 / 10000)⟩
      = some (.val (nearestF64 (2719999999999999 / 10000000000000000)), [0]) ∧
    LassoRegression3F64 ([[3, 4], [-4, 3]] : List (List ℚ))
      [nearestF64 (7879999999999997 / 10000000000000000),
      nearestF64 (12839999999999996 / 10000000000000000)] ⟨none,
      nearestF64 (7000000000000001 / 10000000000000000), 1000, nearestF64 (1 / 10000)⟩
      = some (.val (nearestF64 (27199999999999985 / 100000000000000000)),
        [nearestF64 (6938893903907228 / 1000000000000000000000000000000000)]) ∧
    countNonZero [nearestF64 (2719999999999999 / 10000000000000000), 0] = 1 ∧
    countNonZero [nearestF64 (27199999999999985 / 100000000000000000),
      nearestF64 (3469446951953614 / 1000000000000000000000000000000000)] = 2 ∧
    countNonZero [nearestF64 (2719999999999999 / 10000000000000000), 0] = 1 ∧
    countNonZero [nearestF64 (27199999999999985 / 100000000000000000),
      nearestF64 (6938893903907228 / 1000000000000000000000000000000000)] = 2 :=
  ⟨by decide!, by decide!, by decide!, by decide!, by decide!, by decide!, by decide!,
    by decide!, by decide!, by decide!, by decide!, by decide!⟩

/-- C2: for every `x` and every `gamma ≥ 0`, `SoftThreshold x gamma` is exactly
`0` whenever `|x| ≤ gamma`, in particular at the boundaries `x = gamma` and
`x = -gamma`, and equals `sign x * (|x| - gamma)` otherwise. -/
theorem softThreshold_spec (x gamma : K) (hg : 0 ≤ gamma) :
    (|x| ≤ gamma → SoftThreshold x gamma = 0) ∧
    SoftThreshold gamma gamma = 0 ∧ SoftThreshold (-gamma) gamma = 0 ∧
    (gamma < |x| → SoftThreshold x gamma = (SignType.sign x : K) * (|x| - gamma)) := by
  have zero_of_le : ∀ z : K, |z| ≤ gamma → SoftThreshold z gamma = 0 := by
    intro z hz
    have h0 : max 0 (|z| - gamma) = 0 := max_eq_left (by linarith)
    simp only [SoftThreshold, h0, neg_zero, ite_self]
  refine ⟨zero_of_le x, zero_of_le gamma (by rw [abs_of_nonneg hg]),
    zero_of_le (-gamma) (by rw [abs_neg, abs_of_nonneg hg]), ?_⟩
  intro hx
  have hmax : max 0 (|x| - gamma) = |x| - gamma := max_eq_right (by linarith)
  have hxne : x ≠ 0 := by
    rintro rfl
    simp only [abs_zero] at hx
    exact absurd hx (not_lt.mpr hg)
  rcases lt_or_gt_of_ne hxne with hneg | hpos
  · simp only [SoftThreshold, hmax, if_pos hneg, sign_neg hneg]
    simp
  · simp only [SoftThreshold, hmax, if_neg (not_lt.mpr hpos.le), sign_pos hpos]
    simp

/-- Witness for C2 at `x = -3`, `gamma = 1` over `ℚ`. -/
theorem softThreshold_spec_witness :
    (0 : ℚ) ≤ 1 ∧
    ((|(-3 : ℚ)| ≤ 1 → SoftThreshold (-3 : ℚ) 1 = 0) ∧
    SoftThreshold (1 : ℚ) 1 = 0 ∧ SoftThreshold (-1 : ℚ) 1 = 0 ∧
    ((1 : ℚ) < |(-3 : ℚ)| →
      SoftThreshold (-3 : ℚ) 1 = (SignType.sign (-3 : ℚ) : ℚ) * (|(-3 : ℚ)| - 1))) :=
  ⟨by norm_num, softThreshold_spec (-3) 1 (by norm_num)⟩

end NumericTheorems

/-! ### Feature sets -/

section FeatureTheorems

variable {Feature : Type} {K : Type} (canon : Feature → String)

/-- The order `sort.Slice` is given in `FeatureSet.Labels`, as a relation. -/
theorem sortSlice_labels_eq (l : List Feature) :
    sortSlice (fun a b => decide (canon a < canon b)) l
      = l.insertionSort (fun a b => canon a ≤ canon b) := by
  simp only [sortSlice, decide_eq_true_eq, not_lt]

/-- The sorted labels are a permutation of the features of the set, in ascending order of
canonical string. -/
theorem sortSlice_labels_spec (l : List Feature) :
    (sortSlice (fun a b => decide (canon a < canon b)) l).Perm l ∧
    (sortSlice (fun a b => decide (canon a < canon b)) l).Pairwise
      (fun a b => canon a ≤ canon b) := by
  rw [sortSlice_labels_eq]
  haveI : IsTotal Feature (fun a b => canon a ≤ canon b) :=
    ⟨fun a b => le_total (canon a) (canon b)⟩
  haveI : IsTrans Feature (fun a b => canon a ≤ canon b) :=
    ⟨fun _ _ _ h1 h2 => le_trans h1 h2⟩
  exact ⟨List.perm_insertionSort _ l, List.sorted_insertionSort _ l⟩

/-- In a set keyed by canonical string the canonical strings of the features are the
keys. -/
theorem canon_features_eq_keys (entries : List (String × FeatureData Feature K))
    (hkeyed : ∀ e ∈ entries, canon e.2.F = e.1) :
    (entries.map fun e => e.2.F).map canon = entries.map fun e => e.1 := by
  rw [List.map_map]
  apply List.map_congr_left
  intro e he
  exact hkeyed e he

/-- The labels of a set keyed by canonical string are strictly ascending. -/
theorem labels_strictly_sorted (entries : List (String × FeatureData Feature K))
    (hnodup : (entries.map fun e => e.1).Nodup)
    (hkeyed : ∀ e ∈ entries, canon e.2.F = e.1) :
    (sortSlice (fun a b => decide (canon a < canon b)) (entries.map fun e => e.2.F)).Pairwise
      (fun a b => canon a < canon b) := by
  obtain ⟨hperm, hsorted⟩ := sortSlice_labels_spec canon (entries.map fun e => e.2.F)
  have hnd : (List.map canon
      (sortSlice (fun a b => decide (canon a < canon b)) (entries.map fun e => e.2.F))).Nodup := by
    rw [(hperm.map canon).nodup_iff, canon_features_eq_keys canon entries hkeyed]
    exact hnodup
  have hne : (sortSlice (fun a b => decide (canon a < canon b))
      (entries.map fun e => e.2.F)).Pairwise (fun a b => canon a ≠ canon b) :=
    List.pairwise_map.mp hnd
  exact (hsorted.and hne).imp fun h => lt_of_le_of_ne h.1 h.2

/-- C8: for every non-nil `FeatureSet` in which each entry is keyed by its feature's
canonical string, `Labels()` returns a label index whose list contains each feature of
the set exactly once (it is a duplicate-free permutation of the features), in strictly
ascending order of canonical string; consequently the result is the same for every
iteration order of the underlying map. -/
theorem featureSet_labels_sorted [DecidableEq Feature] (entries : List (String × FeatureData Feature K))
    (hnodup : (entries.map fun e => e.1).Nodup)
    (hkeyed : ∀ e ∈ entries, canon e.2.F = e.1) :
    ∃ fl, FeatureSet.Labels canon (some entries) = some fl ∧
      fl.labels.Perm (entries.map fun e => e.2.F) ∧
      fl.labels.Nodup ∧
      fl.labels.Pairwise (fun a b => canon a < canon b) ∧
      ∀ entries' : List (String × FeatureData Feature K), entries'.Perm entries →
        FeatureSet.Labels canon (some entries') = some fl := by
  have hstrict := labels_strictly_sorted canon entries hnodup hkeyed
  have hperm := (sortSlice_labels_spec canon (entries.map fun e => e.2.F)).1
  refine ⟨NewFeatureLabels (sortSlice (fun a b => decide (canon a < canon b))
      (entries.map fun (e : String × FeatureData Feature K) => e.2.F)),
    rfl, hperm, ?_, hstrict, ?_⟩
  · exact hstrict.imp fun h heq => by rw [heq] at h; exact lt_irrefl _ h
  · intro entries' hp
    have hnodup' : (entries'.map fun e => e.1).Nodup := (hp.map _).nodup_iff.mpr hnodup
    have hkeyed' : ∀ e ∈ entries', canon e.2.F = e.1 :=
      fun e he => hkeyed e (hp.mem_iff.mp he)
    have hstrict' := labels_strictly_sorted canon entries' hnodup' hkeyed'
    have hperm' := (sortSlice_labels_spec canon (entries'.map fun e => e.2.F)).1
    haveI : IsAntisymm Feature (fun a b => canon a < canon b) :=
      ⟨fun _ _ h1 h2 => absurd h1 (lt_asymm h2)⟩
    have heq := List.eq_of_perm_of_sorted
      (hperm'.trans ((hp.map fun e => e.2.F).trans hperm.symm)) hstrict' hstrict
    simp only [FeatureSet.Labels, heq]

/-- Witness for C8: the set `{"b", "a", "c"}` enumerated in that order. -/
theorem featureSet_labels_sorted_witness :
    ∃ fl, FeatureSet.Labels id
        (some [("b", (⟨"b", [1]⟩ : FeatureData String ℚ)), ("a", ⟨"a", [4]⟩), ("c", ⟨"c", [7]⟩)])
        = some fl ∧
      fl.labels.Perm ["b", "a", "c"] ∧
      fl.labels.Nodup ∧
      fl.labels.Pairwise (fun a b => id a < id b) ∧
      ∀ entries' : List (String × FeatureData String ℚ),
        entries'.Perm [("b", ⟨"b", [1]⟩), ("a", ⟨"a", [4]⟩), ("c", ⟨"c", [7]⟩)] →
        FeatureSet.Labels id (some entries') = some fl :=
  featureSet_labels_sorted id
    [("b", (⟨"b", [1]⟩ : FeatureData String ℚ)), ("a", ⟨"a", [4]⟩), ("c", ⟨"c", [7]⟩)]
    (by decide) (by decide)

/-- A cell index `n*i + c` with `c < n` determines its row and its column. -/
theorem cell_inj (n i i' c c' : ℕ) (hc : c < n) (hc' : c' < n)
    (h : n * i + c = n * i' + c') : i = i' ∧ c = c' := by
  have h1 : (n * i + c) % n = c := by
    rw [Nat.mul_add_mod, Nat.mod_eq_of_lt hc]
  have h2 : (n * i' + c') % n = c' := by
    rw [Nat.mul_add_mod, Nat.mod_eq_of_lt hc']
  have hcc : c = c' := by rw [← h1, ← h2, h]
  subst hcc
  have hn : 0 < n := by omega
  exact ⟨Nat.eq_of_mul_eq_mul_left hn (by omega), rfl⟩

/-- A cell index of an `m × n` matrix is within its backing slice. -/
theorem cell_lt (m n i c : ℕ) (hi : i < m) (hc : c < n) : n * i + c < m * n := by
  calc n * i + c < n * i + n := by omega
    _ = n * (i + 1) := by ring
    _ ≤ n * m := Nat.mul_le_mul_left n hi
    _ = m * n := Nat.mul_comm n m

/-- Filling `count ≤ m` cells of column `c` of an `m × n` backing slice succeeds, stores
the values and leaves every other cell as it was. -/
theorem matrixFillColumn_spec [Zero K] (m n c count : ℕ) (value : ℕ → K) (obs : List K)
    (hlen : obs.length = m * n) (hc : c < n) (hcount : count ≤ m) :
    ∃ obs', matrixFillColumn n c count value obs = .ok obs' ∧ obs'.length = m * n ∧
      (∀ i, i < count → obs'.getD (n * i + c) 0 = value i) ∧
      ∀ idx, (∀ i, i < count → idx ≠ n * i + c) → obs'.getD idx 0 = obs.getD idx 0 := by
  obtain ⟨obs', h1, h2⟩ := foldlM_range_inv
    (fun (o : List K) i => sliceSet o (n * i + c) (value i))
    (fun k o => o.length = m * n ∧ (∀ i, i < k → o.getD (n * i + c) 0 = value i) ∧
      ∀ idx, (∀ i, i < k → idx ≠ n * i + c) → o.getD idx 0 = obs.getD idx 0)
    count obs ⟨hlen, fun i hi => absurd hi (Nat.not_lt_zero i), fun _ _ => rfl⟩
    (by
      intro k o hk ⟨hl, hdone, hframe⟩
      have hin : n * k + c < o.length := by rw [hl]; exact cell_lt m n k c (by omega) hc
      refine ⟨o.set (n * k + c) (value k), by simp only [sliceSet, if_pos hin],
        by simpa using hl, ?_, ?_⟩
      · intro i hi
        rcases Nat.lt_succ_iff_lt_or_eq.mp hi with hlt | heq
        · rw [getD_set_ne _ _ _ _ _ (fun h => by
            have := (cell_inj n k i c c hc hc h).1; omega)]
          exact hdone i hlt
        · subst heq
          exact getD_set_self _ _ _ _ hin
      · intro idx hidx
        rw [getD_set_ne _ _ _ _ _ (fun h => hidx k (Nat.lt_succ_self k) h.symm)]
        exact hframe idx fun i hi => hidx i (by omega))
  exact ⟨obs', h1, h2⟩

/-- The loop of `FeatureSet.Matrix` over the labels, started at column `c`: when every
label's data has length `m` it succeeds, fills the columns `c, c+1, …` with the data of
the labels in order, and leaves every other cell as it was. -/
theorem matrixFillLabels_spec [Zero K] (entries : List (String × FeatureData Feature K))
    (m n : ℕ) :
    ∀ (rest : List Feature) (obs : List K) (c : ℕ), obs.length = m * n →
      c + rest.length ≤ n →
      (∀ l ∈ rest, (featureDataAt entries (canon l)).length = m) →
      ∃ obs', rest.foldlM
          (fun (st : List K × ℕ) label => do
            let obs ← matrixFillColumn n st.2 (featureDataAt entries (canon label)).length
              (fun i => (featureDataAt entries (canon label)).getD i 0) st.1
            pure (obs, st.2 + 1))
          (obs, c) = .ok (obs', c + rest.length) ∧
        obs'.length = m * n ∧
        (∀ p l, rest[p]? = some l → ∀ i, i < m →
          obs'.getD (n * i + (c + p)) 0 = (featureDataAt entries (canon l)).getD i 0) ∧
        ∀ idx, (∀ i, i < m → ∀ p, p < rest.length → idx ≠ n * i + (c + p)) →
          obs'.getD idx 0 = obs.getD idx 0 := by
  intro rest
  induction rest with
  | nil =>
    intro obs c hlen _ _
    exact ⟨obs, rfl, hlen, fun p l h => by simp at h, fun _ _ => rfl⟩
  | cons l rest ih =>
    intro obs c hlen hc hdata
    have hl : (featureDataAt entries (canon l)).length = m := hdata l (List.mem_cons_self _ _)
    have hcn : c < n := by simp at hc; omega
    obtain ⟨o1, h1, h1len, h1col, h1frame⟩ := matrixFillColumn_spec m n c
      (featureDataAt entries (canon l)).length
      (fun i => (featureDataAt entries (canon l)).getD i 0) obs hlen hcn (by omega)
    obtain ⟨o2, h2, h2len, h2col, h2frame⟩ := ih o1 (c + 1) h1len (by simp at hc; omega)
      (fun l' hl' => hdata l' (List.mem_cons_of_mem _ hl'))
    refine ⟨o2, ?_, h2len, ?_, ?_⟩
    · rw [List.foldlM_cons, h1]
      simp only [Except.bind, bind, pure, Except.pure]
      simp only [Except.bind, bind, pure, Except.pure] at h2
      rw [h2]
      congr 2
      simp only [List.length_cons]
      omega
    · intro p l' hp i hi
      cases p with
      | zero =>
        simp only [List.getElem?_cons_zero, Option.some.injEq] at hp
        subst hp
        rw [h2frame (n * i + (c + 0)) (fun i' _ p' _ h => by
          have := (cell_inj n i i' (c + 0) (c + 1 + p') (by omega) (by simp at hc; omega) h).2
          omega)]
        have := h1col i (by omega)
        simpa using this
      | succ p =>
        simp only [List.getElem?_cons_succ] at hp
        have := h2col p l' hp i hi
        rw [← this]
        congr 2
        omega
    · intro idx hidx
      rw [h2frame idx (fun i hi p hp => by
        have := hidx i hi (p + 1) (by simp; omega)
        intro h; apply this; rw [h]; omega)]
      exact h1frame idx (fun i hi => by
        have := hidx i (by omega) 0 (by simp)
        simpa using this)

/-- A successful map read returns the value of one of the entries. -/
theorem goMapGet_mem {κ ν : Type} [DecidableEq κ] (m : List (κ × ν)) (k : κ) (v : ν)
    (h : goMapGet m k = some v) : (k, v) ∈ m := by
  induction m with
  | nil => simp [goMapGet] at h
  | cons e rest ih =>
    obtain ⟨k', v'⟩ := e
    simp only [goMapGet] at h
    split at h
    · next hk =>
      subst hk
      rw [← Option.some.inj h]
      exact List.mem_cons_self _ _
    · exact List.mem_cons_of_mem _ (ih h)

/-- A map read of a key that is present succeeds. -/
theorem goMapGet_of_mem {κ ν : Type} [DecidableEq κ] (m : List (κ × ν)) (k : κ)
    (h : k ∈ m.map fun e => e.1) : ∃ v, goMapGet m k = some v := by
  induction m with
  | nil => simp at h
  | cons e rest ih =>
    obtain ⟨k', v'⟩ := e
    simp only [goMapGet]
    by_cases hk : k' = k
    · exact ⟨v', by simp only [if_pos hk]⟩
    · simp only [if_neg hk]
      apply ih
      simp only [List.map_cons, List.mem_cons] at h
      rcases h with h | h
      · exact absurd h.symm hk
      · exact h

/-- In a set keyed by canonical string with data vectors of length `m`, the data read
for any of its features has length `m`. -/
theorem featureDataAt_length (entries : List (String × FeatureData Feature K)) (m : ℕ)
    (hlen : ∀ e ∈ entries, e.2.Data.length = m)
    (hkeyed : ∀ e ∈ entries, canon e.2.F = e.1)
    (l : Feature) (hl : l ∈ entries.map fun e => e.2.F) :
    (featureDataAt entries (canon l)).length = m := by
  obtain ⟨e, he, rfl⟩ := List.mem_map.mp hl
  obtain ⟨d, hd⟩ := goMapGet_of_mem entries (canon e.2.F)
    (List.mem_map.mpr ⟨e, he, (hkeyed e he).symm⟩)
  simp only [featureDataAt, hd]
  exact hlen (canon e.2.F, d) (goMapGet_mem entries _ d hd)

/-- The design matrix of a set keyed by canonical string with data vectors of length
`m ≥ 1`: its shape, its intercept column and its feature columns. -/
theorem featureSet_matrix_spec [DecidableEq Feature] [LinearOrderedField K]
    (entries : List (String × FeatureData Feature K)) (intercept : Bool) (m : ℕ)
    (hne : entries ≠ [])
    (hlen : ∀ e ∈ entries, e.2.Data.length = m)
    (hkeyed : ∀ e ∈ entries, canon e.2.F = e.1) (hm : 1 ≤ m) :
    ∃ M, FeatureSet.Matrix canon (some entries) intercept = .ok (some M) ∧
      M.rows = m ∧ M.cols = entries.length + (if intercept then 1 else 0) ∧
      M.data.length = m * (entries.length + (if intercept then 1 else 0)) ∧
      (intercept = true → ∀ i, i < m → M.At i 0 = 1) ∧
      ∀ p l, (sortSlice (fun a b => decide (canon a < canon b))
          (entries.map fun e => e.2.F))[p]? = some l →
        ∀ i, i < m → M.At i (p + (if intercept then 1 else 0))
          = (featureDataAt entries (canon l)).getD i 0 := by
  obtain ⟨hperm, -⟩ := sortSlice_labels_spec canon (entries.map fun e => e.2.F)
  generalize hL : sortSlice (fun a b => decide (canon a < canon b))
    (entries.map fun e => e.2.F) = L at hperm ⊢
  have hLlen : L.length = entries.length := by
    rw [hperm.length_eq, List.length_map]
  have hk : 0 < entries.length := List.length_pos.mpr hne
  have hdata : ∀ l ∈ L, (featureDataAt entries (canon l)).length = m :=
    fun l hl => featureDataAt_length canon entries m hlen hkeyed l (hperm.mem_iff.mp hl)
  simp only [FeatureSet.Matrix, FeatureSet.Labels, hL, FeatureLabels.Len, FeatureLabels.Labels,
    NewFeatureLabels, hLlen]
  have hmatch : firstFeatureLen canon entries L = m := by
    cases hLc : L with
    | nil => rw [hLc] at hLlen; simp at hLlen; omega
    | cons l rest => exact hdata l (by rw [hLc]; exact List.mem_cons_self _ _)
  have hk0 : ¬ entries.length = 0 := by omega
  rw [hmatch, if_neg hk0]
  cases intercept with
  | false =>
    simp only [Bool.false_eq_true, if_false, add_zero]
    obtain ⟨o2, h2, h2len, h2col, -⟩ := matrixFillLabels_spec canon entries m entries.length L
      (List.replicate (m * entries.length) 0) 0 (by simp) (by omega) hdata
    have hnd : ¬ (m = 0 ∨ entries.length = 0) := by omega
    refine ⟨⟨m, entries.length, o2⟩, ?_, rfl, rfl, h2len, fun h => absurd h (by simp), ?_⟩
    · simp only [bind, Except.bind, pure, Except.pure] at h2 ⊢
      rw [h2]
      simp only [NewDense, if_neg hnd, if_pos h2len]
    · intro p l hp i hi
      have := h2col p l hp i hi
      simp only [Dense.At]
      rw [← this]
      congr 1
      ring
  | true =>
    simp only [if_true]
    obtain ⟨o1, h1, h1len, h1col, -⟩ := matrixFillColumn_spec m (entries.length + 1) 0 m
      (fun _ => (1 : K)) (List.replicate (m * (entries.length + 1)) 0) (by simp) (by omega)
      le_rfl
    obtain ⟨o2, h2, h2len, h2col, h2frame⟩ := matrixFillLabels_spec canon entries m
      (entries.length + 1) L o1 1 h1len (by omega) hdata
    have hnd : ¬ (m = 0 ∨ entries.length + 1 = 0) := by omega
    refine ⟨⟨m, entries.length + 1, o2⟩, ?_, rfl, rfl, h2len, ?_, ?_⟩
    · simp only [bind, Except.bind, pure, Except.pure] at h2 ⊢
      rw [h1]
      simp only
      rw [h2]
      simp only [NewDense, if_neg hnd, if_pos h2len]
    · intro _ i hi
      simp only [Dense.At]
      rw [show i * (entries.length + 1) + 0 = (entries.length + 1) * i + 0 by ring,
        h2frame _ (fun i' _ p hp h => by
          have := (cell_inj (entries.length + 1) i i' 0 (1 + p) (by omega) (by omega) h).2
          omega)]
      exact h1col i hi
    · intro p l hp i hi
      have := h2col p l hp i hi
      simp only [Dense.At]
      rw [← this]
      congr 1
      ring

/-- With data vectors of length `0` the design matrix cannot be built: `mat.NewDense`
panics on the zero row count. -/
theorem featureSet_matrix_zero_rows [DecidableEq Feature] [LinearOrderedField K]
    (entries : List (String × FeatureData Feature K)) (intercept : Bool)
    (hne : entries ≠ [])
    (hlen : ∀ e ∈ entries, e.2.Data.length = 0)
    (hkeyed : ∀ e ∈ entries, canon e.2.F = e.1) :
    FeatureSet.Matrix canon (some entries) intercept = .error (.panic .zeroLength) := by
  obtain ⟨hperm, -⟩ := sortSlice_labels_spec canon (entries.map fun e => e.2.F)
  generalize hL : sortSlice (fun a b => decide (canon a < canon b))
    (entries.map fun e => e.2.F) = L at hperm ⊢
  have hLlen : L.length = entries.length := by
    rw [hperm.length_eq, List.length_map]
  have hk : 0 < entries.length := List.length_pos.mpr hne
  have hdata : ∀ l ∈ L, (featureDataAt entries (canon l)).length = 0 :=
    fun l hl => featureDataAt_length canon entries 0 hlen hkeyed l (hperm.mem_iff.mp hl)
  simp only [FeatureSet.Matrix, FeatureSet.Labels, hL, FeatureLabels.Len, FeatureLabels.Labels,
    NewFeatureLabels, hLlen]
  have hmatch : firstFeatureLen canon entries L = 0 := by
    cases hLc : L with
    | nil => rfl
    | cons l rest => exact hdata l (by rw [hLc]; exact List.mem_cons_self _ _)
  have hk0 : ¬ entries.length = 0 := by omega
  rw [hmatch, if_neg hk0]
  cases intercept with
  | false =>
    simp only [Bool.false_eq_true, if_false, add_zero]
    obtain ⟨o2, h2, -⟩ := matrixFillLabels_spec canon entries 0 entries.length L
      (List.replicate (0 * entries.length) 0) 0 (by simp) (by omega) hdata
    simp only [bind, Except.bind, pure, Except.pure] at h2 ⊢
    rw [h2]
    simp only [NewDense, true_or, if_true]
  | true =>
    simp only [if_true]
    obtain ⟨o1, h1, h1len, -⟩ := matrixFillColumn_spec 0 (entries.length + 1) 0 0
      (fun _ => (1 : K)) (List.replicate (0 * (entries.length + 1)) 0) (by simp) (by omega)
      le_rfl
    obtain ⟨o2, h2, -⟩ := matrixFillLabels_spec canon entries 0
      (entries.length + 1) L o1 1 h1len (by omega) hdata
    simp only [bind, Except.bind, pure, Except.pure] at h2 ⊢
    rw [h1]
    simp only
    rw [h2]
    simp only [NewDense, true_or, if_true]

/-- C9 (amended): for every `FeatureSet` keyed by canonical string whose data vectors all
have the same length `m ≥ 1`, with `k ≥ 1` labels, `Matrix(intercept)` is an `m × n`
matrix with `n = k + (1 if intercept else 0)`; if `intercept`, every entry of column `0`
is `1`; and for every row `i` and position `p` in the sorted label list the entry at
`(i, p + (1 if intercept else 0))` is the `i`-th value of the data vector of the `p`-th
sorted label.  With `m = 0` the call panics in `mat.NewDense`.  For a nil or empty
`FeatureSet`, `Matrix` returns the absent (nil) matrix. -/
theorem featureSet_matrix_entries [DecidableEq Feature] [LinearOrderedField K]
    (entries : List (String × FeatureData Feature K)) (intercept : Bool) (m : ℕ)
    (hne : entries ≠ [])
    (hlen : ∀ e ∈ entries, e.2.Data.length = m)
    (hkeyed : ∀ e ∈ entries, canon e.2.F = e.1) :
    (1 ≤ m → ∃ M fl, FeatureSet.Matrix canon (some entries) intercept = .ok (some M) ∧
      FeatureSet.Labels canon (some entries) = some fl ∧ fl.Len = entries.length ∧
      M.rows = m ∧ M.cols = fl.Len + (if intercept then 1 else 0) ∧
      M.data.length = M.rows * M.cols ∧
      (intercept = true → ∀ i, i < m → M.At i 0 = 1) ∧
      ∀ p l, fl.Labels[p]? = some l → ∀ i, i < m →
        M.At i (p + (if intercept then 1 else 0))
          = (featureDataAt entries (canon l)).getD i 0) ∧
    (m = 0 → FeatureSet.Matrix canon (some entries) intercept = .error (.panic .zeroLength)) ∧
    FeatureSet.Matrix canon (none : FeatureSet Feature K) intercept = .ok none ∧
    FeatureSet.Matrix canon (some ([] : List (String × FeatureData Feature K))) intercept
      = .ok none := by
  refine ⟨?_, ?_, rfl, rfl⟩
  · intro hm
    obtain ⟨M, h1, h2, h3, h4, h5, h6⟩ := featureSet_matrix_spec canon entries intercept m hne
      hlen hkeyed hm
    have hLlen : (sortSlice (fun a b => decide (canon a < canon b))
        (entries.map fun e => e.2.F)).length = entries.length := by
      rw [(sortSlice_labels_spec canon (entries.map fun e => e.2.F)).1.length_eq,
        List.length_map]
    refine ⟨M, NewFeatureLabels (sortSlice (fun a b => decide (canon a < canon b))
      (entries.map fun (e : String × FeatureData Feature K) => e.2.F)), h1, rfl, hLlen, h2,
      ?_, ?_, h5, h6⟩
    · rw [h3]
      simp only [FeatureLabels.Len, NewFeatureLabels, hLlen]
    · rw [h4, h2, h3]
  · intro hm
    subst hm
    exact featureSet_matrix_zero_rows canon entries intercept hne hlen hkeyed

/-- Witness for C9 (amended): three features of three observations, with intercept. -/
theorem featureSet_matrix_entries_witness :
    ∃ M fl, FeatureSet.Matrix id
        (some [("b", (⟨"b", [1, 2, 3]⟩ : FeatureData String ℚ)), ("a", ⟨"a", [4, 5, 6]⟩),
          ("c", ⟨"c", [7, 8, 9]⟩)]) true = .ok (some M) ∧
      FeatureSet.Labels id
        (some [("b", (⟨"b", [1, 2, 3]⟩ : FeatureData String ℚ)), ("a", ⟨"a", [4, 5, 6]⟩),
          ("c", ⟨"c", [7, 8, 9]⟩)]) = some fl ∧
      fl.Len = 3 ∧ M.rows = 3 ∧ M.cols = fl.Len + 1 ∧ M.data.length = M.rows * M.cols ∧
      (∀ i, i < 3 → M.At i 0 = 1) := by
  obtain ⟨M, fl, h1, h2, h3, h4, h5, h6, h7, _⟩ := (featureSet_matrix_entries id
    [("b", (⟨"b", [1, 2, 3]⟩ : FeatureData String ℚ)), ("a", ⟨"a", [4, 5, 6]⟩),
      ("c", ⟨"c", [7, 8, 9]⟩)] true 3 (by simp) (by decide) (by decide)).1 (by decide)
  exact ⟨M, fl, h1, h2, h3, h4, h5, h6, h7 rfl⟩

/-- C9, counterexample: the set with the single feature `"a"` and an empty data vector
(`k = 1`, all vectors of the same length `m = 0`, keyed by canonical string) does not
yield a `0 × 1` matrix: `Matrix` panics in `mat.NewDense`. -/
theorem featureSet_matrix_counterexample :
    (∀ e ∈ [("a", (⟨"a", []⟩ : FeatureData String ℚ))], e.2.Data.length = 0) ∧
    (∀ e ∈ [("a", (⟨"a", []⟩ : FeatureData String ℚ))], id e.2.F = e.1) ∧
    FeatureSet.Matrix id (some [("a", (⟨"a", []⟩ : FeatureData String ℚ))]) false
      = .error (.panic .zeroLength) ∧
    ¬ ∃ M, FeatureSet.Matrix id (some [("a", (⟨"a", []⟩ : FeatureData String ℚ))]) false
      = .ok (some M) := by
  have h : FeatureSet.Matrix id (some [("a", (⟨"a", []⟩ : FeatureData String ℚ))]) false
      = .error (.panic .zeroLength) := by decide!
  refine ⟨by decide, by decide, h, ?_⟩
  rintro ⟨M, hM⟩
  rw [h] at hM
  exact absurd hM (by simp)

/-- The loop of `FeatureSet.MatrixSlice` over the labels, started at column `c`: it
stores the data of the labels, in order, in the columns `c, c+1, …` and leaves the
columns before `c` as they were. -/
theorem sliceFillLabels_spec (entries : List (String × FeatureData Feature K)) :
    ∀ (rest : List Feature) (obs : List (List K)) (c : ℕ), c + rest.length ≤ obs.length →
      ∃ obs', rest.foldlM
          (fun (st : List (List K) × ℕ) label => do
            let obs ← sliceSet st.1 st.2 (featureDataAt entries (canon label))
            pure (obs, st.2 + 1))
          (obs, c) = .ok (obs', c + rest.length) ∧
        obs'.length = obs.length ∧
        (∀ p l, rest[p]? = some l → obs'.getD (c + p) [] = featureDataAt entries (canon l)) ∧
        ∀ idx, idx < c → obs'.getD idx [] = obs.getD idx [] := by
  intro rest
  induction rest with
  | nil =>
    intro obs c _
    exact ⟨obs, rfl, rfl, fun p l h => by simp at h, fun _ _ => rfl⟩
  | cons l rest ih =>
    intro obs c hc
    have hin : c < obs.length := by simp at hc; omega
    obtain ⟨o2, h2, h2len, h2col, h2frame⟩ := ih (obs.set c (featureDataAt entries (canon l)))
      (c + 1) (by simp at hc ⊢; omega)
    refine ⟨o2, ?_, by simpa using h2len, ?_, ?_⟩
    · rw [List.foldlM_cons]
      simp only [sliceSet, if_pos hin, bind, Except.bind, pure, Except.pure]
      simp only [sliceSet, bind, Except.bind, pure, Except.pure] at h2
      rw [h2]
      congr 2
      simp only [List.length_cons]
      omega
    · intro p l' hp
      cases p with
      | zero =>
        simp only [List.getElem?_cons_zero, Option.some.injEq] at hp
        subst hp
        rw [Nat.add_zero, h2frame c (by omega)]
        exact getD_set_self _ _ _ _ hin
      | succ p =>
        simp only [List.getElem?_cons_succ] at hp
        have := h2col p l' hp
        rw [← this]
        congr 1
        omega
    · intro idx hidx
      rw [h2frame idx (by omega), getD_set_ne _ _ _ _ _ (by omega)]

/-- The columns returned by `MatrixSlice` for a non-empty set: the optional column of
ones, then the data of the sorted labels. -/
theorem featureSet_matrixSlice_spec [DecidableEq Feature] [LinearOrderedField K]
    (entries : List (String × FeatureData Feature K)) (intercept : Bool) (m : ℕ)
    (hne : entries ≠ [])
    (hlen : ∀ e ∈ entries, e.2.Data.length = m)
    (hkeyed : ∀ e ∈ entries, canon e.2.F = e.1) :
    ∃ cols, FeatureSet.MatrixSlice canon (some entries) intercept = .ok (some cols) ∧
      cols.length = entries.length + (if intercept then 1 else 0) ∧
      (intercept = true → cols.getD 0 [] = List.replicate m 1) ∧
      ∀ p l, (sortSlice (fun a b => decide (canon a < canon b))
          (entries.map fun e => e.2.F))[p]? = some l →
        cols.getD (p + (if intercept then 1 else 0)) [] = featureDataAt entries (canon l) := by
  obtain ⟨hperm, -⟩ := sortSlice_labels_spec canon (entries.map fun e => e.2.F)
  generalize hL : sortSlice (fun a b => decide (canon a < canon b))
    (entries.map fun e => e.2.F) = L at hperm ⊢
  have hLlen : L.length = entries.length := by
    rw [hperm.length_eq, List.length_map]
  have hk : 0 < entries.length := List.length_pos.mpr hne
  have hdata : ∀ l ∈ L, (featureDataAt entries (canon l)).length = m :=
    fun l hl => featureDataAt_length canon entries m hlen hkeyed l (hperm.mem_iff.mp hl)
  simp only [FeatureSet.MatrixSlice, FeatureSet.Labels, hL, FeatureLabels.Len,
    FeatureLabels.Labels, NewFeatureLabels, hLlen]
  have hmatch : firstFeatureLen canon entries L = m := by
    cases hLc : L with
    | nil => rw [hLc] at hLlen; simp at hLlen; omega
    | cons l rest => exact hdata l (by rw [hLc]; exact List.mem_cons_self _ _)
  have hk0 : ¬ entries.length = 0 := by omega
  rw [hmatch, if_neg hk0]
  cases intercept with
  | false =>
    simp only [Bool.false_eq_true, if_false, add_zero]
    obtain ⟨o2, h2, h2len, h2col, -⟩ := sliceFillLabels_spec canon entries L
      (List.replicate entries.length []) 0 (by simp; omega)
    refine ⟨o2, ?_, by simpa using h2len, fun h => absurd h (by simp), ?_⟩
    · simp only [bind, Except.bind, pure, Except.pure] at h2 ⊢
      rw [h2]
    · intro p l hp
      have := h2col p l hp
      rwa [Nat.zero_add] at this
  | true =>
    simp only [if_true]
    have hin : 0 < (List.replicate (entries.length + 1) ([] : List K)).length := by simp
    obtain ⟨o2, h2, h2len, h2col, h2frame⟩ := sliceFillLabels_spec canon entries L
      ((List.replicate (entries.length + 1) []).set 0 (floatsAddConst 1 (List.replicate m 0)))
      1 (by simp; omega)
    refine ⟨o2, ?_, by simpa using h2len, ?_, ?_⟩
    · simp only [sliceSet, if_pos hin, bind, Except.bind, pure, Except.pure] at h2 ⊢
      rw [h2]
    · intro _
      rw [h2frame 0 (by omega), getD_set_self _ _ _ _ hin]
      simp [floatsAddConst]
    · intro p l hp
      have := h2col p l hp
      rwa [Nat.add_comm] at this

/-- C10: `MatrixSlice` has the same semantics as `Matrix`.  For every non-empty
`FeatureSet` (keyed by canonical string, as the type documents) with data vectors of
equal length `m`, and both values of `intercept`, `MatrixSlice(intercept)` is a sequence
of `n` columns each of length `m`, and `MatrixSlice(intercept)[c][i]` equals the entry
`(i, c)` of `Matrix(intercept)` for every row `i < m` and column `c < n`; both return the
absent value on a nil or empty set. -/
theorem featureSet_matrixSlice_matches_matrix [DecidableEq Feature] [LinearOrderedField K]
    (entries : List (String × FeatureData Feature K)) (intercept : Bool) (m : ℕ)
    (hne : entries ≠ [])
    (hlen : ∀ e ∈ entries, e.2.Data.length = m)
    (hkeyed : ∀ e ∈ entries, canon e.2.F = e.1) :
    (∃ cols, FeatureSet.MatrixSlice canon (some entries) intercept = .ok (some cols) ∧
      cols.length = entries.length + (if intercept then 1 else 0) ∧
      (∀ c, c < entries.length + (if intercept then 1 else 0) → (cols.getD c []).length = m) ∧
      ∀ i, i < m → ∀ c, c < entries.length + (if intercept then 1 else 0) →
        ∃ M, FeatureSet.Matrix canon (some entries) intercept = .ok (some M) ∧
          (cols.getD c []).getD i 0 = M.At i c) ∧
    FeatureSet.MatrixSlice canon (none : FeatureSet Feature K) intercept = .ok none ∧
    FeatureSet.Matrix canon (none : FeatureSet Feature K) intercept = .ok none ∧
    FeatureSet.MatrixSlice canon (some ([] : List (String × FeatureData Feature K))) intercept
      = .ok none ∧
    FeatureSet.Matrix canon (some ([] : List (String × FeatureData Feature K))) intercept
      = .ok none := by
  refine ⟨?_, rfl, rfl, rfl, rfl⟩
  obtain ⟨cols, h1, h2, h3, h4⟩ := featureSet_matrixSlice_spec canon entries intercept m hne
    hlen hkeyed
  obtain ⟨hperm, -⟩ := sortSlice_labels_spec canon (entries.map fun e => e.2.F)
  have hLlen : (sortSlice (fun a b => decide (canon a < canon b))
      (entries.map fun e => e.2.F)).length = entries.length := by
    rw [hperm.length_eq, List.length_map]
  have hcol : ∀ c, c < entries.length + (if intercept then 1 else 0) →
      (intercept = true ∧ c = 0 ∧ cols.getD c [] = List.replicate m 1) ∨
      ∃ p l, c = p + (if intercept then 1 else 0) ∧
        (sortSlice (fun a b => decide (canon a < canon b))
          (entries.map fun e => e.2.F))[p]? = some l ∧
        cols.getD c [] = featureDataAt entries (canon l) := by
    intro c hc
    by_cases h0 : intercept = true ∧ c = 0
    · exact Or.inl ⟨h0.1, h0.2, by rw [h0.2]; exact h3 h0.1⟩
    · right
      have hp : c - (if intercept then 1 else 0) < (sortSlice
          (fun a b => decide (canon a < canon b)) (entries.map fun e => e.2.F)).length := by
        rw [hLlen]
        cases intercept <;> simp at hc h0 ⊢ <;> omega
      have hc' : c = c - (if intercept then 1 else 0) + (if intercept then 1 else 0) := by
        cases intercept <;> simp at h0 ⊢
        omega
      refine ⟨c - (if intercept then 1 else 0), _, hc', List.getElem?_eq_getElem hp, ?_⟩
      have := h4 _ _ (List.getElem?_eq_getElem hp)
      rwa [← hc'] at this
  refine ⟨cols, h1, h2, ?_, ?_⟩
  · intro c hc
    rcases hcol c hc with ⟨_, _, h⟩ | ⟨p, l, _, hl, h⟩
    · rw [h, List.length_replicate]
    · rw [h]
      exact featureDataAt_length canon entries m hlen hkeyed l
        (hperm.mem_iff.mp (List.getElem?_mem hl))
  · intro i hi c hc
    obtain ⟨M, hM, _, _, _, hM1, hM2⟩ := featureSet_matrix_spec canon entries intercept m hne
      hlen hkeyed (by omega)
    refine ⟨M, hM, ?_⟩
    rcases hcol c hc with ⟨hint, h0, h⟩ | ⟨p, l, hpc, hl, h⟩
    · rw [h, h0, hM1 hint i hi, List.getD_eq_getElem _ _ (by simpa using hi)]
      simp
    · rw [h, hpc, hM2 p l hl i hi]

/-- Witness for C10: three features of three observations, with intercept. -/
theorem featureSet_matrixSlice_matches_matrix_witness :
    ∃ cols, FeatureSet.MatrixSlice id
        (some [("b", (⟨"b", [1, 2, 3]⟩ : FeatureData String ℚ)), ("a", ⟨"a", [4, 5, 6]⟩),
          ("c", ⟨"c", [7, 8, 9]⟩)]) true = .ok (some cols) ∧
      cols.length = 4 ∧
      (∀ c, c < 4 → (cols.getD c []).length = 3) ∧
      ∀ i, i < 3 → ∀ c, c < 4 →
        ∃ M, FeatureSet.Matrix id
          (some [("b", (⟨"b", [1, 2, 3]⟩ : FeatureData String ℚ)), ("a", ⟨"a", [4, 5, 6]⟩),
            ("c", ⟨"c", [7, 8, 9]⟩)]) true = .ok (some M) ∧
          (cols.getD c []).getD i 0 = M.At i c :=
  (featureSet_matrixSlice_matches_matrix id
    [("b", (⟨"b", [1, 2, 3]⟩ : FeatureData String ℚ)), ("a", ⟨"a", [4, 5, 6]⟩),
      ("c", ⟨"c", [7, 8, 9]⟩)] true 3 (by simp) (by decide) (by decide)).1

/-- Reading back the key that was just stored. -/
theorem goMapGet_set_self {κ ν : Type} [DecidableEq κ] (m : List (κ × ν)) (k : κ) (v : ν) :
    goMapGet (goMapSet m k v) k = some v := by
  induction m with
  | nil => simp [goMapSet, goMapGet]
  | cons e rest ih =>
    obtain ⟨k', v'⟩ := e
    simp only [goMapSet]
    by_cases hk : k' = k
    · simp only [if_pos hk, goMapGet, if_true]
    · simp only [if_neg hk, goMapGet, ih]

/-- A store does not change what is read under another key. -/
theorem goMapGet_set_ne {κ ν : Type} [DecidableEq κ] (m : List (κ × ν)) (k k' : κ) (v : ν)
    (h : k ≠ k') : goMapGet (goMapSet m k v) k' = goMapGet m k' := by
  induction m with
  | nil => simp [goMapSet, goMapGet, h]
  | cons e rest ih =>
    obtain ⟨k₀, v₀⟩ := e
    simp only [goMapSet]
    by_cases hk : k₀ = k
    · subst hk
      simp only [if_true, goMapGet, if_neg h]
    · simp only [if_neg hk, goMapGet, ih]

/-- The index built by the first `k` passes of the loop of `NewFeatureLabels`. -/
theorem newFeatureLabels_fold [DecidableEq Feature] (labels : List Feature) :
    ∀ k, k ≤ labels.length → ∀ x i,
      goMapGet ((List.range k).foldl
        (fun idx i => match labels[i]? with
          | some l => goMapSet idx l i
          | none => idx) []) x = some i ↔
      (i < k ∧ labels[i]? = some x ∧ ∀ j, i < j → j < k → labels[j]? ≠ some x) := by
  intro k
  induction k with
  | zero =>
    intro _ x i
    simp [goMapGet]
  | succ k ih =>
    intro hk x i
    have hlt : k < labels.length := hk
    rw [List.range_succ, List.foldl_append, List.foldl_cons, List.foldl_nil,
      List.getElem?_eq_getElem hlt]
    simp only
    by_cases hx : labels[k] = x
    · subst hx
      rw [goMapGet_set_self]
      constructor
      · intro h
        have hi : k = i := Option.some.inj h
        subst hi
        exact ⟨Nat.lt_succ_self _, List.getElem?_eq_getElem hlt, fun j h1 h2 => by omega⟩
      · rintro ⟨h1, h2, h3⟩
        by_cases hik : i = k
        · rw [hik]
        · exact absurd (List.getElem?_eq_getElem hlt) (h3 k (by omega) (Nat.lt_succ_self _))
    · rw [goMapGet_set_ne _ _ _ _ hx, ih (by omega) x i]
      constructor
      · rintro ⟨h1, h2, h3⟩
        refine ⟨by omega, h2, fun j hj1 hj2 => ?_⟩
        by_cases hjk : j = k
        · subst hjk
          rw [List.getElem?_eq_getElem hlt]
          exact fun h => hx (Option.some.inj h)
        · exact h3 j hj1 (by omega)
      · rintro ⟨h1, h2, h3⟩
        have hik : i ≠ k := by
          rintro rfl
          rw [List.getElem?_eq_getElem hlt] at h2
          exact hx (Option.some.inj h2)
        exact ⟨by omega, h2, fun j hj1 hj2 => h3 j hj1 (by omega)⟩

/-- C11: for every list of feature identities `L` and every identity `x`,
`NewFeatureLabels(L).Index(x)` returns `(i, true)` where `i` is the largest position with
`L[i] = x` when `x` occurs in `L` (the last occurrence wins on duplicates), and returns
`(-1, false)` when `x` does not occur in `L`; and `Labels()` returns `L` in its given
order. -/
theorem featureLabels_index [DecidableEq Feature] (L : List Feature) (x : Feature) :
    (x ∈ L → ∃ i : ℕ, (NewFeatureLabels L).Index x = ((i : ℤ), true) ∧ L[i]? = some x ∧
      ∀ j, i < j → L[j]? ≠ some x) ∧
    (x ∉ L → (NewFeatureLabels L).Index x = (-1, false)) ∧
    (NewFeatureLabels L).Labels = L := by
  have hfold := newFeatureLabels_fold L L.length le_rfl x
  refine ⟨?_, ?_, rfl⟩
  · intro hx
    cases hget : goMapGet (NewFeatureLabels L).idx x with
    | some i =>
      obtain ⟨_, h2, h3⟩ := (hfold i).mp hget
      refine ⟨i, by simp only [FeatureLabels.Index, hget], h2, fun j hj => ?_⟩
      by_cases hjl : j < L.length
      · exact h3 j hj hjl
      · rw [List.getElem?_eq_none (by omega)]
        simp
    | none =>
      exfalso
      have hex : ∃ i, i < L.length ∧ L[i]? = some x ∧
          ∀ j, i < j → j < L.length → L[j]? ≠ some x := by
        obtain ⟨i0, hi0⟩ := List.mem_iff_getElem?.mp hx
        have hi0l : i0 < L.length := by
          by_contra h
          rw [List.getElem?_eq_none (by omega)] at hi0
          exact absurd hi0 (by simp)
        classical
        let S := (Finset.range L.length).filter fun i => L[i]? = some x
        have hS : S.Nonempty := ⟨i0, by simp [S, hi0l, hi0]⟩
        refine ⟨S.max' hS, ?_, ?_, ?_⟩
        · have := S.max'_mem hS
          simp only [S, Finset.mem_filter, Finset.mem_range] at this
          exact this.1
        · have := S.max'_mem hS
          simp only [S, Finset.mem_filter, Finset.mem_range] at this
          exact this.2
        · intro j hj hjl hjx
          have hjS : j ∈ S := by simp [S, hjl, hjx]
          have := S.le_max' j hjS
          omega
      obtain ⟨i, h1, h2, h3⟩ := hex
      have hsome : goMapGet (NewFeatureLabels L).idx x = some i := (hfold i).mpr ⟨h1, h2, h3⟩
      rw [hsome] at hget
      exact absurd hget (by simp)
  · intro hx
    cases hget : goMapGet (NewFeatureLabels L).idx x with
    | some i =>
      obtain ⟨_, h2, _⟩ := (hfold i).mp hget
      exact absurd (List.getElem?_mem h2) hx
    | none => simp only [FeatureLabels.Index, hget]

/-- Witness for C11: in `[A, B, A]` the identity `A` is found at position `2`. -/
theorem featureLabels_index_witness :
    (∃ i : ℕ, (NewFeatureLabels ["A", "B", "A"]).Index "A" = ((i : ℤ), true) ∧
      ["A", "B", "A"][i]? = some "A" ∧ ∀ j, i < j → ["A", "B", "A"][j]? ≠ some "A") ∧
    (NewFeatureLabels ["A", "B", "A"]).Index "C" = (-1, false) :=
  ⟨(featureLabels_index ["A", "B", "A"] "A").1 (by decide),
    (featureLabels_index ["A", "B", "A"] "C").2.1 (by decide)⟩

/-- The keys of a map after a store: unchanged when the key was present, extended by the
key otherwise. -/
theorem goMapSet_keys {κ ν : Type} [DecidableEq κ] (m : List (κ × ν)) (k : κ) (v : ν) :
    (goMapSet m k v).map (fun e => e.1)
      = if k ∈ m.map (fun e => e.1) then m.map (fun e => e.1)
        else m.map (fun e => e.1) ++ [k] := by
  induction m with
  | nil => simp [goMapSet]
  | cons e rest ih =>
    obtain ⟨k', v'⟩ := e
    simp only [goMapSet]
    by_cases hk : k' = k
    · subst hk
      simp
    · simp only [if_neg hk, List.map_cons, ih, List.mem_cons]
      have hk' : ¬ k = k' := fun h => hk h.symm
      by_cases hmem : k ∈ rest.map (fun e => e.1)
      · simp [hmem]
      · simp [hmem, hk']

/-- The keys of the index built by the first `k` passes of the loop of `NewFeatureLabels`
are the distinct identities among the first `k` labels. -/
theorem newFeatureLabels_keys [DecidableEq Feature] (labels : List Feature) :
    ∀ k, k ≤ labels.length →
      (((List.range k).foldl
        (fun idx i => match labels[i]? with
          | some l => goMapSet idx l i
          | none => idx) []).map (fun e => e.1)).Nodup ∧
      ∀ x, x ∈ ((List.range k).foldl
        (fun idx i => match labels[i]? with
          | some l => goMapSet idx l i
          | none => idx) []).map (fun e => e.1) ↔ x ∈ labels.take k := by
  intro k
  induction k with
  | zero => intro _; simp
  | succ k ih =>
    intro hk
    have hlt : k < labels.length := hk
    obtain ⟨hnd, hmem⟩ := ih (by omega)
    rw [List.range_succ, List.foldl_append, List.foldl_cons, List.foldl_nil,
      List.getElem?_eq_getElem hlt]
    simp only
    rw [goMapSet_keys, List.take_succ, List.getElem?_eq_getElem hlt]
    simp only [Option.toList_some]
    split
    · next hin =>
      refine ⟨hnd, fun x => ?_⟩
      rw [hmem x, List.mem_append, List.mem_singleton]
      constructor
      · exact Or.inl
      · rintro (h | h)
        · exact h
        · rw [h]; exact (hmem _).mp hin
    · next hin =>
      refine ⟨?_, fun x => ?_⟩
      · rw [List.nodup_append]
        refine ⟨hnd, List.nodup_singleton _, ?_⟩
        intro a ha hb
        rw [List.mem_singleton] at hb
        subst hb
        exact hin ha
      · rw [List.mem_append, List.mem_append, hmem x]

/-- C12 (amended): for every list of feature identities `L`, `NewFeatureLabels(L).Len()`
is the length of `L`, duplicates counted, while the index holds one position per
distinct identity; `Len()` equals the number of distinct identities exactly when `L`
has no duplicates. -/
theorem featureLabels_len [DecidableEq Feature] (L : List Feature) :
    (NewFeatureLabels L).Len = L.length ∧
    (NewFeatureLabels L).idx.length = L.dedup.length ∧
    ((NewFeatureLabels L).Len = L.dedup.length ↔ L.Nodup) := by
  refine ⟨rfl, ?_, ?_⟩
  · obtain ⟨hnd, hmem⟩ := newFeatureLabels_keys L L.length le_rfl
    have hkeys : ((NewFeatureLabels L).idx.map (fun e => e.1)).toFinset = L.toFinset := by
      ext x
      rw [List.mem_toFinset, List.mem_toFinset]
      have := hmem x
      rw [List.take_length] at this
      exact this
    have hnd' : ((NewFeatureLabels L).idx.map (fun e => e.1)).Nodup := hnd
    rw [← List.length_map (NewFeatureLabels L).idx (fun e => e.1),
      ← List.toFinset_card_of_nodup hnd', hkeys, List.card_toFinset]
  · show L.length = L.dedup.length ↔ L.Nodup
    constructor
    · intro h
      exact List.dedup_eq_self.mp ((List.dedup_sublist L).eq_of_length h.symm)
    · intro h
      rw [List.dedup_eq_self.mpr h]

/-- C12, counterexample: the label index built from `[A, B, A]` has length `3`, not `2`,
although its index holds `2` positions. -/
theorem featureLabels_len_counterexample :
    (NewFeatureLabels ["A", "B", "A"]).Len = 3 ∧
    (NewFeatureLabels ["A", "B", "A"]).Len ≠ 2 ∧
    (["A", "B", "A"] : List String).dedup.length = 2 := by
  refine ⟨rfl, by decide, by decide!⟩

/-- Filling more than `m` cells of a column of an `m × n` backing slice runs out of
range. -/
theorem matrixFillColumn_overflow [Zero K] (m n c count : ℕ) (value : ℕ → K) (obs : List K)
    (hlen : obs.length = m * n) (hc : c < n) (hcount : m < count) :
    matrixFillColumn n c count value obs = .error (.panic .indexOutOfRange) := by
  obtain ⟨o1, h1, h1len, -⟩ := matrixFillColumn_spec m n c m value obs hlen hc le_rfl
  obtain ⟨d, rfl⟩ : ∃ d, count = d + 1 + m := ⟨count - m - 1, by omega⟩
  have hsplit : List.range (d + 1 + m) = List.range m ++ (m :: List.range' (m + 1) d) := by
    rw [List.range_eq_range', List.range_eq_range', ← List.range'_append_1, Nat.zero_add,
      List.range'_succ]
  have hout : ¬ (n * m + c < o1.length) := by
    rw [h1len, Nat.mul_comm]; omega
  simp only [matrixFillColumn] at h1 ⊢
  rw [hsplit, List.foldlM_append, h1]
  simp only [bind, Except.bind, List.foldlM_cons, sliceSet, if_neg hout]

/-- The loop of `FeatureSet.Matrix` over the labels when no label's data is longer than
`m`: it succeeds, stores each label's data at the top of its column and leaves every
other cell as it was. -/
theorem matrixFillLabels_short [Zero K] (entries : List (String × FeatureData Feature K))
    (m n : ℕ) :
    ∀ (rest : List Feature) (obs : List K) (c : ℕ), obs.length = m * n →
      c + rest.length ≤ n →
      (∀ l ∈ rest, (featureDataAt entries (canon l)).length ≤ m) →
      ∃ obs', rest.foldlM
          (fun (st : List K × ℕ) label => do
            let obs ← matrixFillColumn n st.2 (featureDataAt entries (canon label)).length
              (fun i => (featureDataAt entries (canon label)).getD i 0) st.1
            pure (obs, st.2 + 1))
          (obs, c) = .ok (obs', c + rest.length) ∧
        obs'.length = m * n ∧
        (∀ p l, rest[p]? = some l → ∀ i, i < (featureDataAt entries (canon l)).length →
          obs'.getD (n * i + (c + p)) 0 = (featureDataAt entries (canon l)).getD i 0) ∧
        ∀ idx, (∀ p l, rest[p]? = some l → ∀ i,
            i < (featureDataAt entries (canon l)).length → idx ≠ n * i + (c + p)) →
          obs'.getD idx 0 = obs.getD idx 0 := by
  intro rest
  induction rest with
  | nil =>
    intro obs c hlen _ _
    exact ⟨obs, rfl, hlen, fun p l h => by simp at h, fun _ _ => rfl⟩
  | cons l rest ih =>
    intro obs c hlen hc hdata
    have hl : (featureDataAt entries (canon l)).length ≤ m := hdata l (List.mem_cons_self _ _)
    have hcn : c < n := by simp at hc; omega
    obtain ⟨o1, h1, h1len, h1col, h1frame⟩ := matrixFillColumn_spec m n c
      (featureDataAt entries (canon l)).length
      (fun i => (featureDataAt entries (canon l)).getD i 0) obs hlen hcn hl
    obtain ⟨o2, h2, h2len, h2col, h2frame⟩ := ih o1 (c + 1) h1len (by simp at hc; omega)
      (fun l' hl' => hdata l' (List.mem_cons_of_mem _ hl'))
    refine ⟨o2, ?_, h2len, ?_, ?_⟩
    · rw [List.foldlM_cons, h1]
      simp only [Except.bind, bind, pure, Except.pure]
      simp only [Except.bind, bind, pure, Except.pure] at h2
      rw [h2]
      congr 2
      simp only [List.length_cons]
      omega
    · intro p l' hp i hi
      cases p with
      | zero =>
        simp only [List.getElem?_cons_zero, Option.some.injEq] at hp
        subst hp
        rw [h2frame (n * i + (c + 0)) (fun p' l' hp' i' _ h => by
          have hp'lt : p' < rest.length := by
            by_contra hge
            rw [List.getElem?_eq_none (by omega)] at hp'
            exact absurd hp' (by simp)
          have := (cell_inj n i i' (c + 0) (c + 1 + p') (by omega) (by simp at hc; omega) h).2
          omega)]
        have := h1col i hi
        simpa using this
      | succ p =>
        simp only [List.getElem?_cons_succ] at hp
        have := h2col p l' hp i hi
        rw [← this]
        congr 2
        omega
    · intro idx hidx
      rw [h2frame idx (fun p l' hp i hi => by
        have := hidx (p + 1) l' (by simpa using hp) i hi
        intro h; apply this; rw [h]; omega)]
      exact h1frame idx (fun i hi => by
        have := hidx 0 l (by simp) i hi
        simpa using this)

/-- The loop of `FeatureSet.Matrix` over the labels when some label's data is longer than
`m`: it runs out of range. -/
theorem matrixFillLabels_overflow [Zero K] (entries : List (String × FeatureData Feature K))
    (m n : ℕ) :
    ∀ (rest : List Feature) (obs : List K) (c : ℕ), obs.length = m * n →
      c + rest.length ≤ n →
      (∃ l ∈ rest, m < (featureDataAt entries (canon l)).length) →
      rest.foldlM
          (fun (st : List K × ℕ) label => do
            let obs ← matrixFillColumn n st.2 (featureDataAt entries (canon label)).length
              (fun i => (featureDataAt entries (canon label)).getD i 0) st.1
            pure (obs, st.2 + 1))
          (obs, c) = .error (.panic .indexOutOfRange) := by
  intro rest
  induction rest with
  | nil =>
    intro obs c _ _ h
    obtain ⟨l, hl, _⟩ := h
    simp at hl
  | cons l rest ih =>
    intro obs c hlen hc hlong
    have hcn : c < n := by simp at hc; omega
    by_cases hl : m < (featureDataAt entries (canon l)).length
    · rw [List.foldlM_cons, matrixFillColumn_overflow m n c _ _ obs hlen hcn hl]
      rfl
    · obtain ⟨o1, h1, h1len, -⟩ := matrixFillColumn_spec m n c
        (featureDataAt entries (canon l)).length
        (fun i => (featureDataAt entries (canon l)).getD i 0) obs hlen hcn (by omega)
      have hlong' : ∃ l' ∈ rest, m < (featureDataAt entries (canon l')).length := by
        obtain ⟨l', hl', hlen'⟩ := hlong
        rcases List.mem_cons.mp hl' with h | h
        · subst h; exact absurd hlen' hl
        · exact ⟨l', h, hlen'⟩
      have h2 := ih o1 (c + 1) h1len (by simp at hc; omega) hlong'
      rw [List.foldlM_cons, h1]
      simp only [Except.bind, bind, pure, Except.pure]
      simp only [Except.bind, bind, pure, Except.pure] at h2
      exact h2

/-- Every entry of a zeroed slice reads `0`. -/
theorem getD_replicate_zero [Zero K] (k idx : ℕ) : (List.replicate k (0 : K)).getD idx 0 = 0 := by
  simp only [List.getD_eq_getElem?_getD, List.getElem?_replicate]
  split <;> rfl

/-- C18 (amended): the design-matrix builder does not validate vector lengths.  For every
non-empty `FeatureSet`, with `m ≥ 1` the length of the first sorted label's vector and
`n` the column count: when no data vector is longer than `m`, `Matrix(intercept)`
completes and returns an `m × n` matrix, each column holding its vector at the top and
zeros below it; when some data vector is longer than `m`, `Matrix(intercept)` panics
with an index out of range. -/
theorem featureSet_matrix_mismatch [DecidableEq Feature] [LinearOrderedField K]
    (entries : List (String × FeatureData Feature K)) (intercept : Bool) (m : ℕ)
    (hne : entries ≠ [])
    (hm : m = firstFeatureLen canon entries
      (sortSlice (fun a b => decide (canon a < canon b)) (entries.map fun e => e.2.F))) :
    ((∀ l ∈ sortSlice (fun a b => decide (canon a < canon b)) (entries.map fun e => e.2.F),
        (featureDataAt entries (canon l)).length ≤ m) → 1 ≤ m →
      ∃ M, FeatureSet.Matrix canon (some entries) intercept = .ok (some M) ∧
        M.rows = m ∧ M.cols = entries.length + (if intercept then 1 else 0) ∧
        M.data.length = m * (entries.length + (if intercept then 1 else 0)) ∧
        ∀ p l, (sortSlice (fun a b => decide (canon a < canon b))
            (entries.map fun e => e.2.F))[p]? = some l →
          (∀ i, i < (featureDataAt entries (canon l)).length →
            M.At i (p + (if intercept then 1 else 0))
              = (featureDataAt entries (canon l)).getD i 0) ∧
          ∀ i, (featureDataAt entries (canon l)).length ≤ i → i < m →
            M.At i (p + (if intercept then 1 else 0)) = 0) ∧
    ((∃ l ∈ sortSlice (fun a b => decide (canon a < canon b)) (entries.map fun e => e.2.F),
        m < (featureDataAt entries (canon l)).length) →
      FeatureSet.Matrix canon (some entries) intercept = .error (.panic .indexOutOfRange)) := by
  obtain ⟨hperm, -⟩ := sortSlice_labels_spec canon (entries.map fun e => e.2.F)
  generalize hL : sortSlice (fun a b => decide (canon a < canon b))
    (entries.map fun e => e.2.F) = L at hperm hm ⊢
  have hLlen : L.length = entries.length := by
    rw [hperm.length_eq, List.length_map]
  have hk : 0 < entries.length := List.length_pos.mpr hne
  have hk0 : ¬ entries.length = 0 := by omega
  have hplt : ∀ p l, L[p]? = some l → p < entries.length := by
    intro p l hp
    by_contra hge
    rw [List.getElem?_eq_none (by omega)] at hp
    exact absurd hp (by simp)
  simp only [FeatureSet.Matrix, FeatureSet.Labels, hL, FeatureLabels.Len, FeatureLabels.Labels,
    NewFeatureLabels, hLlen]
  rw [← hm, if_neg hk0]
  constructor
  · intro hdata hm1
    cases intercept with
    | false =>
      simp only [Bool.false_eq_true, if_false, add_zero]
      obtain ⟨o2, h2, h2len, h2col, h2frame⟩ := matrixFillLabels_short canon entries m
        entries.length L (List.replicate (m * entries.length) 0) 0 (by simp) (by omega) hdata
      have hnd : ¬ (m = 0 ∨ entries.length = 0) := by omega
      refine ⟨⟨m, entries.length, o2⟩, ?_, rfl, rfl, h2len, ?_⟩
      · simp only [bind, Except.bind, pure, Except.pure] at h2 ⊢
        rw [h2]
        simp only [NewDense, if_neg hnd, if_pos h2len]
      · intro p l hp
        constructor
        · intro i hi
          have := h2col p l hp i hi
          simp only [Dense.At]
          rw [← this]
          congr 1
          ring
        · intro i hil him
          simp only [Dense.At]
          rw [show i * entries.length + p = entries.length * i + (0 + p) by ring,
            h2frame _ (fun p' l' hp' i' hi' h => by
              have hc := cell_inj entries.length i i' (0 + p) (0 + p')
                (by have := hplt p l hp; omega) (by have := hplt p' l' hp'; omega) h
              have hpp : p = p' := by omega
              subst hpp
              rw [hp] at hp'
              have hll : l = l' := Option.some.inj hp'
              subst hll
              omega)]
          exact getD_replicate_zero _ _
    | true =>
      simp only [if_true]
      obtain ⟨o1, h1, h1len, h1col, h1frame⟩ := matrixFillColumn_spec m (entries.length + 1) 0 m
        (fun _ => (1 : K)) (List.replicate (m * (entries.length + 1)) 0) (by simp) (by omega)
        le_rfl
      obtain ⟨o2, h2, h2len, h2col, h2frame⟩ := matrixFillLabels_short canon entries m
        (entries.length + 1) L o1 1 h1len (by omega) hdata
      have hnd : ¬ (m = 0 ∨ entries.length + 1 = 0) := by omega
      refine ⟨⟨m, entries.length + 1, o2⟩, ?_, rfl, rfl, h2len, ?_⟩
      · simp only [bind, Except.bind, pure, Except.pure] at h2 ⊢
        rw [h1]
        simp only
        rw [h2]
        simp only [NewDense, if_neg hnd, if_pos h2len]
      · intro p l hp
        constructor
        · intro i hi
          have := h2col p l hp i hi
          simp only [Dense.At]
          rw [← this]
          congr 1
          ring
        · intro i hil him
          simp only [Dense.At]
          rw [show i * (entries.length + 1) + (p + 1) = (entries.length + 1) * i + (1 + p) by
              ring,
            h2frame _ (fun p' l' hp' i' hi' h => by
              have hc := cell_inj (entries.length + 1) i i' (1 + p) (1 + p')
                (by have := hplt p l hp; omega) (by have := hplt p' l' hp'; omega) h
              have hpp : p = p' := by omega
              subst hpp
              rw [hp] at hp'
              have hll : l = l' := Option.some.inj hp'
              subst hll
              omega),
            h1frame _ (fun i' _ h => by
              have hc := cell_inj (entries.length + 1) i i' (1 + p) 0
                (by have := hplt p l hp; omega) (by omega) h
              omega)]
          exact getD_replicate_zero _ _
  · intro hlong
    cases intercept with
    | false =>
      simp only [Bool.false_eq_true, if_false, add_zero]
      have h2 := matrixFillLabels_overflow canon entries m entries.length L
        (List.replicate (m * entries.length) 0) 0 (by simp) (by omega) hlong
      simp only [bind, Except.bind, pure, Except.pure] at h2 ⊢
      rw [h2]
    | true =>
      simp only [if_true]
      obtain ⟨o1, h1, h1len, -⟩ := matrixFillColumn_spec m (entries.length + 1) 0 m
        (fun _ => (1 : K)) (List.replicate (m * (entries.length + 1)) 0) (by simp) (by omega)
        le_rfl
      have h2 := matrixFillLabels_overflow canon entries m (entries.length + 1) L o1 1 h1len
        (by omega) hlong
      simp only [bind, Except.bind, pure, Except.pure] at h2 ⊢
      rw [h1]
      simp only
      rw [h2]

/-- Witness for C18 (amended): the vector of `"b"` is shorter than that of `"a"`. -/
theorem featureSet_matrix_mismatch_witness :
    ∃ M, FeatureSet.Matrix id
        (some [("a", (⟨"a", [1, 2, 3]⟩ : FeatureData String ℚ)), ("b", ⟨"b", [4]⟩)]) false
        = .ok (some M) ∧
      M.rows = 3 ∧ M.cols = 2 ∧ M.data.length = 3 * 2 := by
  obtain ⟨M, h1, h2, h3, h4, _⟩ := (featureSet_matrix_mismatch id
    [("a", (⟨"a", [1, 2, 3]⟩ : FeatureData String ℚ)), ("b", ⟨"b", [4]⟩)] false 3 (by simp)
    (by decide!)).1 (by decide!) (by decide)
  exact ⟨M, h1, h2, h3, h4⟩

/-- C18, counterexample: with the vector `[1]` for `"a"` and `[1, 2, 3]` for `"b"` the
builder runs out of range instead of returning a `1 × 2` matrix. -/
theorem featureSet_matrix_mismatch_counterexample :
    FeatureSet.Matrix id
      (some [("a", (⟨"a", [1]⟩ : FeatureData String ℚ)), ("b", ⟨"b", [1, 2, 3]⟩)]) false
      = .error (.panic .indexOutOfRange) ∧
    ¬ ∃ M, FeatureSet.Matrix id
      (some [("a", (⟨"a", [1]⟩ : FeatureData String ℚ)), ("b", ⟨"b", [1, 2, 3]⟩)]) false
      = .ok (some M) := by
  have h : FeatureSet.Matrix id
      (some [("a", (⟨"a", [1]⟩ : FeatureData String ℚ)), ("b", ⟨"b", [1, 2, 3]⟩)]) false
      = .error (.panic .indexOutOfRange) := by decide!
  refine ⟨h, ?_⟩
  rintro ⟨M, hM⟩
  rw [h] at hM
  exact absurd hM (by simp)

end FeatureTheorems

/-! ### The forecast orchestrator -/

section OrchestratorTheorems

variable {Time Options TFeat FeatMap Scores : Type} {K : Type} [LinearOrderedField K]

/-- `Predict` either fails in feature generation or in the label helper, leaving the
state as it was, or stores the labels of the call and returns the weighted row. -/
theorem Predict_cases (env : ForecastEnv Time Options TFeat FeatMap Scores K)
    (f : Forecast Options Scores K) (t : List Time) :
    (∃ e, f.Predict env t = (f, .error e) ∧
      (f.generateFeatures env t = .error e ∨
        ∃ x, f.generateFeatures env t = .ok x ∧ env.featureLabels x = .error e)) ∨
    (∃ x labels, f.generateFeatures env t = .ok x ∧ env.featureLabels x = .ok labels ∧
      f.Predict env t = ({ f with fLabels := labels },
        Forecast.predictRow env { f with fLabels := labels } t x)) := by
  cases hx : f.generateFeatures env t with
  | error e => exact Or.inl ⟨e, by simp only [Forecast.Predict, hx], Or.inl rfl⟩
  | ok x =>
    cases hl : env.featureLabels x with
    | error e => exact Or.inl ⟨e, by simp only [Forecast.Predict, hx, hl], Or.inr ⟨x, rfl, hl⟩⟩
    | ok labels => exact Or.inr ⟨x, labels, rfl, hl, by simp only [Forecast.Predict, hx, hl]⟩

/-- C15: `Predict` is a read path with one side effect.  For every state `f` and every
list of timestamps, a successful `Predict` leaves behind the state `f` with the stored
labels replaced by the labels of this call's feature set, the coefficient vector,
intercept, residual vector, scores and options being unchanged; a `Predict` whose
feature generation fails leaves the whole state unchanged. -/
theorem predict_side_effect (env : ForecastEnv Time Options TFeat FeatMap Scores K)
    (f : Forecast Options Scores K) (t : List Time) :
    (∀ p, (f.Predict env t).2 = .ok p →
      ∃ x labels, f.generateFeatures env t = .ok x ∧ env.featureLabels x = .ok labels ∧
        (f.Predict env t).1.fLabels = labels ∧
        (f.Predict env t).1.coef = f.coef ∧
        (f.Predict env t).1.intercept = f.intercept ∧
        (f.Predict env t).1.residual = f.residual ∧
        (f.Predict env t).1.scores = f.scores ∧
        (f.Predict env t).1.opt = f.opt) ∧
    (∀ e, f.generateFeatures env t = .error e → f.Predict env t = (f, .error e)) := by
  constructor
  · intro p hp
    rcases Predict_cases env f t with ⟨e, h, _⟩ | ⟨x, labels, hx, hl, h⟩
    · rw [h] at hp
      exact absurd hp (by simp)
    · rw [h]
      exact ⟨x, labels, hx, hl, rfl, rfl, rfl, rfl, rfl, rfl⟩
  · intro e he
    simp only [Forecast.Predict, he]

/-- Witness for C15: a `Predict` on three timestamps with the example helpers, from a
state that holds a fitted model and the stale label `old`. -/
theorem predict_side_effect_witness :
    ∃ x labels,
      Forecast.generateFeatures
        (exampleEnv (fun t => [("a", t.map fun n => (n : ℚ))]) (1, [2]))
        (⟨(), some (), ["old"], [0, 0, -1], [2], 1⟩ : Forecast Unit Unit ℚ) [0, 1, 2] = .ok x ∧
      (exampleEnv (fun t => [("a", t.map fun n => (n : ℚ))]) (1, [2])).featureLabels x
        = .ok labels ∧
      (Forecast.Predict (exampleEnv (fun t => [("a", t.map fun n => (n : ℚ))]) (1, [2]))
        (⟨(), some (), ["old"], [0, 0, -1], [2], 1⟩ : Forecast Unit Unit ℚ)
        [0, 1, 2]).1.fLabels = labels ∧
      (Forecast.Predict (exampleEnv (fun t => [("a", t.map fun n => (n : ℚ))]) (1, [2]))
        (⟨(), some (), ["old"], [0, 0, -1], [2], 1⟩ : Forecast Unit Unit ℚ)
        [0, 1, 2]).1.coef = [2] ∧
      (Forecast.Predict (exampleEnv (fun t => [("a", t.map fun n => (n : ℚ))]) (1, [2]))
        (⟨(), some (), ["old"], [0, 0, -1], [2], 1⟩ : Forecast Unit Unit ℚ)
        [0, 1, 2]).1.intercept = 1 ∧
      (Forecast.Predict (exampleEnv (fun t => [("a", t.map fun n => (n : ℚ))]) (1, [2]))
        (⟨(), some (), ["old"], [0, 0, -1], [2], 1⟩ : Forecast Unit Unit ℚ)
        [0, 1, 2]).1.residual = [0, 0, -1] ∧
      (Forecast.Predict (exampleEnv (fun t => [("a", t.map fun n => (n : ℚ))]) (1, [2]))
        (⟨(), some (), ["old"], [0, 0, -1], [2], 1⟩ : Forecast Unit Unit ℚ)
        [0, 1, 2]).1.scores = some () ∧
      (Forecast.Predict (exampleEnv (fun t => [("a", t.map fun n => (n : ℚ))]) (1, [2]))
        (⟨(), some (), ["old"], [0, 0, -1], [2], 1⟩ : Forecast Unit Unit ℚ)
        [0, 1, 2]).1.opt = () :=
  (predict_side_effect (exampleEnv (fun t => [("a", t.map fun n => (n : ℚ))]) (1, [2]))
    (⟨(), some (), ["old"], [0, 0, -1], [2], 1⟩ : Forecast Unit Unit ℚ) [0, 1, 2]).1
    [1, 3, 5] (by decide!)

/-- The row computed by `Predict` depends on the state through the stored labels, the
intercept and the coefficients only. -/
theorem predictRow_congr (env : ForecastEnv Time Options TFeat FeatMap Scores K)
    (f g : Forecast Options Scores K) (t : List Time) (x : FeatMap)
    (h1 : f.fLabels = g.fLabels) (h2 : f.intercept = g.intercept) (h3 : f.coef = g.coef) :
    Forecast.predictRow env f t x = Forecast.predictRow env g t x := by
  simp only [Forecast.predictRow, h1, h2, h3]

/-- A successful weighted row needs one coefficient per stored label. -/
theorem predictRow_ok (env : ForecastEnv Time Options TFeat FeatMap Scores K)
    (f : Forecast Options Scores K) (t : List Time) (x : FeatMap) (p : List K)
    (h : Forecast.predictRow env f t x = .ok p) : f.coef.length = f.fLabels.length := by
  simp only [Forecast.predictRow] at h
  split at h
  · exact absurd h (by simp)
  · split at h
    · exact absurd h (by simp)
    · next w hw =>
      simp only [NewDense] at hw
      split at hw
      · exact absurd hw (by simp)
      · split at hw
        · next hlen =>
          simp only [List.length_append, List.length_singleton, one_mul] at hlen
          omega
        · exact absurd hw (by simp)

/-- The residual computation of `Fit` succeeds exactly on vectors of the training
length, and yields `predicted − y` entry by entry. -/
theorem fitResidual_ok (len : ℕ) (y predicted r : List K)
    (h : fitResidual len y predicted = .ok r) :
    y.length = len ∧ predicted.length = len ∧ r.length = len ∧
      ∀ i, i < len → r.getD i 0 = predicted.getD i 0 - y.getD i 0 := by
  simp only [fitResidual, floatsAdd, floatsSub, floatsScale, List.length_replicate] at h
  by_cases hy : len ≠ y.length
  · rw [if_pos hy] at h
    exact absurd h (by simp)
  · rw [if_neg hy] at h
    simp only at h
    have hy' : y.length = len := by omega
    have hz : (List.zipWith (· + ·) (List.replicate len (0 : K)) y).length = len := by
      simp [hy']
    by_cases hp : (List.zipWith (· + ·) (List.replicate len (0 : K)) y).length
        ≠ predicted.length
    · rw [if_pos hp] at h
      exact absurd h (by simp)
    · rw [if_neg hp] at h
      have hp' : predicted.length = len := by omega
      have hr := Except.ok.inj h
      subst hr
      refine ⟨hy', hp', by simp [hy', hp'], ?_⟩
      intro i hi
      have hzi : (List.zipWith (· + ·) (List.replicate len (0 : K)) y).getD i 0
          = y.getD i 0 := by
        rw [getD_zipWith _ _ _ _ (by simp; exact hi) (by omega)]
        simp only [List.getD_eq_getElem?_getD, List.getElem?_replicate, if_pos hi,
          Option.getD_some, zero_add]
      rw [List.getD_eq_getElem?_getD, List.getElem?_map]
      have hsub := getD_zipWith (· - ·)
        (List.zipWith (· + ·) (List.replicate len (0 : K)) y) predicted i
        (by omega) (by omega)
      rw [List.getD_eq_getElem?_getD] at hsub
      have hlt : i < (List.zipWith (· - ·)
          (List.zipWith (· + ·) (List.replicate len (0 : K)) y) predicted).length := by
        simp [hy', hp']; exact hi
      rw [List.getElem?_eq_getElem hlt] at hsub ⊢
      simp only [Option.map_some', Option.getD_some] at hsub ⊢
      rw [hsub, hzi]
      ring

/-- What a successful `Fit` has done: every helper returned, the weighted row and the
residual computation succeeded, and the state left behind holds their results. -/
theorem Fit_ok (env : ForecastEnv Time Options TFeat FeatMap Scores K)
    (f f' : Forecast Options Scores K) (td : TimeDataset Time K)
    (h : f.Fit env (some td) = (f', .ok ())) :
    ∃ x labels features observations intercept coef predicted scores residual,
      f.generateFeatures env td.t = .ok x ∧ env.featureLabels x = .ok labels ∧
      env.featureMatrix td.t labels x = .ok features ∧
      env.observationMatrix td.y = .ok observations ∧
      env.OLS features observations = .ok (intercept, coef) ∧
      Forecast.predictRow env
        ⟨f.opt, f.scores, labels, f.residual, coef, intercept⟩ td.t x = .ok predicted ∧
      env.NewScores predicted td.y = .ok scores ∧
      fitResidual td.t.length td.y predicted = .ok residual ∧
      f' = ⟨f.opt, some scores, labels, residual, coef, intercept⟩ := by
  simp only [Forecast.Fit] at h
  cases hx : f.generateFeatures env td.t with
  | error e => rw [hx] at h; simp at h
  | ok x =>
    rw [hx] at h
    simp only at h
    cases hl : env.featureLabels x with
    | error e => rw [hl] at h; simp at h
    | ok labels =>
      rw [hl] at h
      simp only at h
      cases hm : env.featureMatrix td.t labels x with
      | error e => rw [hm] at h; simp at h
      | ok features =>
        rw [hm] at h
        simp only at h
        cases ho : env.observationMatrix td.y with
        | error e => rw [ho] at h; simp at h
        | ok observations =>
          rw [ho] at h
          simp only at h
          cases hols : env.OLS features observations with
          | error e => rw [hols] at h; simp at h
          | ok ic =>
            obtain ⟨intercept, coef⟩ := ic
            rw [hols] at h
            simp only [Forecast.fitScore] at h
            have hgx : Forecast.generateFeatures env
                (⟨f.opt, f.scores, labels, f.residual, coef, intercept⟩ :
                  Forecast Options Scores K) td.t = .ok x := hx
            rcases Predict_cases env
                (⟨f.opt, f.scores, labels, f.residual, coef, intercept⟩ :
                  Forecast Options Scores K) td.t with
              ⟨e, hP, _⟩ | ⟨x', labels', hx', hl', hP⟩
            · rw [hP] at h
              simp at h
            · rw [hgx] at hx'
              have hxx : x = x' := Except.ok.inj hx'
              subst hxx
              rw [hl] at hl'
              have hll : labels = labels' := Except.ok.inj hl'
              subst hll
              rw [hP] at h
              cases hrow : Forecast.predictRow env
                  (⟨f.opt, f.scores, labels, f.residual, coef, intercept⟩ :
                    Forecast Options Scores K) td.t x with
              | error e => rw [hrow] at h; simp at h
              | ok predicted =>
                rw [hrow] at h
                simp only at h
                cases hsc : env.NewScores predicted td.y with
                | error e => rw [hsc] at h; simp at h
                | ok scores =>
                  rw [hsc] at h
                  simp only at h
                  cases hres : fitResidual td.t.length td.y predicted with
                  | error e => rw [hres] at h; simp at h
                  | ok residual =>
                    rw [hres] at h
                    simp only at h
                    exact ⟨x, labels, features, observations, intercept, coef, predicted,
                      scores, residual, rfl, hl, hm, rfl, hols, hrow, hsc, hres,
                      (Prod.mk.inj h).1.symm⟩

/-- C14: after a successful `Fit(series)` the stored residual vector has one entry per
training point and `residual[i] = predicted[i] − series.y[i]` for every `i`, where
`predicted`, of the same length, is what `Predict` returns on the training timestamps
in the state that `Fit` leaves behind. -/
theorem fit_residual (env : ForecastEnv Time Options TFeat FeatMap Scores K)
    (f f' : Forecast Options Scores K) (td : TimeDataset Time K)
    (h : f.Fit env (some td) = (f', .ok ())) :
    ∃ predicted, (f'.Predict env td.t).2 = .ok predicted ∧
      f'.residual.length = td.t.length ∧ predicted.length = td.t.length ∧
      td.y.length = td.t.length ∧
      ∀ i, i < td.t.length → f'.residual.getD i 0 = predicted.getD i 0 - td.y.getD i 0 := by
  obtain ⟨x, labels, features, observations, intercept, coef, predicted, scores, residual,
    hx, hl, _, _, _, hrow, _, hres, hf⟩ := Fit_ok env f f' td h
  obtain ⟨hy, hp, hr, hval⟩ := fitResidual_ok td.t.length td.y predicted residual hres
  refine ⟨predicted, ?_, ?_, hp, hy, ?_⟩
  · have hgx : f'.generateFeatures env td.t = .ok x := by
      rw [hf]
      exact hx
    rcases Predict_cases env f' td.t with ⟨e, _, he | ⟨x', hx', he⟩⟩ | ⟨x', labels', hx', hl', hP⟩
    · rw [hgx] at he
      exact absurd he (by simp)
    · rw [hgx] at hx'
      rw [← Except.ok.inj hx', hl] at he
      exact absurd he (by simp)
    · rw [hgx] at hx'
      have hxx : x = x' := Except.ok.inj hx'
      subst hxx
      rw [hl] at hl'
      have hll : labels = labels' := Except.ok.inj hl'
      subst hll
      rw [hP, ← hrow]
      exact predictRow_congr env _ _ td.t x rfl (by rw [hf]) (by rw [hf])
  · rw [hf]
    exact hr
  · intro i hi
    rw [hf]
    exact hval i hi

/-- Witness for C14: a fit on the three points `(0, 1)`, `(1, 3)`, `(2, 6)` with the
example helpers and the model `1 + 2·a`; the predictions are `[1, 3, 5]` and the stored
residuals are `[0, 0, -1]`. -/
theorem fit_residual_witness :
    ∃ predicted,
      (Forecast.Predict (exampleEnv (fun t => [("a", t.map fun n => (n : ℚ))]) (1, [2]))
        (⟨(), some (), ["a"], [0, 0, -1], [2], 1⟩ : Forecast Unit Unit ℚ) [0, 1, 2]).2
        = .ok predicted ∧
      ([0, 0, -1] : List ℚ).length = [0, 1, 2].length ∧
      predicted.length = [0, 1, 2].length ∧
      ([1, 3, 6] : List ℚ).length = [0, 1, 2].length ∧
      ∀ i, i < [0, 1, 2].length →
        ([0, 0, -1] : List ℚ).getD i 0 = predicted.getD i 0 - ([1, 3, 6] : List ℚ).getD i 0 :=
  fit_residual (exampleEnv (fun t => [("a", t.map fun n => (n : ℚ))]) (1, [2]))
    (NewForecast (exampleEnv (fun t => [("a", t.map fun n => (n : ℚ))]) (1, [2])) none)
    ⟨(), some (), ["a"], [0, 0, -1], [2], 1⟩ ⟨[0, 1, 2], [1, 3, 6]⟩ (by decide!)

/-- A counting loop whose steps all succeed and preserve an invariant succeeds. -/
theorem foldlM_range_ok {ε σ : Type} (f : σ → ℕ → Except ε σ) (P : ℕ → σ → Prop)
    (n : ℕ) (s0 : σ) (h0 : P 0 s0)
    (hstep : ∀ k s, k < n → P k s → ∃ s', f s k = .ok s' ∧ P (k + 1) s') :
    ∃ s', (List.range n).foldlM f s0 = .ok s' ∧ P n s' := by
  induction n with
  | zero => exact ⟨s0, rfl, h0⟩
  | succ n ih =>
    obtain ⟨s1, h1, hP1⟩ := ih (fun k s hk hP => hstep k s (by omega) hP)
    obtain ⟨s2, h2, hP2⟩ := hstep n s1 (by omega) hP1
    refine ⟨s2, ?_, hP2⟩
    rw [List.range_succ, List.foldlM_append, h1]
    simp only [List.foldlM_cons, List.foldlM_nil, bind, Except.bind, h2]
    rfl

/-- The loop of `Coefficients` on distinct labels, with no more coefficients than labels:
it succeeds, the keys of the map are the labels that have a coefficient, and each of
them is mapped to the coefficient at its position. -/
theorem coefficientsLoop_spec (labels : List String) (coef : List K)
    (hnd : labels.Nodup) (hlen : coef.length ≤ labels.length) :
    ∃ c, coefficientsLoop labels coef = .ok c ∧
      c.map (fun e => e.1) = labels.take coef.length ∧
      ∀ i l, i < coef.length → labels[i]? = some l →
        goMapGet c l = some (coef.getD i 0) := by
  have := foldlM_range_ok
    (fun (m : List (String × K)) i =>
      match labels[i]? with
      | none => (.error (.failure (.panic .indexOutOfRange)) : Except ForecastError _)
      | some l => .ok (goMapSet m l (coef.getD i 0)))
    (fun k m => m.map (fun e => e.1) = labels.take k ∧
      ∀ i l, i < k → labels[i]? = some l → goMapGet m l = some (coef.getD i 0))
    coef.length [] ⟨by simp, by intro i l hi; omega⟩
    (by
      intro k m hk ⟨hkeys, hget⟩
      have hkl : k < labels.length := by omega
      have hlk : labels[k]? = some labels[k] := List.getElem?_eq_getElem hkl
      refine ⟨goMapSet m labels[k] (coef.getD k 0), by simp only [hlk], ?_, ?_⟩
      · rw [goMapSet_keys, hkeys]
        have hnot : labels[k] ∉ labels.take k := by
          intro hmem
          obtain ⟨i, hi, hil⟩ := List.getElem_of_mem hmem
          rw [List.length_take] at hi
          rw [List.getElem_take] at hil
          have := (List.Nodup.getElem_inj_iff hnd).mp hil
          omega
        rw [if_neg hnot]
        rw [List.take_succ, hlk]
        rfl
      · intro i l hi hil
        by_cases hik : i = k
        · subst hik
          rw [hlk] at hil
          rw [← Option.some.inj hil]
          exact goMapGet_set_self _ _ _
        · have hne : labels[k] ≠ l := by
            intro heq
            have hi' : i < labels.length := by omega
            rw [List.getElem?_eq_getElem hi'] at hil
            have hil' : labels[i] = labels[k] := by rw [Option.some.inj hil, heq]
            have := (List.Nodup.getElem_inj_iff hnd).mp hil'
            omega
          rw [goMapGet_set_ne _ _ _ _ hne]
          exact hget i l (by omega) hil)
  obtain ⟨c, hc, hkeys, hget⟩ := this
  exact ⟨c, hc, hkeys, hget⟩

/-- `Predict` never changes the coefficient vector, whether it succeeds or fails. -/
theorem Predict_coef (env : ForecastEnv Time Options TFeat FeatMap Scores K)
    (f : Forecast Options Scores K) (t : List Time) : (f.Predict env t).1.coef = f.coef := by
  rcases Predict_cases env f t with ⟨e, h, _⟩ | ⟨x, labels, _, _, h⟩
  · rw [h]
  · rw [h]

/-- C13 (amended): `Coefficients` fails with `ErrNoModelCoefficients` on every state
reached from `NewForecast` by `Predict` calls alone (`Fit` never called).  A successful
`Fit` leaves one coefficient per label; when it leaves at least one label and the labels
are pairwise distinct, `Coefficients` succeeds and returns a mapping whose size is the
label count and that maps `labels[i]` to `coef[i]` for every `i`; when it leaves no
label, `Coefficients` still fails with `ErrNoModelCoefficients`. -/
theorem coefficients_after_fit (env : ForecastEnv Time Options TFeat FeatMap Scores K) :
    (∀ (opt : Option Options) (ts : List (List Time)),
      (ts.foldl (fun f t => (f.Predict env t).1) (NewForecast env opt)).Coefficients
        = .error .noModelCoefficients) ∧
    (∀ (f f' : Forecast Options Scores K) (td : TimeDataset Time K),
      f.Fit env (some td) = (f', .ok ()) →
      f'.coef.length = f'.fLabels.length ∧
      (f'.fLabels ≠ [] → f'.fLabels.Nodup →
        ∃ c, f'.Coefficients = .ok c ∧ c.length = f'.fLabels.length ∧
          ∀ i l, f'.fLabels[i]? = some l → goMapGet c l = some (f'.coef.getD i 0)) ∧
      (f'.fLabels = [] → f'.Coefficients = .error .noModelCoefficients)) := by
  constructor
  · intro opt ts
    have hcoef : ∀ (ts : List (List Time)) (f : Forecast Options Scores K),
        (ts.foldl (fun f t => (f.Predict env t).1) f).coef = f.coef := by
      intro ts
      induction ts with
      | nil => intro f; rfl
      | cons t ts ih =>
        intro f
        rw [List.foldl_cons, ih, Predict_coef]
    have h0 : (ts.foldl (fun f t => (f.Predict env t).1) (NewForecast env opt)).coef = [] := by
      rw [hcoef]
      rfl
    simp only [Forecast.Coefficients, h0, List.length_nil, or_true, if_true]
  · intro f f' td h
    obtain ⟨x, labels, features, observations, intercept, coef, predicted, scores, residual,
      _, _, _, _, _, hrow, _, _, hf⟩ := Fit_ok env f f' td h
    have hlen : f'.coef.length = f'.fLabels.length := by
      rw [hf]
      exact predictRow_ok env _ td.t x predicted hrow
    refine ⟨hlen, ?_, ?_⟩
    · intro hne hnd
      obtain ⟨c, hc, hkeys, hget⟩ := coefficientsLoop_spec f'.fLabels f'.coef hnd (by omega)
      have hpos : 0 < f'.fLabels.length := List.length_pos.mpr hne
      refine ⟨c, ?_, ?_, ?_⟩
      · simp only [Forecast.Coefficients]
        rw [if_neg (by omega)]
        exact hc
      · have := congrArg List.length hkeys
        rw [List.length_map, List.length_take] at this
        omega
      · intro i l hil
        have hi : i < f'.fLabels.length := by
          by_contra hge
          rw [List.getElem?_eq_none (by omega)] at hil
          exact absurd hil (by simp)
        exact hget i l (by omega) hil
    · intro hnil
      simp only [Forecast.Coefficients, hnil, List.length_nil, true_or, if_true]

/-- Witness for C13 (amended): a fit on three points with the example helpers and the
model `1 + 2·a`; `Coefficients` returns the one-entry mapping `a ↦ 2`. -/
theorem coefficients_after_fit_witness :
    ∃ c, (⟨(), some (), ["a"], [0, 0, -1], [2], 1⟩ : Forecast Unit Unit ℚ).Coefficients = .ok c ∧
      c.length = ["a"].length ∧
      ∀ i l, ["a"][i]? = some l → goMapGet c l = some (([2] : List ℚ).getD i 0) :=
  ((coefficients_after_fit
    (exampleEnv (fun t => [("a", t.map fun n => (n : ℚ))]) (1, [2]))).2
    (NewForecast (exampleEnv (fun t => [("a", t.map fun n => (n : ℚ))]) (1, [2])) none)
    ⟨(), some (), ["a"], [0, 0, -1], [2], 1⟩ ⟨[0, 1, 2], [1, 3, 6]⟩ (by decide!)).2.1
    (by decide) (by decide)

/-- C13, counterexample: with helpers that produce no feature (an empty feature map, a
design matrix holding the intercept column only, the model `3` without coefficients),
`Fit` on the single point `(0, 3)` succeeds and leaves a coefficient vector with one
entry per label (none of either), yet `Coefficients` fails with
`ErrNoModelCoefficients` instead of returning the empty mapping. -/
theorem coefficients_after_fit_counterexample :
    ∃ f', (NewForecast (exampleEnv (fun _ => []) (3, [])) none).Fit
        (exampleEnv (fun _ => []) (3, [])) (some ⟨[0], [3]⟩) = (f', .ok ()) ∧
      f'.coef.length = f'.fLabels.length ∧
      f'.Coefficients = .error .noModelCoefficients :=
  ⟨⟨(), some (), [], [0], [], 3⟩, by decide!, rfl, by decide!⟩

end OrchestratorTheorems

end GoForecast
